import Mathlib

/-! pr-reviewer-service: reviewer assignment, merge, reassignment and bulk deactivation

A shallow embedding of `internal/domain`, `internal/service`, the handlers of
`internal/http` and the repositories the services run on, followed by theorems
about it.

Conventions of the embedding.

* Go strings (`UserID`, `TeamName`, `PullRequestID`, `PRStatus`) are Lean
  `String`s; slices are `List`s (values, no aliasing); `time.Time` is a `Nat`
  instant; `*time.Time` is an `Option`.
* A repository interface is a record of functions over a store state `σ`.
  Every method takes the state and returns its result together with the next
  state, so a store may fail or change on any call.
* `*rand.Rand` is a record over a generator state `ρ` with the one method the
  service uses, `Perm`.
* A service method is a function from a `World` (store state, generator state,
  trace of repository calls made so far) to an outcome and the next `World`.
  The trace records every repository call with its arguments and its result,
  in the order the calls were made.
* `context.Context` is not modelled; a cancelled call shows as a repository
  call that returns an error.
-/

namespace PRReviewer

/-! ## internal/domain/models.go -/

abbrev UserID := String
abbrev TeamName := String
abbrev PullRequestID := String
abbrev PRStatus := String

/-- Instants of `time.Time`. -/
abbrev Time := Nat

def PRStatusOpen : PRStatus := "OPEN"
def PRStatusMerged : PRStatus := "MERGED"

structure User where
  ID : UserID
  Username : String
  TeamName : TeamName
  IsActive : Bool
  deriving DecidableEq, Repr

structure Team where
  Name : TeamName
  Members : List User
  deriving DecidableEq, Repr

structure PullRequest where
  ID : PullRequestID
  Name : String
  AuthorID : UserID
  Status : PRStatus
  AssignedReviewers : List UserID
  CreatedAt : Time
  MergedAt : Option Time
  deriving DecidableEq, Repr

structure PullRequestShort where
  ID : PullRequestID
  Name : String
  AuthorID : UserID
  Status : PRStatus
  deriving DecidableEq, Repr

/-! ## internal/domain/errors.go -/

/-- The sentinel errors of `errors.go`, plus the two outcomes that are not
sentinels: `internal` is any other error a repository returns (a wrapped
driver error, a cancelled context), `indexOutOfRange` is the run-time panic of
a slice access outside its bounds, which unwinds through every caller. -/
inductive Err where
  | ErrTeamExists
  | ErrPullRequestExists
  | ErrPullRequestMerged
  | ErrNotAssigned
  | ErrNoCandidate
  | ErrNotFound
  | internal (msg : String)
  | indexOutOfRange
  deriving DecidableEq, Repr

/-! ## internal/domain/ports.go -/

structure TeamRepository (σ : Type) where
  CreateTeam : TeamName → σ → Except Err Unit × σ
  GetTeam : TeamName → σ → Except Err Team × σ
  TeamExists : TeamName → σ → Except Err Bool × σ

structure UserRepository (σ : Type) where
  UpsertUsers : List User → σ → Except Err Unit × σ
  GetByID : UserID → σ → Except Err User × σ
  SetIsActive : UserID → Bool → σ → Except Err User × σ
  ListActiveByTeam : TeamName → σ → Except Err (List User) × σ

structure PullRequestRepository (σ : Type) where
  Create : PullRequest → σ → Except Err Unit × σ
  Exists : PullRequestID → σ → Except Err Bool × σ
  Get : PullRequestID → σ → Except Err PullRequest × σ
  MarkMerged : PullRequestID → Time → σ → Except Err Unit × σ
  ReplaceReviewer : PullRequestID → UserID → UserID → σ → Except Err Unit × σ
  ListByReviewer : UserID → σ → Except Err (List PullRequestShort) × σ
  StatsAssignmentsByUser : σ → Except Err (List (UserID × Int)) × σ

/-- The part of `math/rand`'s `*rand.Rand` the service uses: `Perm n` returns a
permutation of `0, ..., n-1` and advances the generator. -/
structure Rand (ρ : Type) where
  Perm : Nat → ρ → List Nat × ρ
  Perm_perm : ∀ n r, List.Perm (Perm n r).1 (List.range n)

/-! ## Trace of repository calls -/

/-- One repository call: the method, its arguments, and what it returned. -/
inductive Event where
  | CreateTeam (name : TeamName) (res : Except Err Unit)
  | GetTeam (name : TeamName) (res : Except Err Team)
  | TeamExists (name : TeamName) (res : Except Err Bool)
  | UpsertUsers (users : List User) (res : Except Err Unit)
  | GetByID (id : UserID) (res : Except Err User)
  | SetIsActive (id : UserID) (isActive : Bool) (res : Except Err User)
  | ListActiveByTeam (teamName : TeamName) (res : Except Err (List User))
  | Create (pr : PullRequest) (res : Except Err Unit)
  | Exists (id : PullRequestID) (res : Except Err Bool)
  | Get (id : PullRequestID) (res : Except Err PullRequest)
  | MarkMerged (id : PullRequestID) (mergedAt : Time) (res : Except Err Unit)
  | ReplaceReviewer (prID : PullRequestID) (oldUserID newUserID : UserID)
      (res : Except Err Unit)
  | ListByReviewer (reviewerID : UserID) (res : Except Err (List PullRequestShort))
  | StatsAssignmentsByUser (res : Except Err (List (UserID × Int)))

/-- The calls that write to the store. -/
def Event.isMutating : Event → Bool
  | .CreateTeam _ _ => true
  | .UpsertUsers _ _ => true
  | .SetIsActive _ _ _ => true
  | .Create _ _ => true
  | .MarkMerged _ _ _ => true
  | .ReplaceReviewer _ _ _ _ => true
  | _ => false

def Event.isReplaceReviewer : Event → Bool
  | .ReplaceReviewer _ _ _ _ => true
  | _ => false

def Event.isMarkMerged : Event → Bool
  | .MarkMerged _ _ _ => true
  | _ => false

/-! ## Worlds and effectful computations -/

structure World (σ ρ : Type) where
  store : σ
  rand : ρ
  log : List Event

/-- A computation that may return an error; the world it leaves behind is kept
in both cases, as the effects of a Go function are when it returns `err`. -/
def Eff (σ ρ α : Type) : Type := World σ ρ → Except Err α × World σ ρ

namespace Eff

variable {σ ρ α β : Type}

def pure (a : α) : Eff σ ρ α := fun w => (.ok a, w)

def fail (e : Err) : Eff σ ρ α := fun w => (.error e, w)

/-- Sequencing with `if err != nil { return ..., err }` after the first step. -/
def bind (m : Eff σ ρ α) (f : α → Eff σ ρ β) : Eff σ ρ β := fun w =>
  match m w with
  | (.ok a, w1) => f a w1
  | (.error e, w1) => (.error e, w1)

/-- Run a repository method on the store of the world and record the call. -/
def call (op : σ → Except Err α × σ) (ev : Except Err α → Event) : Eff σ ρ α :=
  fun w =>
    let r := op w.store
    (r.1, { w with store := r.2, log := w.log ++ [ev r.1] })

end Eff

instance {σ ρ : Type} : Monad (Eff σ ρ) where
  pure := Eff.pure
  bind := Eff.bind

/-! ## internal/service/services.go -/

/-- The loop `for i := 0; i < n; i++ { u := users[indices[i]]; res = append(res, u.ID) }`
started at `i`, with `k = n - i` iterations left; `none` when an index is out
of range. -/
def pickLoop (users : List User) (indices : List Nat) : Nat → Nat → Option (List UserID)
  | _, 0 => some []
  | i, k + 1 =>
    match indices[i]? with
    | none => none
    | some idx =>
      match users[idx]? with
      | none => none
      | some u =>
        match pickLoop users indices (i + 1) k with
        | none => none
        | some rest => some (u.ID :: rest)

/-- The body of `pickRandomReviewers` after `indices := rnd.Perm(len(users))`. -/
def pickWithIndices (users : List User) (limit : Int) (indices : List Nat) :
    Option (List UserID) :=
  let n : Nat := if (users.length : Int) < limit then users.length else limit.toNat
  pickLoop users indices 0 n

/-- Function `pickRandomReviewers(users, limit, rnd)`: the result (`none` for an index
out of range) and the generator state afterwards. -/
def pickRandomReviewers {ρ : Type} (users : List User) (limit : Int) (rnd : Rand ρ) (r : ρ) :
    Option (List UserID) × ρ :=
  if users.length = 0 ∨ limit ≤ 0 then
    (some [], r)
  else
    let p := rnd.Perm users.length r
    (pickWithIndices users limit p.1, p.2)

/-! ## internal/service/pull_request.go -/

structure PRService (σ ρ : Type) where
  Users : UserRepository σ
  Prs : PullRequestRepository σ
  Rand : Rand ρ

namespace PRService

variable {σ ρ : Type}

/-- The call `pickRandomReviewers(users, limit, s.Rand)` inside a service
method: it advances the generator of the world; an index out of range ends the
method with `indexOutOfRange`. -/
def pick (s : PRService σ ρ) (users : List User) (limit : Int) : Eff σ ρ (List UserID) :=
  fun w =>
    match pickRandomReviewers users limit s.Rand w.rand with
    | (some ids, r) => (.ok ids, { w with rand := r })
    | (none, r) => (.error .indexOutOfRange, { w with rand := r })

/-- Method `PRService.Create`; `now` is the reading of `time.Now().UTC()`. -/
def Create (s : PRService σ ρ) (id : PullRequestID) (name : String) (authorID : UserID)
    (now : Time) : Eff σ ρ PullRequest := do
  let alreadyExists ← Eff.call (s.Prs.Exists id) (Event.Exists id)
  if alreadyExists then
    Eff.fail .ErrPullRequestExists
  else do
    let author ← Eff.call (s.Users.GetByID authorID) (Event.GetByID authorID)
    let candidates ←
      Eff.call (s.Users.ListActiveByTeam author.TeamName) (Event.ListActiveByTeam author.TeamName)
    let filtered := candidates.filter (fun u => !(u.ID == author.ID))
    let assigned ← s.pick filtered 2
    let pr : PullRequest :=
      { ID := id
        Name := name
        AuthorID := authorID
        Status := PRStatusOpen
        AssignedReviewers := assigned
        CreatedAt := now
        MergedAt := none }
    Eff.call (s.Prs.Create pr) (Event.Create pr)
    pure pr

/-- Method `PRService.Merge`; `now` is the reading of `time.Now().UTC()`. -/
def Merge (s : PRService σ ρ) (id : PullRequestID) (now : Time) : Eff σ ρ PullRequest := do
  let pr ← Eff.call (s.Prs.Get id) (Event.Get id)
  if pr.Status == PRStatusMerged then
    pure pr
  else do
    Eff.call (s.Prs.MarkMerged id now) (Event.MarkMerged id now)
    pure { pr with Status := PRStatusMerged, MergedAt := some now }

/-- The loop `for i, r := range rs { if r == oldUserID { rs[i] = newUserID; break } }`. -/
def replaceFirst (oldUserID newUserID : UserID) : List UserID → List UserID
  | [] => []
  | r :: rs => if r == oldUserID then newUserID :: rs else r :: replaceFirst oldUserID newUserID rs

/-- The loop of `Reassign` that builds `filtered`: the candidates that are
neither the old reviewer, nor the author, nor in `assignedSet`. -/
def reassignFiltered (pr : PullRequest) (oldUserID : UserID) (candidates : List User) :
    List User :=
  candidates.filter (fun u =>
    !(u.ID == oldUserID) && !(u.ID == pr.AuthorID) && !(pr.AssignedReviewers.contains u.ID))

/-- Method `PRService.Reassign`. -/
def Reassign (s : PRService σ ρ) (prID : PullRequestID) (oldUserID : UserID) :
    Eff σ ρ (PullRequest × UserID) := do
  let pr ← Eff.call (s.Prs.Get prID) (Event.Get prID)
  if pr.Status == PRStatusMerged then
    Eff.fail .ErrPullRequestMerged
  else
    let found := pr.AssignedReviewers.any (fun r => r == oldUserID)
    if !found then
      Eff.fail .ErrNotAssigned
    else do
      let oldUser ← Eff.call (s.Users.GetByID oldUserID) (Event.GetByID oldUserID)
      let candidates ←
        Eff.call (s.Users.ListActiveByTeam oldUser.TeamName)
          (Event.ListActiveByTeam oldUser.TeamName)
      let filtered := reassignFiltered pr oldUserID candidates
      if filtered.length == 0 then
        Eff.fail .ErrNoCandidate
      else do
        let picked ← s.pick filtered 1
        match picked[0]? with
        | none => Eff.fail .indexOutOfRange
        | some newReviewer => do
          Eff.call (s.Prs.ReplaceReviewer prID oldUserID newReviewer)
            (Event.ReplaceReviewer prID oldUserID newReviewer)
          pure
            ({ pr with
                AssignedReviewers := replaceFirst oldUserID newReviewer pr.AssignedReviewers },
              newReviewer)

/-- Method `PRService.ListByReviewer`. -/
def ListByReviewer (s : PRService σ ρ) (reviewerID : UserID) :
    Eff σ ρ (List PullRequestShort) :=
  Eff.call (s.Prs.ListByReviewer reviewerID) (Event.ListByReviewer reviewerID)

/-- Method `PRService.StatsAssignmentsByUser`. -/
def StatsAssignmentsByUser (s : PRService σ ρ) : Eff σ ρ (List (UserID × Int)) :=
  Eff.call s.Prs.StatsAssignmentsByUser Event.StatsAssignmentsByUser

/-- The inner loop of `BulkDeactivateAndReassign`: `for _, pr := range prs`. -/
def reassignOpen (s : PRService σ ρ) (uid : UserID) : List PullRequestShort → Eff σ ρ Unit
  | [] => Eff.pure ()
  | pr :: rest =>
    if pr.Status != PRStatusOpen then
      reassignOpen s uid rest
    else fun w =>
      match s.Reassign pr.ID uid w with
      | (.ok _, w1) => reassignOpen s uid rest w1
      | (.error err, w1) =>
        if err = .ErrNoCandidate ∨ err = .ErrPullRequestMerged then
          reassignOpen s uid rest w1
        else
          (.error err, w1)

/-- Method `PRService.BulkDeactivateAndReassign`: the loop `for _, uid := range userIDs`. -/
def BulkDeactivateAndReassign (s : PRService σ ρ) : List UserID → Eff σ ρ Unit
  | [] => Eff.pure ()
  | uid :: rest => fun w =>
    match Eff.call (s.Users.GetByID uid) (Event.GetByID uid) w with
    | (.error err, w1) =>
      if err = .ErrNotFound then
        BulkDeactivateAndReassign s rest w1
      else
        (.error err, w1)
    | (.ok _, w1) =>
      match Eff.call (s.Users.SetIsActive uid false) (Event.SetIsActive uid false) w1 with
      | (.error err, w2) => (.error err, w2)
      | (.ok _, w2) =>
        match Eff.call (s.Prs.ListByReviewer uid) (Event.ListByReviewer uid) w2 with
        | (.error err, w3) => (.error err, w3)
        | (.ok prs, w3) =>
          match reassignOpen s uid prs w3 with
          | (.error err, w4) => (.error err, w4)
          | (.ok _, w4) => BulkDeactivateAndReassign s rest w4

end PRService

/-! ## The in-memory repositories of internal/service/pull_request_test.go

`fakeUserRepo` and `fakePRRepo` keep Go maps. A map is modelled as the list of
its entries: a key occurs at most once (`FakeStore.WF`), a write to a present
key replaces its value in place, a write to a new key adds an entry at the end,
and `range` visits the entries in list order. A slice held in the map is a
value: the backing array that `fakePRRepo.Get` shares with its caller in Go is
not modelled, which makes no difference as long as the reviewer IDs of a pull
request are pairwise distinct. -/

/-- Map read `m[k]`. -/
def mapGet {V : Type} (k : String) : List (String × V) → Option V
  | [] => none
  | (k1, v) :: rest => if k1 == k then some v else mapGet k rest

/-- Map write `m[k] = v`. -/
def mapSet {V : Type} (k : String) (v : V) : List (String × V) → List (String × V)
  | [] => [(k, v)]
  | (k1, v1) :: rest => if k1 == k then (k, v) :: rest else (k1, v1) :: mapSet k v rest

structure FakeStore where
  users : List (UserID × User)
  prs : List (PullRequestID × PullRequest)
  deriving DecidableEq, Repr

namespace FakeStore

/-- Method `fakeUserRepo.UpsertUsers`. -/
def UpsertUsers (us : List User) (st : FakeStore) : Except Err Unit × FakeStore :=
  (.ok (), { st with users := us.foldl (fun m u => mapSet u.ID u m) st.users })

/-- Method `fakeUserRepo.GetByID`. -/
def GetByID (id : UserID) (st : FakeStore) : Except Err User × FakeStore :=
  match mapGet id st.users with
  | none => (.error .ErrNotFound, st)
  | some u => (.ok u, st)

/-- Method `fakeUserRepo.SetIsActive`. -/
def SetIsActive (id : UserID) (isActive : Bool) (st : FakeStore) : Except Err User × FakeStore :=
  match mapGet id st.users with
  | none => (.error .ErrNotFound, st)
  | some u =>
    let u1 : User := { u with IsActive := isActive }
    (.ok u1, { st with users := mapSet id u1 st.users })

/-- Method `fakeUserRepo.ListActiveByTeam`. -/
def ListActiveByTeam (teamName : TeamName) (st : FakeStore) :
    Except Err (List User) × FakeStore :=
  (.ok ((st.users.map Prod.snd).filter (fun u => u.TeamName == teamName && u.IsActive)), st)

/-- Method `fakePRRepo.Create`. -/
def Create (pr : PullRequest) (st : FakeStore) : Except Err Unit × FakeStore :=
  (.ok (), { st with prs := mapSet pr.ID pr st.prs })

/-- Method `fakePRRepo.Exists`. -/
def Exists (id : PullRequestID) (st : FakeStore) : Except Err Bool × FakeStore :=
  (.ok (mapGet id st.prs).isSome, st)

/-- Method `fakePRRepo.Get`. -/
def Get (id : PullRequestID) (st : FakeStore) : Except Err PullRequest × FakeStore :=
  match mapGet id st.prs with
  | none => (.error .ErrNotFound, st)
  | some pr => (.ok pr, st)

/-- Method `fakePRRepo.MarkMerged`. -/
def MarkMerged (id : PullRequestID) (mergedAt : Time) (st : FakeStore) :
    Except Err Unit × FakeStore :=
  match mapGet id st.prs with
  | none => (.error .ErrNotFound, st)
  | some pr =>
    (.ok (), { st with
      prs := mapSet id { pr with Status := PRStatusMerged, MergedAt := some mergedAt } st.prs })

/-- Method `fakePRRepo.ReplaceReviewer`. -/
def ReplaceReviewer (prID : PullRequestID) (oldUserID newUserID : UserID) (st : FakeStore) :
    Except Err Unit × FakeStore :=
  match mapGet prID st.prs with
  | none => (.error .ErrNotFound, st)
  | some pr =>
    (.ok (), { st with
      prs := mapSet prID
        { pr with
          AssignedReviewers := PRService.replaceFirst oldUserID newUserID pr.AssignedReviewers }
        st.prs })

/-- Method `fakePRRepo.ListByReviewer`. -/
def ListByReviewer (reviewerID : UserID) (st : FakeStore) :
    Except Err (List PullRequestShort) × FakeStore :=
  (.ok (((st.prs.map Prod.snd).filter
      (fun pr => pr.AssignedReviewers.any (fun rID => rID == reviewerID))).map
      (fun pr => { ID := pr.ID, Name := pr.Name, AuthorID := pr.AuthorID, Status := pr.Status })),
    st)

/-- Method `fakePRRepo.StatsAssignmentsByUser`. -/
def StatsAssignmentsByUser (st : FakeStore) : Except Err (List (UserID × Int)) × FakeStore :=
  (.ok [], st)

/-- The pull requests form a Go map in which every pull request is stored
under its own ID, as `fakePRRepo.Create` stores it: each key occurs once, and
the key of a pull request is its `ID`. Then `ListByReviewer` and `Get` agree:
every entry `ListByReviewer` returns is the projection of what `Get` returns
for its ID, and no ID is listed twice. -/
def WF (st : FakeStore) : Prop :=
  (st.prs.map Prod.fst).Nodup ∧ ∀ e ∈ st.prs, e.2.ID = e.1

end FakeStore

/-- What the inner loop of the bulk operation needs of the listed pull
requests: no ID is listed twice, and every listed OPEN one is stored, not
merged, with `uid` among its reviewers. -/
def ListedForReviewer (uid : UserID) (st : FakeStore) (ps : List PullRequestShort) : Prop :=
  (ps.map (fun p => p.ID)).Nodup ∧
    ∀ p ∈ ps, p.Status = PRStatusOpen →
      ∃ pr, mapGet p.ID st.prs = some pr ∧ pr.Status ≠ PRStatusMerged ∧
        uid ∈ pr.AssignedReviewers

def fakeUserRepo : UserRepository FakeStore :=
  { UpsertUsers := FakeStore.UpsertUsers
    GetByID := FakeStore.GetByID
    SetIsActive := FakeStore.SetIsActive
    ListActiveByTeam := FakeStore.ListActiveByTeam }

def fakePRRepo : PullRequestRepository FakeStore :=
  { Create := FakeStore.Create
    Exists := FakeStore.Exists
    Get := FakeStore.Get
    MarkMerged := FakeStore.MarkMerged
    ReplaceReviewer := FakeStore.ReplaceReviewer
    ListByReviewer := FakeStore.ListByReviewer
    StatsAssignmentsByUser := FakeStore.StatsAssignmentsByUser }

/-- The store law "`Get` is a query": reading a pull request leaves the store
as it was. -/
def PullRequestRepository.GetReadOnly {σ : Type} (P : PullRequestRepository σ)
    (id : PullRequestID) : Prop :=
  ∀ st, (P.Get id st).2 = st

/-- The store law "`MarkMerged` records the timestamp it is given": on a pull
request that `Get` finds not yet merged, `MarkMerged id t` returns no error and
afterwards `Get` finds it with status MERGED and merge timestamp `t`. -/
def PullRequestRepository.MarkMergedRecords {σ : Type} (P : PullRequestRepository σ)
    (id : PullRequestID) : Prop :=
  ∀ st t pr, (P.Get id st).1 = .ok pr → pr.Status ≠ PRStatusMerged →
    (P.MarkMerged id t st).1 = .ok () ∧
      ∃ pr1, (P.Get id (P.MarkMerged id t st).2).1 = .ok pr1 ∧
        pr1.Status = PRStatusMerged ∧ pr1.MergedAt = some t

/-- A generator whose every permutation is `n-1, ..., 1, 0`; its state counts
the calls. -/
def descendingRand : Rand Nat :=
  { Perm := fun n r => ((List.range n).reverse, r + 1)
    Perm_perm := fun n _ => List.reverse_perm (List.range n) }

/-- The service over the in-memory repositories, with any generator. -/
def memService {ρ : Type} (rnd : Rand ρ) : PRService FakeStore ρ :=
  { Users := fakeUserRepo, Prs := fakePRRepo, Rand := rnd }

/-- The service over the in-memory repositories with `descendingRand`. -/
def fakeService : PRService FakeStore Nat := memService descendingRand

/-- The in-memory pull-request repository with a `MarkMerged` that fails, as
the relational repository does when its `UPDATE` returns an error. -/
def failingMarkMergedRepo : PullRequestRepository FakeStore :=
  { fakePRRepo with
    MarkMerged := fun _ _ st => (.error (.internal "mark merged: connection lost"), st) }

/-- The service over `failingMarkMergedRepo`. -/
def failingMarkMergedService : PRService FakeStore Nat :=
  { Users := fakeUserRepo, Prs := failingMarkMergedRepo, Rand := descendingRand }

/-! ## Example states -/

/-- Team "backend" with four active members, one user of another team and one
inactive member, as in `TestPRService_Create_AssignsZeroOneTwoReviewers`. -/
def exUsers : List (UserID × User) :=
  [("u1", ⟨"u1", "Alice", "backend", true⟩),
   ("u2", ⟨"u2", "Bob", "backend", true⟩),
   ("u3", ⟨"u3", "Carol", "backend", true⟩),
   ("u4", ⟨"u4", "Dave", "backend", true⟩),
   ("u5", ⟨"u5", "Eve", "other", true⟩),
   ("u6", ⟨"u6", "Frank", "backend", false⟩)]

/-- No pull request yet. -/
def exWorld0 : World FakeStore Nat :=
  { store := { users := exUsers, prs := [] }, rand := 0, log := [] }

/-- The pull request `Create` returns on `exWorld0` for author `u1`. -/
def exPR : PullRequest :=
  { ID := "pr2", Name := "PR 2", AuthorID := "u1", Status := PRStatusOpen,
    AssignedReviewers := ["u4", "u3"], CreatedAt := 7, MergedAt := none }

/-- The world after that `Create`. -/
def exWorld1 : World FakeStore Nat :=
  (fakeService.Create "pr2" "PR 2" "u1" 7 exWorld0).2

/-- The world after `Merge` of `pr2` at time 9 in `exWorld1`. -/
def exWorld2 : World FakeStore Nat :=
  (fakeService.Merge "pr2" 9 exWorld1).2

/-- The pull request `exPR` once merged at time 9. -/
def exPRMerged : PullRequest :=
  { exPR with Status := PRStatusMerged, MergedAt := some 9 }

/-- The pull request `Reassign` returns in `exWorld1` for old reviewer `u4`:
the only candidate left is `u2`. -/
def exPRReassigned : PullRequest :=
  { exPR with AssignedReviewers := ["u2", "u3"] }

/-- The world after that `Reassign`. -/
def exWorld3 : World FakeStore Nat :=
  (fakeService.Reassign "pr2" "u4" exWorld1).2

/-- A pull request of author `a` reviewed by `b`. -/
def exPRSmall : PullRequest :=
  { ID := "p", Name := "P", AuthorID := "a", Status := PRStatusOpen,
    AssignedReviewers := ["b"], CreatedAt := 1, MergedAt := none }

/-- A team of two, author `a` and reviewer `b` of `exPRSmall`: no replacement
candidate for `b`. -/
def exWorldSmall : World FakeStore Nat :=
  { store :=
      { users := [("a", ⟨"a", "Ann", "core", true⟩), ("b", ⟨"b", "Ben", "core", true⟩)],
        prs := [("p", exPRSmall)] },
    rand := 0, log := [] }

/-! ## The in-memory repositories of internal/http/http_test/http_integration_test.go

`inMemoryUserRepo` and `inMemoryPRRepo` keep the same two Go maps as the
repositories above, so they share the state `FakeStore`; the mutexes are not
modelled. -/

/-- What `ListActiveByTeam` of both in-memory user repositories returns. -/
def FakeStore.activeInTeam (st : FakeStore) (teamName : TeamName) : List User :=
  (st.users.map Prod.snd).filter (fun u => u.TeamName == teamName && u.IsActive)

namespace InMemory

/-- Method `inMemoryPRRepo.Create`. -/
def Create (pr : PullRequest) (st : FakeStore) : Except Err Unit × FakeStore :=
  match mapGet pr.ID st.prs with
  | some _ => (.error .ErrPullRequestExists, st)
  | none => (.ok (), { st with prs := mapSet pr.ID pr st.prs })

/-- Method `inMemoryPRRepo.MarkMerged`. -/
def MarkMerged (id : PullRequestID) (mergedAt : Time) (st : FakeStore) :
    Except Err Unit × FakeStore :=
  match mapGet id st.prs with
  | none => (.error .ErrNotFound, st)
  | some pr =>
    if pr.Status == PRStatusMerged then
      (.ok (), st)
    else
      (.ok (), { st with
        prs := mapSet id { pr with Status := PRStatusMerged, MergedAt := some mergedAt } st.prs })

/-- Method `inMemoryPRRepo.ReplaceReviewer`. -/
def ReplaceReviewer (prID : PullRequestID) (oldUserID newUserID : UserID) (st : FakeStore) :
    Except Err Unit × FakeStore :=
  match mapGet prID st.prs with
  | none => (.error .ErrNotFound, st)
  | some pr =>
    if pr.AssignedReviewers.any (fun id => id == oldUserID) then
      (.ok (), { st with
        prs := mapSet prID
          { pr with
            AssignedReviewers :=
              PRService.replaceFirst oldUserID newUserID pr.AssignedReviewers }
          st.prs })
    else
      (.error .ErrNotAssigned, st)

/-- The statement `res[rid]++` on a map of counters. -/
def increment (rid : UserID) (res : List (UserID × Int)) : List (UserID × Int) :=
  match mapGet rid res with
  | some n => mapSet rid (n + 1) res
  | none => mapSet rid 1 res

/-- Method `inMemoryPRRepo.StatsAssignmentsByUser`. -/
def StatsAssignmentsByUser (st : FakeStore) : Except Err (List (UserID × Int)) × FakeStore :=
  (.ok ((st.prs.map Prod.snd).foldl
      (fun res pr => pr.AssignedReviewers.foldl (fun res1 rid => increment rid res1) res) []),
    st)

end InMemory

/-- The repository `inMemoryUserRepo`: method by method the code of
`fakeUserRepo`. -/
def inMemoryUserRepo : UserRepository FakeStore := fakeUserRepo

/-- The repository `inMemoryPRRepo`; `Exists`, `Get` and `ListByReviewer` are
the code of `fakePRRepo`. -/
def inMemoryPRRepo : PullRequestRepository FakeStore :=
  { Create := InMemory.Create
    Exists := FakeStore.Exists
    Get := FakeStore.Get
    MarkMerged := InMemory.MarkMerged
    ReplaceReviewer := InMemory.ReplaceReviewer
    ListByReviewer := FakeStore.ListByReviewer
    StatsAssignmentsByUser := InMemory.StatsAssignmentsByUser }

/-- The service over the repositories of the integration test. -/
def inMemoryService {ρ : Type} (rnd : Rand ρ) : PRService FakeStore ρ :=
  { Users := inMemoryUserRepo, Prs := inMemoryPRRepo, Rand := rnd }

/-- The user records form a Go map in which every user is stored under its own
ID, as `UpsertUsers` stores it: each key occurs once, and the key of a user is
its `ID`. Then `GetByID` returns the record of the requested ID and
`ListActiveByTeam` returns each user at most once. -/
def FakeStore.UsersWF (st : FakeStore) : Prop :=
  (st.users.map Prod.fst).Nodup ∧ ∀ e ∈ st.users, e.2.ID = e.1

/-- The in-memory user repository with a `SetIsActive` that fails, as the
relational repository does when its `UPDATE` returns an error. -/
def failingSetIsActiveRepo : UserRepository FakeStore :=
  { fakeUserRepo with
    SetIsActive := fun _ _ st => (.error (.internal "set is_active: connection lost"), st) }

/-- The service over `failingSetIsActiveRepo`. -/
def failingSetIsActiveService : PRService FakeStore Nat :=
  { Users := failingSetIsActiveRepo, Prs := fakePRRepo, Rand := descendingRand }

/-- The reviewer list of a pull request is well formed: at most 2 reviewers,
pairwise distinct, none of them the author. -/
def ReviewersOK (pr : PullRequest) : Prop :=
  pr.AssignedReviewers.length ≤ 2 ∧ pr.AssignedReviewers.Nodup ∧
    pr.AuthorID ∉ pr.AssignedReviewers

/-- Every stored pull request has a well-formed reviewer list. -/
def FakeStore.ReviewersWF (st : FakeStore) : Prop :=
  ∀ e ∈ st.prs, ReviewersOK e.2

/-- No active user of team `team` could replace a reviewer of `pr`: each one
is the author of `pr` or one of its reviewers. -/
def FakeStore.NoReplacement (st : FakeStore) (team : TeamName) (pr : PullRequest) : Prop :=
  ∀ x ∈ st.activeInTeam team, x.ID = pr.AuthorID ∨ x.ID ∈ pr.AssignedReviewers

/-- The user `uid`, if stored, is inactive and has no possible replacement on
any OPEN pull request it still reviews. -/
def FakeStore.Settled (st : FakeStore) (uid : UserID) : Prop :=
  ∀ u, mapGet uid st.users = some u →
    u.IsActive = false ∧
    ∀ k pr, mapGet k st.prs = some pr → pr.Status = PRStatusOpen →
      uid ∈ pr.AssignedReviewers → st.NoReplacement u.TeamName pr

/-- Every stored pull request has pairwise distinct reviewers. -/
def FakeStore.DistinctReviewers (st : FakeStore) : Prop :=
  ∀ k pr, mapGet k st.prs = some pr → pr.AssignedReviewers.Nodup

/-- The invariant of the outer loop of the bulk operation: the store is
consistent, reviewers are distinct, and the users processed so far are
settled. -/
def FakeStore.BulkInv (st : FakeStore) (done : List UserID) : Prop :=
  st.WF ∧ st.UsersWF ∧ st.DistinctReviewers ∧ ∀ uid ∈ done, st.Settled uid

/-- The invariant of the inner loop of the bulk operation for the deactivated
user `uid` with record `u` and the listed pull requests `ps` still to visit:
each of them is stored under its ID with the listed status and with `uid`
among its reviewers, no ID is listed twice, and every stored OPEN pull
request that `uid` reviews has no possible replacement or is still to visit. -/
def FakeStore.InProgress (st : FakeStore) (uid : UserID) (u : User)
    (ps : List PullRequestShort) : Prop :=
  mapGet uid st.users = some u ∧ u.IsActive = false ∧
  (ps.map (fun p => p.ID)).Nodup ∧
  (∀ p ∈ ps, ∃ pr, mapGet p.ID st.prs = some pr ∧ pr.Status = p.Status ∧
    uid ∈ pr.AssignedReviewers) ∧
  (∀ k pr, mapGet k st.prs = some pr → pr.Status = PRStatusOpen →
    uid ∈ pr.AssignedReviewers →
    st.NoReplacement u.TeamName pr ∨ k ∈ ps.map (fun p => p.ID))

/-- Three active members of team "backend". -/
def exTrio : List User :=
  [⟨"u2", "Bob", "backend", true⟩, ⟨"u3", "Carol", "backend", true⟩,
   ⟨"u4", "Dave", "backend", true⟩]

/-! ## The relational repositories of internal/repository/postgres

`UserRepo` and `PullRequestRepo` run SQL statements. The tables are modelled
as lists of rows and each method as what its statements do to them; a
transaction that fails leaves the tables as they were. The text order of
`ORDER BY` is taken to be the order of the code points. -/

/-- A row of the table `pull_requests`. -/
structure PullRequestRow where
  ID : PullRequestID
  Name : String
  AuthorID : UserID
  Status : PRStatus
  CreatedAt : Time
  MergedAt : Option Time
  deriving DecidableEq, Repr

/-- Modelled from the spec: the tables `teams(team_name unique)`,
`users(user_id unique, username, team_name, is_active)`,
`pull_requests(pull_request_id unique, ...)` and the join table
`pull_request_reviewers(pull_request_id, user_id)` without a uniqueness
constraint; the schema file is embedded at build time and is not among the
sources. -/
structure PgStore where
  teams : List TeamName
  users : List User
  pullRequests : List PullRequestRow
  reviewers : List (PullRequestID × UserID)
  deriving DecidableEq, Repr

/-- Insertion of `a` before the first entry whose key is not below its key. -/
def insertOrdered {α : Type} (le : α → α → Bool) (a : α) : List α → List α
  | [] => [a]
  | b :: rest => if le a b then a :: b :: rest else b :: insertOrdered le a rest

/-- The rows in the order of `ORDER BY`, `le` being the order of the keys. -/
def orderBy {α : Type} (le : α → α → Bool) (rows : List α) : List α :=
  rows.foldr (insertOrdered le) []

/-- The order of text values. -/
def textLE (a b : String) : Bool := decide (a.data ≤ b.data)

namespace Postgres

/-- Method `UserRepo.UpsertUsers`: `INSERT ... ON CONFLICT (user_id) DO UPDATE`
for each user. -/
def UpsertUsers (us : List User) (st : PgStore) : Except Err Unit × PgStore :=
  (.ok (), { st with
    users := us.foldl
      (fun rows u =>
        if rows.any (fun r => r.ID == u.ID) then
          rows.map (fun r => if r.ID == u.ID then u else r)
        else rows ++ [u])
      st.users })

/-- Method `UserRepo.GetByID`. -/
def GetByID (id : UserID) (st : PgStore) : Except Err User × PgStore :=
  match st.users.find? (fun r => r.ID == id) with
  | none => (.error .ErrNotFound, st)
  | some r => (.ok r, st)

/-- Method `UserRepo.SetIsActive`: the `UPDATE`, then `GetByID`. -/
def SetIsActive (id : UserID) (isActive : Bool) (st : PgStore) : Except Err User × PgStore :=
  GetByID id { st with
    users := st.users.map (fun r => if r.ID == id then { r with IsActive := isActive } else r) }

/-- Method `UserRepo.ListActiveByTeam`: the active rows of the team,
`ORDER BY user_id`. -/
def ListActiveByTeam (teamName : TeamName) (st : PgStore) : Except Err (List User) × PgStore :=
  (.ok ((orderBy (fun a b => textLE a.ID b.ID)
      (st.users.filter (fun r => r.TeamName == teamName && r.IsActive))).map
      (fun r => { ID := r.ID, Username := r.Username, TeamName := teamName,
                  IsActive := r.IsActive })),
    st)

/-- Method `PullRequestRepo.Create`: one transaction that inserts the row of
the pull request and one row per reviewer; the first `INSERT` fails on an ID
that is already there. -/
def Create (pr : PullRequest) (st : PgStore) : Except Err Unit × PgStore :=
  if st.pullRequests.any (fun r => r.ID == pr.ID) then
    (.error (.internal "insert pull_request: duplicate key"), st)
  else
    (.ok (), { st with
      pullRequests := st.pullRequests ++
        [{ ID := pr.ID, Name := pr.Name, AuthorID := pr.AuthorID, Status := pr.Status,
           CreatedAt := pr.CreatedAt, MergedAt := pr.MergedAt }]
      reviewers := st.reviewers ++ pr.AssignedReviewers.map (fun rid => (pr.ID, rid)) })

/-- Method `PullRequestRepo.Exists`. -/
def Exists (id : PullRequestID) (st : PgStore) : Except Err Bool × PgStore :=
  (.ok (st.pullRequests.any (fun r => r.ID == id)), st)

/-- Method `PullRequestRepo.Get`: the row of the pull request and its
reviewers `ORDER BY user_id`. -/
def Get (id : PullRequestID) (st : PgStore) : Except Err PullRequest × PgStore :=
  match st.pullRequests.find? (fun r => r.ID == id) with
  | none => (.error .ErrNotFound, st)
  | some r =>
    (.ok { ID := r.ID, Name := r.Name, AuthorID := r.AuthorID, Status := r.Status,
           AssignedReviewers :=
             orderBy textLE ((st.reviewers.filter (fun x => x.1 == id)).map Prod.snd),
           CreatedAt := r.CreatedAt, MergedAt := r.MergedAt },
      st)

/-- Method `PullRequestRepo.MarkMerged`: the `UPDATE`. -/
def MarkMerged (id : PullRequestID) (mergedAt : Time) (st : PgStore) :
    Except Err Unit × PgStore :=
  (.ok (), { st with
    pullRequests := st.pullRequests.map
      (fun r => if r.ID == id then
        { r with Status := PRStatusMerged, MergedAt := some mergedAt } else r) })

/-- Method `PullRequestRepo.ReplaceReviewer`: one transaction with the `DELETE`
of the rows of the old reviewer and the `INSERT` of a row for the new one. -/
def ReplaceReviewer (prID : PullRequestID) (oldUserID newUserID : UserID) (st : PgStore) :
    Except Err Unit × PgStore :=
  (.ok (), { st with
    reviewers := st.reviewers.filter (fun x => !(x.1 == prID && x.2 == oldUserID))
      ++ [(prID, newUserID)] })

/-- Method `PullRequestRepo.ListByReviewer`: the join of the two tables for
the reviewer, `ORDER BY created_at DESC, pull_request_id`. -/
def ListByReviewer (reviewerID : UserID) (st : PgStore) :
    Except Err (List PullRequestShort) × PgStore :=
  (.ok ((orderBy
      (fun a b => decide (b.CreatedAt < a.CreatedAt) ||
        (a.CreatedAt == b.CreatedAt && textLE a.ID b.ID))
      (st.pullRequests.flatMap (fun r =>
        (st.reviewers.filter (fun x => x.1 == r.ID && x.2 == reviewerID)).map
          (fun _ => r)))).map
      (fun r => { ID := r.ID, Name := r.Name, AuthorID := r.AuthorID, Status := r.Status })),
    st)

/-- Method `PullRequestRepo.StatsAssignmentsByUser`: the number of rows of the
join table per `user_id`. -/
def StatsAssignmentsByUser (st : PgStore) : Except Err (List (UserID × Int)) × PgStore :=
  (.ok (st.reviewers.foldl (fun res x => InMemory.increment x.2 res) []), st)

end Postgres

/-- The repository `postgres.UserRepo`. -/
def postgresUserRepo : UserRepository PgStore :=
  { UpsertUsers := Postgres.UpsertUsers
    GetByID := Postgres.GetByID
    SetIsActive := Postgres.SetIsActive
    ListActiveByTeam := Postgres.ListActiveByTeam }

/-- The repository `postgres.PullRequestRepo`. -/
def postgresPRRepo : PullRequestRepository PgStore :=
  { Create := Postgres.Create
    Exists := Postgres.Exists
    Get := Postgres.Get
    MarkMerged := Postgres.MarkMerged
    ReplaceReviewer := Postgres.ReplaceReviewer
    ListByReviewer := Postgres.ListByReviewer
    StatsAssignmentsByUser := Postgres.StatsAssignmentsByUser }

/-- The service over the relational repositories with `descendingRand`. -/
def postgresService : PRService PgStore Nat :=
  { Users := postgresUserRepo, Prs := postgresPRRepo, Rand := descendingRand }

/-- The users of `exUsers` in the table `users`, no pull request yet. -/
def exPgWorld0 : World PgStore Nat :=
  { store := { teams := ["backend", "other"], users := exUsers.map Prod.snd,
               pullRequests := [], reviewers := [] },
    rand := 0, log := [] }

/-- The world after `Create` of `pr2` by `u1` at time 7 in `exPgWorld0`. -/
def exPgWorld1 : World PgStore Nat :=
  (postgresService.Create "pr2" "PR 2" "u1" 7 exPgWorld0).2

/-! ## internal/service/team.go and internal/service/user.go -/

structure TeamService (σ : Type) where
  teams : TeamRepository σ
  users : UserRepository σ

namespace TeamService

variable {σ ρ : Type}

/-- The loop `for i := range members { members[i].TeamName = name }`. In Go the
write lands in the slice of the caller; no caller reads its slice again. -/
def stamp (name : TeamName) (members : List User) : List User :=
  members.map (fun u => { u with TeamName := name })

/-- Method `TeamService.AddTeam`. -/
def AddTeam (s : TeamService σ) (name : TeamName) (members : List User) : Eff σ ρ Team := do
  let registered ← Eff.call (s.teams.TeamExists name) (Event.TeamExists name)
  if registered then
    Eff.fail .ErrTeamExists
  else do
    Eff.call (s.teams.CreateTeam name) (Event.CreateTeam name)
    let stamped := stamp name members
    Eff.call (s.users.UpsertUsers stamped) (Event.UpsertUsers stamped)
    let team ← Eff.call (s.teams.GetTeam name) (Event.GetTeam name)
    pure team

/-- Method `TeamService.GetTeam`. -/
def GetTeam (s : TeamService σ) (name : TeamName) : Eff σ ρ Team := do
  let team ← Eff.call (s.teams.GetTeam name) (Event.GetTeam name)
  pure team

end TeamService

structure UserService (σ : Type) where
  users : UserRepository σ

/-- Method `UserService.SetIsActive`. -/
def UserService.SetIsActive {σ ρ : Type} (s : UserService σ) (id : UserID) (isActive : Bool) :
    Eff σ ρ User := do
  let user ← Eff.call (s.users.SetIsActive id isActive) (Event.SetIsActive id isActive)
  pure user

/-! ## The in-memory repositories of internal/service/team_test.go -/

/-- The state of `fakeTeamRepo` (a Go map from team names to teams) and of
`fakeUserRepoForTeam` (the users handed to `UpsertUsers` so far). -/
structure FakeTeamStore where
  teams : List (TeamName × Team)
  upserted : List User
  deriving DecidableEq, Repr

namespace FakeTeamStore

/-- Method `fakeTeamRepo.CreateTeam`: it stores the zero `domain.Team`. -/
def CreateTeam (name : TeamName) (st : FakeTeamStore) : Except Err Unit × FakeTeamStore :=
  (.ok (), { st with teams := mapSet name { Name := "", Members := [] } st.teams })

/-- Method `fakeTeamRepo.GetTeam`. -/
def GetTeam (name : TeamName) (st : FakeTeamStore) : Except Err Team × FakeTeamStore :=
  match mapGet name st.teams with
  | none => (.error .ErrNotFound, st)
  | some t => (.ok t, st)

/-- Method `fakeTeamRepo.TeamExists`. -/
def TeamExists (name : TeamName) (st : FakeTeamStore) : Except Err Bool × FakeTeamStore :=
  (.ok (mapGet name st.teams).isSome, st)

/-- Method `fakeUserRepoForTeam.UpsertUsers`. -/
def UpsertUsers (us : List User) (st : FakeTeamStore) : Except Err Unit × FakeTeamStore :=
  (.ok (), { st with upserted := st.upserted ++ us })

/-- Method `fakeUserRepoForTeam.GetByID`. -/
def GetByID (_ : UserID) (st : FakeTeamStore) : Except Err User × FakeTeamStore :=
  (.error .ErrNotFound, st)

/-- Method `fakeUserRepoForTeam.SetIsActive`. -/
def SetIsActive (_ : UserID) (_ : Bool) (st : FakeTeamStore) : Except Err User × FakeTeamStore :=
  (.error .ErrNotFound, st)

/-- Method `fakeUserRepoForTeam.ListActiveByTeam`. -/
def ListActiveByTeam (_ : TeamName) (st : FakeTeamStore) :
    Except Err (List User) × FakeTeamStore :=
  (.ok [], st)

end FakeTeamStore

def fakeTeamRepo : TeamRepository FakeTeamStore :=
  { CreateTeam := FakeTeamStore.CreateTeam
    GetTeam := FakeTeamStore.GetTeam
    TeamExists := FakeTeamStore.TeamExists }

def fakeUserRepoForTeam : UserRepository FakeTeamStore :=
  { UpsertUsers := FakeTeamStore.UpsertUsers
    GetByID := FakeTeamStore.GetByID
    SetIsActive := FakeTeamStore.SetIsActive
    ListActiveByTeam := FakeTeamStore.ListActiveByTeam }

/-- The service of `TestTeamService_AddTeam_Success`. -/
def fakeTeamService : TeamService FakeTeamStore :=
  { teams := fakeTeamRepo, users := fakeUserRepoForTeam }

/-- The two members of `TestTeamService_AddTeam_Success`. -/
def exMembers : List User :=
  [⟨"u1", "Alice", "", true⟩, ⟨"u2", "Bob", "", false⟩]

/-- The empty repositories of `TestTeamService_AddTeam_Success`. -/
def exTeamWorld0 : World FakeTeamStore Unit :=
  { store := { teams := [], upserted := [] }, rand := (), log := [] }

/-- The repositories of `TestTeamService_AddTeam_AlreadyExists`: team "backend"
is registered. -/
def exTeamWorld1 : World FakeTeamStore Unit :=
  { store := { teams := [("backend", { Name := "", Members := [] })], upserted := [] },
    rand := (), log := [] }

/-! ## The relational repository of internal/repository/postgres/team_repo.go -/

namespace Postgres

/-- Method `TeamRepo.CreateTeam`: `INSERT ... ON CONFLICT (team_name) DO NOTHING`. -/
def CreateTeam (name : TeamName) (st : PgStore) : Except Err Unit × PgStore :=
  (.ok (), if st.teams.contains name then st else { st with teams := st.teams ++ [name] })

/-- Method `TeamRepo.TeamExists`. -/
def TeamExists (name : TeamName) (st : PgStore) : Except Err Bool × PgStore :=
  (.ok (st.teams.contains name), st)

/-- Method `TeamRepo.GetTeam`: `ErrNotFound` for a name that is not in `teams`,
else the rows of `users` with that team name, `ORDER BY user_id`. -/
def GetTeam (name : TeamName) (st : PgStore) : Except Err Team × PgStore :=
  if !st.teams.contains name then
    (.error .ErrNotFound, st)
  else
    (.ok { Name := name
           Members := (orderBy (fun a b => textLE a.ID b.ID)
             (st.users.filter (fun r => r.TeamName == name))).map
             (fun r => { ID := r.ID, Username := r.Username, TeamName := name,
                         IsActive := r.IsActive }) },
      st)

/-- One `INSERT ... ON CONFLICT (user_id) DO UPDATE` of `UserRepo.UpsertUsers`. -/
def upsertRow (rows : List User) (u : User) : List User :=
  if rows.any (fun r => r.ID == u.ID) then
    rows.map (fun r => if r.ID == u.ID then u else r)
  else rows ++ [u]

end Postgres

/-- The repository `postgres.TeamRepo`. -/
def postgresTeamRepo : TeamRepository PgStore :=
  { CreateTeam := Postgres.CreateTeam
    GetTeam := Postgres.GetTeam
    TeamExists := Postgres.TeamExists }

/-- The team service as `main` wires it. -/
def postgresTeamService : TeamService PgStore :=
  { teams := postgresTeamRepo, users := postgresUserRepo }

/-! ## internal/http

A request is modelled by its method and by what
`json.NewDecoder(r.Body).Decode(&req)` makes of its body: `none` when the
decoder returns an error, else the decoded request value. A response is the
status written, the `Allow` header when one is set, and the value encoded as
the body. A panic of a service call unwinds through the handler, which then
writes no response; this is the outcome `Except.error` of a handler. -/

def MethodPost : String := "POST"

def StatusOK : Nat := 200
def StatusCreated : Nat := 201
def StatusBadRequest : Nat := 400
def StatusNotFound : Nat := 404
def StatusMethodNotAllowed : Nat := 405
def StatusConflict : Nat := 409
def StatusInternalServerError : Nat := 500

structure teamMemberDTO where
  UserID : String
  Username : String
  IsActive : Bool
  deriving DecidableEq, Repr

structure teamDTO where
  TeamName : String
  Members : List teamMemberDTO
  deriving DecidableEq, Repr

structure prCreateRequest where
  PullRequestID : String
  PullRequestName : String
  AuthorID : String
  deriving DecidableEq, Repr

structure prReassignRequest where
  PullRequestID : String
  OldUserID : String
  deriving DecidableEq, Repr

structure pullRequestDTO where
  PullRequestID : String
  PullRequestName : String
  AuthorID : String
  Status : String
  AssignedReviewers : List String
  CreatedAt : String
  MergedAt : String
  deriving DecidableEq, Repr

structure teamBulkDeactivateRequest where
  TeamName : String
  UserIDs : List String
  deriving DecidableEq, Repr

/-- The values the handlers encode as a response body: `errorBody`,
`teamAddResponse`, `prCreateResponse`, `prReassignResponse` and
`teamBulkDeactivateResponse`. -/
inductive Payload where
  | errorBody (code message : String)
  | teamAddResponse (team : teamDTO)
  | prCreateResponse (pr : pullRequestDTO)
  | prReassignResponse (pr : pullRequestDTO) (replacedBy : String)
  | teamBulkDeactivateResponse (teamName : String) (userIDs : List String)
  deriving DecidableEq, Repr

structure Response where
  status : Nat
  allow : Option String
  body : Payload
  deriving DecidableEq, Repr

structure Request (α : Type) where
  Method : String
  Body : Option α

/-- Function `writeJSON(w, status, v)`. -/
def writeJSON (status : Nat) (v : Payload) : Response :=
  { status := status, allow := none, body := v }

/-- Function `writeError(w, status, code, message)`. -/
def writeError (status : Nat) (code message : String) : Response :=
  writeJSON status (.errorBody code message)

/-- The answer to a request whose method is not POST. -/
def methodNotAllowed : Response :=
  { writeError StatusMethodNotAllowed "METHOD_NOT_ALLOWED" "method not allowed" with
    allow := some MethodPost }

/-- Function `teamToDTO`. -/
def teamToDTO (t : Team) : teamDTO :=
  { TeamName := t.Name
    Members := t.Members.map
      (fun m => { UserID := m.ID, Username := m.Username, IsActive := m.IsActive }) }

/-- Function `prToDTO`; `fmt` is `t.UTC().Format(time.RFC3339)`, and the zero
`time.Time` is the instant 0. -/
def prToDTO (fmt : Time → String) (pr : PullRequest) : pullRequestDTO :=
  { PullRequestID := pr.ID
    PullRequestName := pr.Name
    AuthorID := pr.AuthorID
    Status := pr.Status
    AssignedReviewers := pr.AssignedReviewers
    CreatedAt := if pr.CreatedAt = 0 then "" else fmt pr.CreatedAt
    MergedAt := match pr.MergedAt with
      | none => ""
      | some t => fmt t }

structure Handler (σ ρ : Type) where
  teamService : TeamService σ
  userService : UserService σ
  prService : PRService σ ρ

/-- The branch `if err != nil { switch ... }` of a handler: an error value is
answered with `respond err`, a panic unwinds. -/
def answerError {σ ρ : Type} (respond : Err → Response) (err : Err) (w : World σ ρ) :
    Except Err Response × World σ ρ :=
  if err = .indexOutOfRange then (.error .indexOutOfRange, w) else (.ok (respond err), w)

/-- The `switch` of `handleTeamAdd` on the error of `AddTeam`. -/
def teamAddError (err : Err) : Response :=
  if err = .ErrTeamExists then
    writeError StatusBadRequest "TEAM_EXISTS" "team_name already exists"
  else
    writeError StatusInternalServerError "INTERNAL" "internal error"

/-- The `switch` of `handlePRCreate` on the error of `Create`. -/
def prCreateError (err : Err) : Response :=
  if err = .ErrPullRequestExists then
    writeError StatusConflict "PR_EXISTS" "PR id already exists"
  else if err = .ErrNotFound then
    writeError StatusNotFound "NOT_FOUND" "resource not found"
  else
    writeError StatusInternalServerError "INTERNAL" "internal error"

/-- The `switch` of `handlePRReassign` on the error of `Reassign`. -/
def prReassignError (err : Err) : Response :=
  if err = .ErrNotFound then
    writeError StatusNotFound "NOT_FOUND" "resource not found"
  else if err = .ErrPullRequestMerged then
    writeError StatusConflict "PR_MERGED" "cannot reassign on merged PR"
  else if err = .ErrNotAssigned then
    writeError StatusConflict "NOT_ASSIGNED" "reviewer is not assigned to this PR"
  else if err = .ErrNoCandidate then
    writeError StatusConflict "NO_CANDIDATE" "no active replacement candidate in team"
  else
    writeError StatusInternalServerError "INTERNAL" "internal error"

/-- The loop of `handleTeamAdd` over `req.Members`: entries without a user ID
are skipped, the others become users without a team name. -/
def teamAddMembers (req : teamDTO) : List User :=
  (req.Members.filter (fun m => !(m.UserID == ""))).map
    (fun m => { ID := m.UserID, Username := m.Username, TeamName := "",
                IsActive := m.IsActive })

namespace Handler

variable {σ ρ : Type}

/-- Method `Handler.handleTeamAdd`. -/
def handleTeamAdd (h : Handler σ ρ) (r : Request teamDTO) : Eff σ ρ Response := fun w =>
  if r.Method != MethodPost then
    (.ok methodNotAllowed, w)
  else
    match r.Body with
    | none => (.ok (writeError StatusBadRequest "BAD_REQUEST" "invalid json body"), w)
    | some req =>
      if req.TeamName == "" then
        (.ok (writeError StatusBadRequest "BAD_REQUEST" "team_name is required"), w)
      else
        match h.teamService.AddTeam req.TeamName (teamAddMembers req) w with
        | (.error err, w1) => answerError teamAddError err w1
        | (.ok team, w1) =>
          (.ok (writeJSON StatusCreated (.teamAddResponse (teamToDTO team))), w1)

/-- Method `Handler.handlePRCreate`; `now` is the reading of the clock in
`Create`. -/
def handlePRCreate (h : Handler σ ρ) (fmt : Time → String) (now : Time)
    (r : Request prCreateRequest) : Eff σ ρ Response := fun w =>
  if r.Method != MethodPost then
    (.ok methodNotAllowed, w)
  else
    match r.Body with
    | none => (.ok (writeError StatusBadRequest "BAD_REQUEST" "invalid json body"), w)
    | some req =>
      if req.PullRequestID == "" || req.PullRequestName == "" || req.AuthorID == "" then
        (.ok (writeError StatusBadRequest "BAD_REQUEST"
          "pull_request_id, pull_request_name and author_id are required"), w)
      else
        match h.prService.Create req.PullRequestID req.PullRequestName req.AuthorID now w with
        | (.error err, w1) => answerError prCreateError err w1
        | (.ok pr, w1) =>
          (.ok (writeJSON StatusCreated (.prCreateResponse (prToDTO fmt pr))), w1)

/-- Method `Handler.handlePRReassign`. -/
def handlePRReassign (h : Handler σ ρ) (fmt : Time → String)
    (r : Request prReassignRequest) : Eff σ ρ Response := fun w =>
  if r.Method != MethodPost then
    (.ok methodNotAllowed, w)
  else
    match r.Body with
    | none => (.ok (writeError StatusBadRequest "BAD_REQUEST" "invalid json body"), w)
    | some req =>
      if req.PullRequestID == "" || req.OldUserID == "" then
        (.ok (writeError StatusBadRequest "BAD_REQUEST"
          "pull_request_id and old_user_id are required"), w)
      else
        match h.prService.Reassign req.PullRequestID req.OldUserID w with
        | (.error err, w1) => answerError prReassignError err w1
        | (.ok (pr, newReviewer), w1) =>
          (.ok (writeJSON StatusOK (.prReassignResponse (prToDTO fmt pr) newReviewer)), w1)

/-- Method `Handler.handleTeamBulkDeactivate`. -/
def handleTeamBulkDeactivate (h : Handler σ ρ) (r : Request teamBulkDeactivateRequest) :
    Eff σ ρ Response := fun w =>
  if r.Method != MethodPost then
    (.ok methodNotAllowed, w)
  else
    match r.Body with
    | none => (.ok (writeError StatusBadRequest "BAD_REQUEST" "invalid json body"), w)
    | some req =>
      if req.TeamName == "" || req.UserIDs.length == 0 then
        (.ok (writeError StatusBadRequest "BAD_REQUEST" "team_name and user_ids are required"),
          w)
      else
        let ids : List UserID := req.UserIDs.map (fun id => id)
        match h.prService.BulkDeactivateAndReassign ids w with
        | (.error err, w1) =>
          answerError
            (fun _ => writeError StatusInternalServerError "INTERNAL" "internal error") err w1
        | (.ok _, w1) =>
          (.ok (writeJSON StatusOK (.teamBulkDeactivateResponse req.TeamName req.UserIDs)), w1)

end Handler

/-- The world after `Merge` of `pr2` at time 9 in `exPgWorld1`. -/
def exPgWorld2 : World PgStore Nat :=
  (postgresService.Merge "pr2" 9 exPgWorld1).2

/-- The handler as `main` wires it, with `descendingRand` for the generator. -/
def postgresHandler : Handler PgStore Nat :=
  { teamService := postgresTeamService
    userService := { users := postgresUserRepo }
    prService := postgresService }

/-- A new team "payments" with Eve, who is in team "other", supplied twice. -/
def exNewMembers : List User :=
  [⟨"u5", "Eve", "", true⟩, ⟨"u7", "Gus", "", true⟩, ⟨"u5", "Eva", "", false⟩]

/-- A pull request of author `a` reviewed by `ra` and `rc`. -/
def exChainPR : PullRequest :=
  { ID := "p", Name := "P", AuthorID := "a", Status := PRStatusOpen,
    AssignedReviewers := ["ra", "rc"], CreatedAt := 1, MergedAt := none }

/-- Team "core" with the author `a` and three more active members, and the
pull request `exChainPR`. -/
def exChainWorld : World FakeStore Nat :=
  { store :=
      { users := [("a", ⟨"a", "Ann", "core", true⟩), ("ra", ⟨"ra", "Rae", "core", true⟩),
                  ("rb", ⟨"rb", "Rob", "core", true⟩), ("rc", ⟨"rc", "Roy", "core", true⟩)],
        prs := [("p", exChainPR)] },
    rand := 0, log := [] }

/-- A generator whose permutation depends on its state: ascending at an even
state, descending at an odd one; every call moves to the next state. -/
def alternatingRand : Rand Nat :=
  { Perm := fun n r => (if r % 2 = 0 then List.range n else (List.range n).reverse, r + 1)
    Perm_perm := fun n r => by
      by_cases h : r % 2 = 0
      · simp only [h, if_true]
        exact List.Perm.refl _
      · simp only [h, if_false]
        exact List.reverse_perm _ }

/-- The generator state after the calls `Perm(n)` for the `n` of `ns`, in order. -/
def Rand.advance {ρ : Type} (rnd : Rand ρ) (ns : List Nat) (r : ρ) : ρ :=
  ns.foldl (fun r1 n => (rnd.Perm n r1).2) r

/-- The computation `m` changes the generator state by at most `k` calls of
`Perm` and in no other way. -/
def Eff.Advances {σ ρ α : Type} (rnd : Rand ρ) (k : Nat) (m : Eff σ ρ α) : Prop :=
  ∀ w, ∃ ns : List Nat, ns.length ≤ k ∧ (m w).2.rand = rnd.advance ns w.rand

/-- The trace of the bulk deactivation of `ra`, `rb` in `exChainWorld` up to
the replacement of `ra`. -/
def exChainLog1 : List Event :=
  [Event.GetByID "ra" (.ok ⟨"ra", "Rae", "core", true⟩),
   Event.SetIsActive "ra" false (.ok ⟨"ra", "Rae", "core", false⟩),
   Event.ListByReviewer "ra" (.ok [⟨"p", "P", "a", PRStatusOpen⟩]),
   Event.Get "p" (.ok exChainPR),
   Event.GetByID "ra" (.ok ⟨"ra", "Rae", "core", false⟩),
   Event.ListActiveByTeam "core"
     (.ok [⟨"a", "Ann", "core", true⟩, ⟨"rb", "Rob", "core", true⟩,
           ⟨"rc", "Roy", "core", true⟩])]

/-- The trace of that bulk deactivation after the replacement of `ra`. -/
def exChainLog2 : List Event :=
  [Event.GetByID "rb" (.ok ⟨"rb", "Rob", "core", true⟩),
   Event.SetIsActive "rb" false (.ok ⟨"rb", "Rob", "core", false⟩),
   Event.ListByReviewer "rb" (.ok [⟨"p", "P", "a", PRStatusOpen⟩]),
   Event.Get "p" (.ok { exChainPR with AssignedReviewers := ["rb", "rc"] }),
   Event.GetByID "rb" (.ok ⟨"rb", "Rob", "core", false⟩),
   Event.ListActiveByTeam "core"
     (.ok [⟨"a", "Ann", "core", true⟩, ⟨"rc", "Roy", "core", true⟩])]

/-- The world after that bulk deactivation. -/
def exChainWorld1 : World FakeStore Nat :=
  { store :=
      { users := [("a", ⟨"a", "Ann", "core", true⟩), ("ra", ⟨"ra", "Rae", "core", false⟩),
                  ("rb", ⟨"rb", "Rob", "core", false⟩), ("rc", ⟨"rc", "Roy", "core", true⟩)],
        prs := [("p", { exChainPR with AssignedReviewers := ["rb", "rc"] })] },
    rand := 1,
    log := exChainLog1 ++ Event.ReplaceReviewer "p" "ra" "rb" (.ok ()) :: exChainLog2 }

/-- The world after the deactivation of `ra` alone. -/
def exChainWorldMid : World FakeStore Nat :=
  { store :=
      { users := [("a", ⟨"a", "Ann", "core", true⟩), ("ra", ⟨"ra", "Rae", "core", false⟩),
                  ("rb", ⟨"rb", "Rob", "core", true⟩), ("rc", ⟨"rc", "Roy", "core", true⟩)],
        prs := [("p", { exChainPR with AssignedReviewers := ["rb", "rc"] })] },
    rand := 1,
    log := exChainLog1 ++ [Event.ReplaceReviewer "p" "ra" "rb" (.ok ())] }

/-- The world after `Create` of `pr2` by `u1` at time 7 in `exWorld0` by the
service with `alternatingRand`. -/
def exAltWorld1 : World FakeStore Nat :=
  { store :=
      { users := exUsers,
        prs := [("pr2", { ID := "pr2", Name := "PR 2", AuthorID := "u1", Status := PRStatusOpen,
                          AssignedReviewers := ["u2", "u3"], CreatedAt := 7,
                          MergedAt := none })] },
    rand := 1,
    log := [Event.Exists "pr2" (.ok false),
      Event.GetByID "u1" (.ok ⟨"u1", "Alice", "backend", true⟩),
      Event.ListActiveByTeam "backend"
        (.ok [⟨"u1", "Alice", "backend", true⟩, ⟨"u2", "Bob", "backend", true⟩,
              ⟨"u3", "Carol", "backend", true⟩, ⟨"u4", "Dave", "backend", true⟩]),
      Event.Create
        { ID := "pr2", Name := "PR 2", AuthorID := "u1", Status := PRStatusOpen,
          AssignedReviewers := ["u2", "u3"], CreatedAt := 7, MergedAt := none } (.ok ())] }

/-- The last user of the list with the given ID. -/
def lastWithID (id : UserID) : List User → Option User
  | [] => none
  | u :: rest =>
    match lastWithID id rest with
    | some v => some v
    | none => if u.ID == id then some u else none

/-- The store law "the operations `Create` uses do not fail internally": the
three reads are queries that return a value (`GetByID` a user or
`ErrNotFound`), and the repository's `Create` returns no error, except for an
ID that `Exists` reports as present. -/
def PRService.CreateStoreNeverFailsInternally {σ ρ : Type} (s : PRService σ ρ) : Prop :=
  (∀ id st, ∃ b, s.Prs.Exists id st = (.ok b, st)) ∧
  (∀ id st, (∃ u, s.Users.GetByID id st = (.ok u, st)) ∨
    s.Users.GetByID id st = (.error .ErrNotFound, st)) ∧
  (∀ t st, ∃ us, s.Users.ListActiveByTeam t st = (.ok us, st)) ∧
  (∀ pr st, (s.Prs.Create pr st).1 = .ok () ∨ s.Prs.Exists pr.ID st = (.ok true, st))

/-- The store law "`Get` returns what `Create` stored": after a `Create` that
reported no error, `Get` of that ID returns the pull request handed in. -/
def PullRequestRepository.GetReturnsCreated {σ : Type} (P : PullRequestRepository σ) : Prop :=
  ∀ pr st st1, P.Create pr st = (.ok (), st1) → (P.Get pr.ID st1).1 = .ok pr

/-- The positions of `users` that the loop of `pickRandomReviewers` reads, in
the order it reads them: `pickLoop` with `idx` collected in place of
`users[idx].ID`. -/
def pickLoopPositions (users : List User) (indices : List Nat) :
    Nat → Nat → Option (List Nat)
  | _, 0 => some []
  | i, k + 1 =>
    match indices[i]? with
    | none => none
    | some idx =>
      match users[idx]? with
      | none => none
      | some _ =>
        match pickLoopPositions users indices (i + 1) k with
        | none => none
        | some rest => some (idx :: rest)

/-- The positions of `users` that `pickRandomReviewers(users, limit, rnd)`
selects when `rnd.Perm(len(users))` returns `indices`. -/
def pickedPositions (users : List User) (limit : Int) (indices : List Nat) :
    Option (List Nat) :=
  if users.length = 0 ∨ limit ≤ 0 then
    some []
  else
    let n : Nat := if (users.length : Int) < limit then users.length else limit.toNat
    pickLoopPositions users indices 0 n

/-- Whether `pickRandomReviewers(users, limit, rnd)` selects position `pos` of
`users` when `rnd.Perm(len(users))` returns `indices`. -/
def selectsPosition (users : List User) (limit : Int) (indices : List Nat) (pos : Nat) : Bool :=
  match pickedPositions users limit indices with
  | some ps => ps.contains pos
  | none => false

/-- The ID of `users[j]`, or the empty string when `j` is out of range. -/
def idAt (users : List User) (j : Nat) : UserID :=
  match users[j]? with
  | some u => u.ID
  | none => ""

/-! ## Reviewer selection: helper lemmas -/

theorem pickLoop_eq (users : List User) (indices : List Nat)
    (hlt : ∀ j ∈ indices, j < users.length) :
    ∀ (k i : Nat), i + k ≤ indices.length →
      pickLoop users indices i k = some (((indices.drop i).take k).map (idAt users)) := by
  intro k
  induction k with
  | zero => intro i _; simp [pickLoop]
  | succ k ih =>
    intro i hik
    have hi : i < indices.length := by omega
    have hidx : indices[i]? = some indices[i] := List.getElem?_eq_getElem hi
    have hj : indices[i] < users.length := hlt _ (List.getElem_mem hi)
    have hu : users[indices[i]]? = some users[indices[i]] := List.getElem?_eq_getElem hj
    have hrec := ih (i + 1) (by omega)
    have hdrop : indices.drop i = indices[i] :: indices.drop (i + 1) :=
      List.drop_eq_getElem_cons hi
    simp only [pickLoop, hidx, hu, hrec, hdrop, List.take_succ_cons, List.map_cons, idAt]

theorem perm_range_lt {indices : List Nat} {n : Nat} (h : List.Perm indices (List.range n)) :
    ∀ j ∈ indices, j < n := by
  intro j hj
  exact List.mem_range.mp (h.subset hj)

theorem idAt_mem {users : List User} {j : Nat} (h : j < users.length) :
    idAt users j ∈ users.map (fun u => u.ID) := by
  have hu : users[j]? = some users[j] := List.getElem?_eq_getElem h
  simp only [idAt, hu]
  exact List.mem_map.mpr ⟨users[j], List.getElem_mem h, rfl⟩

theorem idAt_inj {users : List User} (hnd : (users.map (fun u => u.ID)).Nodup) {i j : Nat}
    (hi : i < users.length) (hj : j < users.length) (h : idAt users i = idAt users j) :
    i = j := by
  have hui : users[i]? = some users[i] := List.getElem?_eq_getElem hi
  have huj : users[j]? = some users[j] := List.getElem?_eq_getElem hj
  simp only [idAt, hui, huj] at h
  have hi2 : i < (users.map (fun u => u.ID)).length := by simpa using hi
  have hj2 : j < (users.map (fun u => u.ID)).length := by simpa using hj
  have h2 : (users.map (fun u => u.ID))[i] = (users.map (fun u => u.ID))[j] := by
    simpa using h
  exact (List.Nodup.getElem_inj_iff hnd).mp h2

/-- What `pickWithIndices` returns for a permutation of the indices of `users`
and a positive limit. -/
theorem pickWithIndices_eq (users : List User) (limit : Int) (indices : List Nat)
    (hperm : List.Perm indices (List.range users.length)) :
    pickWithIndices users limit indices =
      some ((indices.take (min limit.toNat users.length)).map (idAt users)) := by
  have hlen : indices.length = users.length := by simpa using hperm.length_eq
  have hn : (if (users.length : Int) < limit then users.length else limit.toNat)
      = min limit.toNat users.length := by
    split <;> omega
  unfold pickWithIndices
  simp only [hn]
  have := pickLoop_eq users indices (perm_range_lt hperm) (min limit.toNat users.length) 0
    (by omega)
  simpa using this

/-- The result of `pickRandomReviewers`: it never indexes out of range, has
`min(limit, len(users))` entries, each the ID of one of `users`, and the
entries are distinct when the IDs of `users` are. -/
theorem pickRandomReviewers_spec {ρ : Type} (users : List User) (limit : Int) (rnd : Rand ρ)
    (r : ρ) :
    ∃ ids, (pickRandomReviewers users limit rnd r).1 = some ids ∧
      ids.length = min limit.toNat users.length ∧
      (∀ x ∈ ids, x ∈ users.map (fun u => u.ID)) ∧
      ((users.map (fun u => u.ID)).Nodup → ids.Nodup) := by
  unfold pickRandomReviewers
  split
  · rename_i h
    refine ⟨[], rfl, ?_, by simp, fun _ => List.nodup_nil⟩
    rcases h with h | h
    · simp [h]
    · have : limit.toNat = 0 := by omega
      simp [this]
  · have hperm := rnd.Perm_perm users.length r
    refine ⟨_, pickWithIndices_eq users limit _ hperm, ?_, ?_, ?_⟩
    · have hlen : (rnd.Perm users.length r).1.length = users.length := by
        simpa using hperm.length_eq
      simp [hlen]
    · intro x hx
      obtain ⟨j, hj, rfl⟩ := List.mem_map.mp hx
      exact idAt_mem (perm_range_lt hperm j (List.mem_of_mem_take hj))
    · intro hnd
      have hndp : (rnd.Perm users.length r).1.Nodup :=
        hperm.nodup_iff.mpr (List.nodup_range _)
      have hndt : ((rnd.Perm users.length r).1.take (min limit.toNat users.length)).Nodup :=
        hndp.sublist (List.take_sublist _ _)
      refine List.Nodup.map_on ?_ hndt
      intro a ha b hb hab
      exact idAt_inj hnd (perm_range_lt hperm a (List.mem_of_mem_take ha))
        (perm_range_lt hperm b (List.mem_of_mem_take hb)) hab

/-! ## Running the service: helper lemmas -/

theorem Eff.bind_run {σ ρ α β : Type} (m : Eff σ ρ α) (f : α → Eff σ ρ β) (w : World σ ρ) :
    (m >>= f) w = match m w with
      | (.ok a, w1) => f a w1
      | (.error e, w1) => (.error e, w1) := rfl

theorem Eff.pure_run {σ ρ α : Type} (a : α) (w : World σ ρ) :
    (Pure.pure a : Eff σ ρ α) w = (.ok a, w) := rfl

theorem Eff.call_run {σ ρ α : Type} (op : σ → Except Err α × σ) (ev : Except Err α → Event)
    (w : World σ ρ) :
    Eff.call op ev w =
      ((op w.store).1, { w with store := (op w.store).2, log := w.log ++ [ev (op w.store).1] }) :=
  rfl

/-- The call of `pickRandomReviewers` in a service method returns a list and
touches neither the store nor the trace. -/
theorem PRService.pick_spec {σ ρ : Type} (s : PRService σ ρ) (users : List User) (limit : Int)
    (w : World σ ρ) :
    ∃ ids r, s.pick users limit w = (.ok ids, { w with rand := r }) ∧
      ids.length = min limit.toNat users.length ∧
      (∀ x ∈ ids, x ∈ users.map (fun u => u.ID)) ∧
      ((users.map (fun u => u.ID)).Nodup → ids.Nodup) := by
  obtain ⟨ids, h1, h2, h3, h4⟩ := pickRandomReviewers_spec users limit s.Rand w.rand
  refine ⟨ids, (pickRandomReviewers users limit s.Rand w.rand).2, ?_, h2, h3, h4⟩
  unfold PRService.pick
  generalize pickRandomReviewers users limit s.Rand w.rand = p at h1
  obtain ⟨a, b⟩ := p
  simp only at h1
  subst h1
  rfl

/-- The run of a successful `Create`, call by call. -/
theorem PRService.Create_ok_inv {σ ρ : Type} (s : PRService σ ρ) (id : PullRequestID)
    (name : String) (authorID : UserID) (now : Time) (w w' : World σ ρ) (pr : PullRequest)
    (h : s.Create id name authorID now w = (.ok pr, w')) :
    ∃ (author : User) (cands : List User) (st1 st2 st3 st4 : σ) (r : ρ),
      s.Prs.Exists id w.store = (.ok false, st1) ∧
      s.Users.GetByID authorID st1 = (.ok author, st2) ∧
      s.Users.ListActiveByTeam author.TeamName st2 = (.ok cands, st3) ∧
      s.Prs.Create pr st3 = (.ok (), st4) ∧
      pr.ID = id ∧ pr.Name = name ∧ pr.AuthorID = authorID ∧ pr.Status = PRStatusOpen ∧
      pr.CreatedAt = now ∧ pr.MergedAt = none ∧
      pr.AssignedReviewers.length
        = min 2 (cands.filter (fun u => !(u.ID == author.ID))).length ∧
      (∀ x ∈ pr.AssignedReviewers,
        x ∈ (cands.filter (fun u => !(u.ID == author.ID))).map (fun u => u.ID)) ∧
      (((cands.filter (fun u => !(u.ID == author.ID))).map (fun u => u.ID)).Nodup →
        pr.AssignedReviewers.Nodup) ∧
      w' = { store := st4, rand := r,
             log := w.log ++ [Event.Exists id (.ok false), Event.GetByID authorID (.ok author),
               Event.ListActiveByTeam author.TeamName (.ok cands), Event.Create pr (.ok ())] } := by
  unfold PRService.Create at h
  simp only [Eff.bind_run, Eff.call_run] at h
  rcases hE : s.Prs.Exists id w.store with ⟨rE, st1⟩
  rw [hE] at h
  rcases rE with e | b
  · simp at h
  cases b
  swap
  · simp [Eff.fail] at h
  simp only [Bool.false_eq_true, if_false, Eff.bind_run, Eff.call_run] at h
  rcases hG : s.Users.GetByID authorID st1 with ⟨rG, st2⟩
  rw [hG] at h
  rcases rG with e | author
  · simp at h
  simp only at h
  rcases hL : s.Users.ListActiveByTeam author.TeamName st2 with ⟨rL, st3⟩
  rw [hL] at h
  rcases rL with e | cands
  · simp at h
  simp only at h
  obtain ⟨ids, r, hp, hlen, hmem, hnd⟩ :=
    s.pick_spec (cands.filter (fun u => !(u.ID == author.ID))) 2
      { store := st3, rand := w.rand,
        log := w.log ++ [Event.Exists id (.ok false)] ++ [Event.GetByID authorID (.ok author)]
          ++ [Event.ListActiveByTeam author.TeamName (.ok cands)] }
  rw [hp] at h
  simp only at h
  rcases hC : s.Prs.Create
      { ID := id, Name := name, AuthorID := authorID, Status := PRStatusOpen,
        AssignedReviewers := ids, CreatedAt := now, MergedAt := none } st3 with ⟨rC, st4⟩
  rw [hC] at h
  rcases rC with e | u
  · simp at h
  simp only [Eff.pure_run, Prod.mk.injEq, Except.ok.injEq] at h
  obtain ⟨hpr, hw⟩ := h
  subst hpr
  refine ⟨author, cands, st1, st2, st3, st4, r, rfl, hG, hL, hC, rfl, rfl, rfl, rfl, rfl, rfl,
    ?_, hmem, hnd, ?_⟩
  · simpa using hlen
  · rw [← hw]
    simp

/-- Run of `Merge` on a pull request that `Get` returns as MERGED. -/
theorem PRService.Merge_run_merged {σ ρ : Type} (s : PRService σ ρ) (id : PullRequestID)
    (now : Time) (w : World σ ρ) (pr0 : PullRequest) (st1 : σ)
    (hGet : s.Prs.Get id w.store = (.ok pr0, st1)) (hst : pr0.Status = PRStatusMerged) :
    s.Merge id now w =
      (.ok pr0, { store := st1, rand := w.rand, log := w.log ++ [Event.Get id (.ok pr0)] }) := by
  unfold PRService.Merge
  simp only [Eff.bind_run, Eff.call_run, hGet, hst, beq_self_eq_true, if_true]
  rfl

/-- Run of `Merge` on a pull request that `Get` returns as not MERGED. -/
theorem PRService.Merge_run_open {σ ρ : Type} (s : PRService σ ρ) (id : PullRequestID)
    (now : Time) (w : World σ ρ) (pr0 : PullRequest) (st1 : σ)
    (hGet : s.Prs.Get id w.store = (.ok pr0, st1)) (hst : pr0.Status ≠ PRStatusMerged) :
    s.Merge id now w =
      (match (s.Prs.MarkMerged id now st1).1 with
        | .ok _ => .ok { pr0 with Status := PRStatusMerged, MergedAt := some now }
        | .error e => .error e,
       { store := (s.Prs.MarkMerged id now st1).2, rand := w.rand,
         log := w.log ++ [Event.Get id (.ok pr0),
           Event.MarkMerged id now (s.Prs.MarkMerged id now st1).1] }) := by
  unfold PRService.Merge
  have hb : (pr0.Status == PRStatusMerged) = false := by simpa using hst
  simp only [Eff.bind_run, Eff.call_run, hGet, hb, Bool.false_eq_true, if_false]
  rcases hM : (s.Prs.MarkMerged id now st1).1 with e | u
  · simp
  · simp [Eff.pure_run]

/-- Run of `Reassign` on a pull request that `Get` returns as MERGED. -/
theorem PRService.Reassign_run_merged {σ ρ : Type} (s : PRService σ ρ) (prID : PullRequestID)
    (oldUserID : UserID) (w : World σ ρ) (pr0 : PullRequest) (st1 : σ)
    (hGet : s.Prs.Get prID w.store = (.ok pr0, st1)) (hst : pr0.Status = PRStatusMerged) :
    s.Reassign prID oldUserID w =
      (.error .ErrPullRequestMerged,
        { store := st1, rand := w.rand, log := w.log ++ [Event.Get prID (.ok pr0)] }) := by
  unfold PRService.Reassign
  simp only [Eff.bind_run, Eff.call_run, hGet, hst, beq_self_eq_true, if_true]
  rfl

/-- Run of `Reassign` with an old reviewer that is not in the fetched reviewer list. -/
theorem PRService.Reassign_run_not_assigned {σ ρ : Type} (s : PRService σ ρ)
    (prID : PullRequestID) (oldUserID : UserID) (w : World σ ρ) (pr0 : PullRequest) (st1 : σ)
    (hGet : s.Prs.Get prID w.store = (.ok pr0, st1)) (hst : pr0.Status ≠ PRStatusMerged)
    (hnot : oldUserID ∉ pr0.AssignedReviewers) :
    s.Reassign prID oldUserID w =
      (.error .ErrNotAssigned,
        { store := st1, rand := w.rand, log := w.log ++ [Event.Get prID (.ok pr0)] }) := by
  unfold PRService.Reassign
  have hb : (pr0.Status == PRStatusMerged) = false := by simpa using hst
  have hf : (pr0.AssignedReviewers.any (fun r => r == oldUserID)) = false := by
    rw [Bool.eq_false_iff]
    intro hany
    obtain ⟨x, hx, hxe⟩ := List.any_eq_true.mp hany
    have : x = oldUserID := by simpa using hxe
    exact hnot (this ▸ hx)
  simp only [Eff.bind_run, Eff.call_run, hGet, hb, hf, Bool.false_eq_true, if_false,
    Bool.not_false, if_true]
  rfl

/-- Run of `Reassign` after its three reads succeeded: with an empty pool it fails
with `ErrNoCandidate` and calls nothing more; otherwise it picks some `new`
from the pool, calls `ReplaceReviewer`, and returns that call's error or the
pull request with the first occurrence of the old reviewer replaced. -/
theorem PRService.Reassign_run_reads {σ ρ : Type} (s : PRService σ ρ) (prID : PullRequestID)
    (oldUserID : UserID) (w : World σ ρ) (pr0 : PullRequest) (oldUser : User)
    (cands : List User) (st1 st2 st3 : σ)
    (hGet : s.Prs.Get prID w.store = (.ok pr0, st1)) (hst : pr0.Status ≠ PRStatusMerged)
    (hin : oldUserID ∈ pr0.AssignedReviewers)
    (hU : s.Users.GetByID oldUserID st1 = (.ok oldUser, st2))
    (hL : s.Users.ListActiveByTeam oldUser.TeamName st2 = (.ok cands, st3)) :
    (PRService.reassignFiltered pr0 oldUserID cands = [] →
      s.Reassign prID oldUserID w =
        (.error .ErrNoCandidate,
          { store := st3, rand := w.rand,
            log := w.log ++ [Event.Get prID (.ok pr0), Event.GetByID oldUserID (.ok oldUser),
              Event.ListActiveByTeam oldUser.TeamName (.ok cands)] })) ∧
    (PRService.reassignFiltered pr0 oldUserID cands ≠ [] →
      ∃ (new : UserID) (r : ρ),
        new ∈ (PRService.reassignFiltered pr0 oldUserID cands).map (fun u => u.ID) ∧
        s.Reassign prID oldUserID w =
          (match (s.Prs.ReplaceReviewer prID oldUserID new st3).1 with
            | .ok _ =>
              .ok ({ pr0 with AssignedReviewers :=
                      PRService.replaceFirst oldUserID new pr0.AssignedReviewers }, new)
            | .error e => .error e,
           { store := (s.Prs.ReplaceReviewer prID oldUserID new st3).2, rand := r,
             log := w.log ++ [Event.Get prID (.ok pr0), Event.GetByID oldUserID (.ok oldUser),
               Event.ListActiveByTeam oldUser.TeamName (.ok cands),
               Event.ReplaceReviewer prID oldUserID new
                 (s.Prs.ReplaceReviewer prID oldUserID new st3).1] })) := by
  have hb : (pr0.Status == PRStatusMerged) = false := by simpa using hst
  have hf : (pr0.AssignedReviewers.any (fun r => r == oldUserID)) = true := by
    rw [List.any_eq_true]
    exact ⟨oldUserID, hin, by simp⟩
  constructor
  · intro hempty
    unfold PRService.Reassign
    simp only [Eff.bind_run, Eff.call_run, hGet, hb, hf, hU, hL, hempty, Bool.false_eq_true,
      if_false, Bool.not_true, List.length_nil, beq_self_eq_true, if_true]
    simp [Eff.fail]
  · intro hne
    have hlen0 : ((PRService.reassignFiltered pr0 oldUserID cands).length == 0) = false := by
      simpa using hne
    obtain ⟨ids, r, hp, hlen, hmem, -⟩ :=
      s.pick_spec (PRService.reassignFiltered pr0 oldUserID cands) 1
        { store := st3, rand := w.rand,
          log := w.log ++ [Event.Get prID (.ok pr0)] ++ [Event.GetByID oldUserID (.ok oldUser)]
            ++ [Event.ListActiveByTeam oldUser.TeamName (.ok cands)] }
    have hpos : 0 < (PRService.reassignFiltered pr0 oldUserID cands).length :=
      List.length_pos.mpr hne
    have hlen1 : ids.length = 1 := by
      rw [hlen]
      have : (1 : Int).toNat = 1 := rfl
      omega
    obtain ⟨new, rfl⟩ : ∃ new, ids = [new] := List.length_eq_one.mp hlen1
    refine ⟨new, r, hmem new (by simp), ?_⟩
    unfold PRService.Reassign
    simp only [Eff.bind_run, Eff.call_run, hGet, hb, hf, hU, hL, hlen0, Bool.false_eq_true,
      if_false, Bool.not_true, hp]
    rcases hR : (s.Prs.ReplaceReviewer prID oldUserID new st3).1 with e | u
    · simp [Eff.bind_run, Eff.call_run, hR]
    · simp [Eff.bind_run, Eff.call_run, hR, Eff.pure_run]

/-- The run of a successful `Reassign`, call by call. -/
theorem PRService.Reassign_ok_inv {σ ρ : Type} (s : PRService σ ρ) (prID : PullRequestID)
    (oldUserID newUserID : UserID) (w w' : World σ ρ) (pr : PullRequest)
    (h : s.Reassign prID oldUserID w = (.ok (pr, newUserID), w')) :
    ∃ (pr0 : PullRequest) (oldUser : User) (cands : List User) (st1 st2 st3 st4 : σ) (r : ρ),
      s.Prs.Get prID w.store = (.ok pr0, st1) ∧
      pr0.Status ≠ PRStatusMerged ∧
      oldUserID ∈ pr0.AssignedReviewers ∧
      s.Users.GetByID oldUserID st1 = (.ok oldUser, st2) ∧
      s.Users.ListActiveByTeam oldUser.TeamName st2 = (.ok cands, st3) ∧
      newUserID ∈ (PRService.reassignFiltered pr0 oldUserID cands).map (fun u => u.ID) ∧
      s.Prs.ReplaceReviewer prID oldUserID newUserID st3 = (.ok (), st4) ∧
      pr = { pr0 with AssignedReviewers :=
              PRService.replaceFirst oldUserID newUserID pr0.AssignedReviewers } ∧
      w' = { store := st4, rand := r,
             log := w.log ++ [Event.Get prID (.ok pr0), Event.GetByID oldUserID (.ok oldUser),
               Event.ListActiveByTeam oldUser.TeamName (.ok cands),
               Event.ReplaceReviewer prID oldUserID newUserID (.ok ())] } := by
  rcases hGet : s.Prs.Get prID w.store with ⟨rG, st1⟩
  rcases rG with e | pr0
  · unfold PRService.Reassign at h
    simp [Eff.bind_run, Eff.call_run, hGet] at h
  by_cases hst : pr0.Status = PRStatusMerged
  · rw [s.Reassign_run_merged prID oldUserID w pr0 st1 hGet hst] at h
    simp at h
  by_cases hin : oldUserID ∈ pr0.AssignedReviewers
  swap
  · rw [s.Reassign_run_not_assigned prID oldUserID w pr0 st1 hGet hst hin] at h
    simp at h
  have hb : (pr0.Status == PRStatusMerged) = false := by simpa using hst
  have hf : (pr0.AssignedReviewers.any (fun r => r == oldUserID)) = true := by
    rw [List.any_eq_true]
    exact ⟨oldUserID, hin, by simp⟩
  rcases hU : s.Users.GetByID oldUserID st1 with ⟨rU, st2⟩
  rcases rU with e | oldUser
  · unfold PRService.Reassign at h
    simp only [Eff.bind_run, Eff.call_run, hGet, hb, hf, hU, Bool.false_eq_true, if_false,
      Bool.not_true] at h
    simp at h
  rcases hL : s.Users.ListActiveByTeam oldUser.TeamName st2 with ⟨rL, st3⟩
  rcases rL with e | cands
  · unfold PRService.Reassign at h
    simp only [Eff.bind_run, Eff.call_run, hGet, hb, hf, hU, hL, Bool.false_eq_true, if_false,
      Bool.not_true] at h
    simp at h
  obtain ⟨hempty, hpick⟩ :=
    s.Reassign_run_reads prID oldUserID w pr0 oldUser cands st1 st2 st3 hGet hst hin hU hL
  by_cases hpool : PRService.reassignFiltered pr0 oldUserID cands = []
  · rw [hempty hpool] at h
    simp at h
  obtain ⟨new, r, hnew, hrun⟩ := hpick hpool
  rw [hrun] at h
  rcases hR : s.Prs.ReplaceReviewer prID oldUserID new st3 with ⟨rR, st4⟩
  rw [hR] at h
  rcases rR with e | u
  · simp at h
  simp only [Prod.mk.injEq, Except.ok.injEq] at h
  obtain ⟨⟨hpr, hnn⟩, hw⟩ := h
  subst hnn
  exact ⟨pr0, oldUser, cands, st1, st2, st3, st4, r, rfl, hst, hin, hU, hL, hnew, hR,
    hpr.symm, hw.symm⟩

/-- Membership in the pool of `Reassign`. -/
theorem PRService.mem_reassignFiltered {pr : PullRequest} {oldUserID : UserID}
    {cands : List User} {u : User} :
    u ∈ PRService.reassignFiltered pr oldUserID cands ↔
      u ∈ cands ∧ u.ID ≠ oldUserID ∧ u.ID ≠ pr.AuthorID ∧ u.ID ∉ pr.AssignedReviewers := by
  unfold PRService.reassignFiltered
  simp [List.mem_filter, and_assoc]

theorem PRService.length_replaceFirst (a b : UserID) (l : List UserID) :
    (PRService.replaceFirst a b l).length = l.length := by
  induction l with
  | nil => rfl
  | cons r rs ih =>
    unfold PRService.replaceFirst
    split <;> simp [ih]

theorem PRService.mem_replaceFirst_new {a b : UserID} {l : List UserID} (h : a ∈ l) :
    b ∈ PRService.replaceFirst a b l := by
  induction l with
  | nil => simp at h
  | cons r rs ih =>
    unfold PRService.replaceFirst
    by_cases hr : r = a
    · simp [hr]
    · have hb : (r == a) = false := by simpa using hr
      have ha : a ∈ rs := by
        rcases List.mem_cons.mp h with h1 | h1
        · exact absurd h1.symm hr
        · exact h1
      simp [hb, ih ha]

theorem PRService.not_mem_replaceFirst_old {a b : UserID} {l : List UserID} (hnd : l.Nodup)
    (hab : b ≠ a) : a ∉ PRService.replaceFirst a b l := by
  induction l with
  | nil => simp [PRService.replaceFirst]
  | cons r rs ih =>
    obtain ⟨hr, hrs⟩ := List.nodup_cons.mp hnd
    unfold PRService.replaceFirst
    by_cases hra : r = a
    · subst hra
      simp only [beq_self_eq_true, if_true, List.mem_cons, not_or]
      exact ⟨fun h => hab h.symm, hr⟩
    · have hb : (r == a) = false := by simpa using hra
      simp only [hb, Bool.false_eq_true, if_false, List.mem_cons, not_or]
      exact ⟨fun h => hra h.symm, ih hrs⟩

theorem PRService.replaceFirst_getElem? (a b : UserID) (l : List UserID) (i : Nat)
    (h : l[i]? ≠ some a) : (PRService.replaceFirst a b l)[i]? = l[i]? := by
  induction l generalizing i with
  | nil => rfl
  | cons r rs ih =>
    unfold PRService.replaceFirst
    by_cases hra : r = a
    · subst hra
      cases i with
      | zero => simp at h
      | succ j => simp
    · have hb : (r == a) = false := by simpa using hra
      cases i with
      | zero => simp [hb]
      | succ j =>
        simp only [hb, Bool.false_eq_true, if_false, List.getElem?_cons_succ]
        exact ih j (by simpa using h)

theorem PRService.replaceFirst_getElem?_old (a b : UserID) (l : List UserID) (hnd : l.Nodup)
    (i : Nat) (h : l[i]? = some a) : (PRService.replaceFirst a b l)[i]? = some b := by
  induction l generalizing i with
  | nil => simp at h
  | cons r rs ih =>
    obtain ⟨hr, hrs⟩ := List.nodup_cons.mp hnd
    unfold PRService.replaceFirst
    by_cases hra : r = a
    · subst hra
      cases i with
      | zero => simp
      | succ j =>
        exfalso
        have : rs[j]? = some r := by simpa using h
        exact hr (List.getElem?_mem this)
    · have hb : (r == a) = false := by simpa using hra
      cases i with
      | zero => simp at h; exact absurd h hra
      | succ j =>
        simp only [hb, Bool.false_eq_true, if_false, List.getElem?_cons_succ]
        exact ih hrs j (by simpa using h)

/-! ## Go maps as entry lists: helper lemmas -/

theorem mapGet_mapSet_self {V : Type} (k : String) (v : V) (m : List (String × V)) :
    mapGet k (mapSet k v m) = some v := by
  induction m with
  | nil => simp [mapSet, mapGet]
  | cons e rest ih =>
    obtain ⟨k1, v1⟩ := e
    unfold mapSet
    by_cases hk : k1 = k
    · simp [hk, mapGet]
    · have hb : (k1 == k) = false := by simpa using hk
      simp [hb, mapGet, ih]

theorem mapGet_mapSet_ne {V : Type} {k k2 : String} (v : V) (m : List (String × V))
    (h : k2 ≠ k) : mapGet k2 (mapSet k v m) = mapGet k2 m := by
  induction m with
  | nil =>
    have hb : (k == k2) = false := by simpa using fun h1 => h h1.symm
    simp [mapSet, mapGet, hb]
  | cons e rest ih =>
    obtain ⟨k1, v1⟩ := e
    unfold mapSet
    by_cases hk : k1 = k
    · have hb : (k == k2) = false := by simpa using fun h1 => h h1.symm
      simp [hk, mapGet, hb]
    · have hb : (k1 == k) = false := by simpa using hk
      simp only [hb, Bool.false_eq_true, if_false, mapGet, ih]

theorem mem_of_mapGet {V : Type} {k : String} {v : V} {m : List (String × V)}
    (h : mapGet k m = some v) : (k, v) ∈ m := by
  induction m with
  | nil => simp [mapGet] at h
  | cons e rest ih =>
    obtain ⟨k1, v1⟩ := e
    unfold mapGet at h
    by_cases hk : k1 = k
    · have hv : v1 = v := by simpa [hk] using h
      simp [hk, hv]
    · have hb : (k1 == k) = false := by simpa using hk
      simp only [hb, Bool.false_eq_true, if_false] at h
      exact List.mem_cons_of_mem _ (ih h)

theorem mapGet_of_mem {V : Type} {k : String} {v : V} {m : List (String × V)}
    (hnd : (m.map Prod.fst).Nodup) (h : (k, v) ∈ m) : mapGet k m = some v := by
  induction m with
  | nil => simp at h
  | cons e rest ih =>
    obtain ⟨k1, v1⟩ := e
    simp only [List.map_cons, List.nodup_cons] at hnd
    obtain ⟨hk1, hrest⟩ := hnd
    unfold mapGet
    rcases List.mem_cons.mp h with heq | hmem
    · have h1 : k = k1 := congrArg Prod.fst heq
      have h2 : v = v1 := congrArg Prod.snd heq
      simp [h1, h2]
    · have hne : k1 ≠ k := by
        intro hkk
        apply hk1
        rw [hkk]
        exact List.mem_map.mpr ⟨(k, v), hmem, rfl⟩
      have hb : (k1 == k) = false := by simpa using hne
      simp only [hb, Bool.false_eq_true, if_false]
      exact ih hrest hmem

theorem map_fst_mapSet {V : Type} {k : String} {v0 : V} (v : V) {m : List (String × V)}
    (h : mapGet k m = some v0) : (mapSet k v m).map Prod.fst = m.map Prod.fst := by
  induction m with
  | nil => simp [mapGet] at h
  | cons e rest ih =>
    obtain ⟨k1, v1⟩ := e
    unfold mapGet at h
    unfold mapSet
    by_cases hk : k1 = k
    · simp [hk]
    · have hb : (k1 == k) = false := by simpa using hk
      simp only [hb, Bool.false_eq_true, if_false] at h
      simp [hb, ih h]

theorem mem_mapSet {V : Type} {k : String} {v : V} {m : List (String × V)} {e : String × V}
    (h : e ∈ mapSet k v m) : e = (k, v) ∨ e ∈ m := by
  induction m with
  | nil => simpa [mapSet] using h
  | cons e1 rest ih =>
    obtain ⟨k1, v1⟩ := e1
    unfold mapSet at h
    by_cases hk : k1 = k
    · have hb : (k1 == k) = true := by simpa using hk
      simp only [hb, if_true, List.mem_cons] at h
      rcases h with h | h
      · exact Or.inl h
      · exact Or.inr (List.mem_cons_of_mem _ h)
    · have hb : (k1 == k) = false := by simpa using hk
      simp only [hb, Bool.false_eq_true, if_false, List.mem_cons] at h
      rcases h with h | h
      · exact Or.inr (h ▸ List.mem_cons_self _ _)
      · rcases ih h with h2 | h2
        · exact Or.inl h2
        · exact Or.inr (List.mem_cons_of_mem _ h2)

/-- Writing a pull request with the same ID under a present key keeps the
store well formed. -/
theorem FakeStore.WF_mapSet {st : FakeStore} {k : PullRequestID} {pr0 : PullRequest}
    (pr1 : PullRequest) (hwf : st.WF) (hget : mapGet k st.prs = some pr0) (hid : pr1.ID = pr0.ID)
    (users : List (UserID × User)) :
    FakeStore.WF { users := users, prs := mapSet k pr1 st.prs } := by
  obtain ⟨hnd, hkey⟩ := hwf
  have hk0 : pr0.ID = k := hkey _ (mem_of_mapGet hget)
  refine ⟨?_, ?_⟩
  · show ((mapSet k pr1 st.prs).map Prod.fst).Nodup
    rw [map_fst_mapSet pr1 hget]
    exact hnd
  · intro e he
    rcases mem_mapSet he with h | h
    · rw [h]
      exact hid.trans hk0
    · exact hkey e h

theorem fakePRRepo_GetReadOnly (id : PullRequestID) : fakePRRepo.GetReadOnly id := by
  intro st
  show (FakeStore.Get id st).2 = st
  unfold FakeStore.Get
  split <;> rfl

theorem fakePRRepo_MarkMergedRecords (id : PullRequestID) : fakePRRepo.MarkMergedRecords id := by
  intro st t pr hget _
  have hget1 : (FakeStore.Get id st).1 = .ok pr := hget
  show (FakeStore.MarkMerged id t st).1 = .ok () ∧
    ∃ pr1, (FakeStore.Get id (FakeStore.MarkMerged id t st).2).1 = .ok pr1 ∧
      pr1.Status = PRStatusMerged ∧ pr1.MergedAt = some t
  unfold FakeStore.Get at hget1
  rcases hm : mapGet id st.prs with _ | pr2
  · simp [hm] at hget1
  · refine ⟨by simp [FakeStore.MarkMerged, hm], ?_⟩
    refine ⟨{ pr2 with Status := PRStatusMerged, MergedAt := some t }, ?_, rfl, rfl⟩
    simp [FakeStore.MarkMerged, hm, FakeStore.Get, mapGet_mapSet_self]

theorem fakePRRepo_ReplaceReviewer_ne (prID : PullRequestID) (oldUserID newUserID : UserID)
    (st : FakeStore) :
    (fakePRRepo.ReplaceReviewer prID oldUserID newUserID st).1 ≠ .error .ErrNoCandidate := by
  show (FakeStore.ReplaceReviewer prID oldUserID newUserID st).1 ≠ .error .ErrNoCandidate
  unfold FakeStore.ReplaceReviewer
  split <;> simp

/-! ## Bulk deactivation over the in-memory repositories: helper lemmas -/

/-- Run of `Reassign` over the in-memory repositories, for a stored pull request that
is not merged and has `uid` among its reviewers, and an existing user `uid`:
it succeeds or fails with `ErrNoCandidate`, leaves the users as they were, and
either leaves the pull requests as they were or rewrites this one with a new
reviewer list. -/
theorem memService_Reassign_outcome {ρ : Type} (rnd : Rand ρ) (prID : PullRequestID)
    (uid : UserID) (w : World FakeStore ρ) (pr0 : PullRequest) (u : User)
    (hpr : mapGet prID w.store.prs = some pr0) (hst : pr0.Status ≠ PRStatusMerged)
    (hin : uid ∈ pr0.AssignedReviewers) (hu : mapGet uid w.store.users = some u) :
    (((memService rnd).Reassign prID uid w).1 = .error .ErrNoCandidate ∨
      ∃ x, ((memService rnd).Reassign prID uid w).1 = .ok x) ∧
    ((memService rnd).Reassign prID uid w).2.store.users = w.store.users ∧
    (((memService rnd).Reassign prID uid w).2.store.prs = w.store.prs ∨
      ∃ rs, ((memService rnd).Reassign prID uid w).2.store.prs
        = mapSet prID { pr0 with AssignedReviewers := rs } w.store.prs) := by
  have hGet : (memService rnd).Prs.Get prID w.store = (.ok pr0, w.store) := by
    show FakeStore.Get prID w.store = _
    simp [FakeStore.Get, hpr]
  have hU : (memService rnd).Users.GetByID uid w.store = (.ok u, w.store) := by
    show FakeStore.GetByID uid w.store = _
    simp [FakeStore.GetByID, hu]
  have hL : (memService rnd).Users.ListActiveByTeam u.TeamName w.store
      = (.ok ((w.store.users.map Prod.snd).filter
          (fun x => x.TeamName == u.TeamName && x.IsActive)), w.store) := rfl
  obtain ⟨hempty, hpick⟩ :=
    (memService rnd).Reassign_run_reads prID uid w pr0 u _ w.store w.store w.store hGet hst hin
      hU hL
  by_cases hpool : PRService.reassignFiltered pr0 uid
      ((w.store.users.map Prod.snd).filter (fun x => x.TeamName == u.TeamName && x.IsActive))
      = []
  · rw [hempty hpool]
    exact ⟨Or.inl rfl, rfl, Or.inl rfl⟩
  · obtain ⟨new, r, -, hrun⟩ := hpick hpool
    have hRR : (memService rnd).Prs.ReplaceReviewer prID uid new w.store
        = (.ok (), { w.store with
            prs := mapSet prID
              { pr0 with
                AssignedReviewers := PRService.replaceFirst uid new pr0.AssignedReviewers }
              w.store.prs }) := by
      show FakeStore.ReplaceReviewer prID uid new w.store = _
      simp [FakeStore.ReplaceReviewer, hpr]
    rw [hrun, hRR]
    exact ⟨Or.inr ⟨_, rfl⟩, rfl, Or.inr ⟨_, rfl⟩⟩

theorem PRStatusOpen_ne_Merged : PRStatusOpen ≠ PRStatusMerged := by decide

/-- In a well-formed store, what `ListByReviewer` returns is listed for the
reviewer. -/
theorem FakeStore.ListByReviewer_listed (uid : UserID) (st : FakeStore) (hwf : st.WF) :
    ∃ ps, FakeStore.ListByReviewer uid st = (.ok ps, st) ∧ ListedForReviewer uid st ps := by
  obtain ⟨hnd, hkey⟩ := hwf
  refine ⟨_, rfl, ?_, ?_⟩
  · rw [List.map_map]
    have hsub : List.Sublist
        (((st.prs.map Prod.snd).filter
          (fun pr => pr.AssignedReviewers.any (fun rID => rID == uid))).map
            (fun pr => pr.ID))
        ((st.prs.map Prod.snd).map (fun pr => pr.ID)) :=
      List.Sublist.map _ (List.filter_sublist _)
    have heq : (st.prs.map Prod.snd).map (fun pr => pr.ID) = st.prs.map Prod.fst := by
      rw [List.map_map]
      apply List.map_congr_left
      intro e he
      exact hkey e he
    rw [heq] at hsub
    exact hnd.sublist hsub
  · intro p hp hopen
    obtain ⟨pr, hprm, rfl⟩ := List.mem_map.mp hp
    obtain ⟨hprm1, hany⟩ := List.mem_filter.mp hprm
    obtain ⟨e, he, rfl⟩ := List.mem_map.mp hprm1
    have hk : e.2.ID = e.1 := hkey e he
    refine ⟨e.2, ?_, ?_, ?_⟩
    · show mapGet e.2.ID st.prs = some e.2
      rw [hk]
      exact mapGet_of_mem hnd he
    · have : e.2.Status = PRStatusOpen := hopen
      rw [this]
      exact PRStatusOpen_ne_Merged
    · obtain ⟨x, hx, hxe⟩ := List.any_eq_true.mp hany
      have : x = uid := by simpa using hxe
      exact this ▸ hx

/-- The inner loop of the bulk operation over the in-memory repositories
returns no error, leaves the users as they were and keeps the store well
formed. -/
theorem memService_reassignOpen_ok {ρ : Type} (rnd : Rand ρ) (uid : UserID) (u : User) :
    ∀ (ps : List PullRequestShort) (w : World FakeStore ρ), w.store.WF →
      mapGet uid w.store.users = some u → ListedForReviewer uid w.store ps →
      ((memService rnd).reassignOpen uid ps w).1 = .ok () ∧
      ((memService rnd).reassignOpen uid ps w).2.store.users = w.store.users ∧
      ((memService rnd).reassignOpen uid ps w).2.store.WF := by
  intro ps
  induction ps with
  | nil =>
    intro w hwf _ _
    exact ⟨rfl, rfl, hwf⟩
  | cons p rest ih =>
    intro w hwf hu hl
    obtain ⟨hnd, hall⟩ := hl
    simp only [List.map_cons, List.nodup_cons] at hnd
    obtain ⟨hp, hndr⟩ := hnd
    have hrest : ∀ st : FakeStore, st.prs = w.store.prs ∨
        (∃ pr1, st.prs = mapSet p.ID pr1 w.store.prs) → ListedForReviewer uid st rest := by
      intro st hst
      refine ⟨hndr, ?_⟩
      intro q hq hopen
      obtain ⟨pr, h1, h2, h3⟩ := hall q (List.mem_cons_of_mem _ hq) hopen
      refine ⟨pr, ?_, h2, h3⟩
      rcases hst with hs | ⟨pr1, hs⟩
      · rw [hs]
        exact h1
      · rw [hs, mapGet_mapSet_ne]
        · exact h1
        · intro hqp
          apply hp
          rw [← hqp]
          exact List.mem_map.mpr ⟨q, hq, rfl⟩
    unfold PRService.reassignOpen
    by_cases hopen : p.Status = PRStatusOpen
    swap
    · have hb : (p.Status != PRStatusOpen) = true := by simpa using hopen
      simp only [hb, if_true]
      exact ih w hwf hu (hrest w.store (Or.inl rfl))
    have hb : (p.Status != PRStatusOpen) = false := by simpa using hopen
    simp only [hb, Bool.false_eq_true, if_false]
    obtain ⟨pr0, hget, hst, hin⟩ := hall p (List.mem_cons_self _ _) hopen
    obtain ⟨hres, husers, hprs⟩ :=
      memService_Reassign_outcome rnd p.ID uid w pr0 u hget hst hin hu
    have hwf1 : ((memService rnd).Reassign p.ID uid w).2.store.WF := by
      rcases hprs with h | ⟨rs, h⟩
      · exact ⟨by rw [h]; exact hwf.1, by rw [h]; exact hwf.2⟩
      · have := FakeStore.WF_mapSet { pr0 with AssignedReviewers := rs } hwf hget rfl
          ((memService rnd).Reassign p.ID uid w).2.store.users
        rw [← h] at this
        exact this
    have hu1 : mapGet uid ((memService rnd).Reassign p.ID uid w).2.store.users = some u := by
      rw [husers]
      exact hu
    have hl1 : ListedForReviewer uid ((memService rnd).Reassign p.ID uid w).2.store rest := by
      apply hrest
      rcases hprs with h | ⟨rs, h⟩
      · exact Or.inl h
      · exact Or.inr ⟨_, h⟩
    have hrec := ih ((memService rnd).Reassign p.ID uid w).2 hwf1 hu1 hl1
    rw [husers] at hrec
    rcases hR : (memService rnd).Reassign p.ID uid w with ⟨res, w1⟩
    rw [hR] at hres hrec
    rcases hres with he | ⟨x, hx⟩
    · simp only at he
      subst he
      simpa using hrec
    · simp only at hx
      subst hx
      simpa using hrec

/-- The bulk operation over the in-memory repositories returns no error, keeps
the store well formed, keeps every user record, and leaves inactive every user
that was inactive or is listed. -/
theorem memService_Bulk_ok {ρ : Type} (rnd : Rand ρ) :
    ∀ (ids : List UserID) (w : World FakeStore ρ), w.store.WF →
      ((memService rnd).BulkDeactivateAndReassign ids w).1 = .ok () ∧
      ∀ id u, mapGet id w.store.users = some u →
        ∃ u1, mapGet id ((memService rnd).BulkDeactivateAndReassign ids w).2.store.users
            = some u1 ∧
          (u.IsActive = false ∨ id ∈ ids → u1.IsActive = false) := by
  intro ids
  induction ids with
  | nil =>
    intro w _
    refine ⟨rfl, ?_⟩
    intro id u hu
    exact ⟨u, hu, fun h => h.elim (fun h1 => h1) (fun h2 => absurd h2 (List.not_mem_nil _))⟩
  | cons uid rest ih =>
    intro w hwf
    unfold PRService.BulkDeactivateAndReassign
    simp only [Eff.call_run]
    rcases hu0 : mapGet uid w.store.users with _ | u0
    · have hG : (memService rnd).Users.GetByID uid w.store = (.error .ErrNotFound, w.store) := by
        show FakeStore.GetByID uid w.store = _
        simp [FakeStore.GetByID, hu0]
      simp only [hG, if_true]
      obtain ⟨hok, hrestu⟩ := ih
        { store := w.store, rand := w.rand,
          log := w.log ++ [Event.GetByID uid (.error .ErrNotFound)] } hwf
      refine ⟨hok, ?_⟩
      intro id u hu
      obtain ⟨u1, h1, h2⟩ := hrestu id u hu
      refine ⟨u1, h1, ?_⟩
      intro h
      apply h2
      rcases h with h | h
      · exact Or.inl h
      · rcases List.mem_cons.mp h with h3 | h3
        · rw [h3, hu0] at hu
          simp at hu
        · exact Or.inr h3
    · have hG : (memService rnd).Users.GetByID uid w.store = (.ok u0, w.store) := by
        show FakeStore.GetByID uid w.store = _
        simp [FakeStore.GetByID, hu0]
      have hS : (memService rnd).Users.SetIsActive uid false w.store
          = (.ok { u0 with IsActive := false },
              { w.store with
                users := mapSet uid { u0 with IsActive := false } w.store.users }) := by
        show FakeStore.SetIsActive uid false w.store = _
        simp [FakeStore.SetIsActive, hu0]
      have hwf2 : FakeStore.WF { w.store with
          users := mapSet uid { u0 with IsActive := false } w.store.users } := hwf
      obtain ⟨ps, hLr, hlisted⟩ := FakeStore.ListByReviewer_listed uid _ hwf2
      have hLr2 : (memService rnd).Prs.ListByReviewer uid
          { w.store with users := mapSet uid { u0 with IsActive := false } w.store.users }
          = (.ok ps, { w.store with
              users := mapSet uid { u0 with IsActive := false } w.store.users }) := hLr
      simp only [hG, hS, hLr2]
      obtain ⟨hiok, hiusers, hiwf⟩ := memService_reassignOpen_ok rnd uid
        { u0 with IsActive := false } ps
        { store := { w.store with
            users := mapSet uid { u0 with IsActive := false } w.store.users },
          rand := w.rand,
          log := w.log ++ [Event.GetByID uid (.ok u0)] ++
            [Event.SetIsActive uid false (.ok { u0 with IsActive := false })] ++
            [Event.ListByReviewer uid (.ok ps)] }
        hwf2 (mapGet_mapSet_self _ _ _) hlisted
      rcases hR : (memService rnd).reassignOpen uid ps
        { store := { w.store with
            users := mapSet uid { u0 with IsActive := false } w.store.users },
          rand := w.rand,
          log := w.log ++ [Event.GetByID uid (.ok u0)] ++
            [Event.SetIsActive uid false (.ok { u0 with IsActive := false })] ++
            [Event.ListByReviewer uid (.ok ps)] } with ⟨res, w4⟩
      rw [hR] at hiok hiusers hiwf
      simp only at hiok hiusers hiwf
      subst hiok
      simp only
      obtain ⟨hok, hrestu⟩ := ih w4 hiwf
      refine ⟨hok, ?_⟩
      intro id u hu
      by_cases hid : id = uid
      · subst hid
        obtain ⟨u1, h1, h2⟩ := hrestu id { u0 with IsActive := false }
          (by rw [hiusers]; exact mapGet_mapSet_self _ _ _)
        exact ⟨u1, h1, fun _ => h2 (Or.inl rfl)⟩
      · obtain ⟨u1, h1, h2⟩ := hrestu id u
          (by rw [hiusers]; show mapGet id (mapSet uid _ w.store.users) = some u
              rw [mapGet_mapSet_ne _ _ hid]; exact hu)
        refine ⟨u1, h1, ?_⟩
        intro h
        apply h2
        rcases h with h | h
        · exact Or.inl h
        · rcases List.mem_cons.mp h with h3 | h3
          · exact absurd h3 hid
          · exact Or.inr h3

/-! ## Create -/

/-- C1: when `Create` succeeds, it has asked the store whether the ID exists,
fetched the author, listed the active users of the author's team and stored the
pull request, in that order, and the number of assigned reviewers is
`min(2, k)`, where `k` counts the listed users whose ID differs from the
author's ID. -/
theorem Create_assigns_min_two_of_candidates {σ ρ : Type} (s : PRService σ ρ)
    (id : PullRequestID) (name : String) (authorID : UserID) (now : Time) (w w' : World σ ρ)
    (pr : PullRequest) (h : s.Create id name authorID now w = (.ok pr, w')) :
    ∃ (author : User) (cands : List User),
      w'.log = w.log ++ [Event.Exists id (.ok false), Event.GetByID authorID (.ok author),
        Event.ListActiveByTeam author.TeamName (.ok cands), Event.Create pr (.ok ())] ∧
      pr.AssignedReviewers.length
        = min 2 (cands.countP (fun u => decide (u.ID ≠ author.ID))) := by
  obtain ⟨author, cands, st1, st2, st3, st4, r, -, -, -, -, -, -, -, -, -, -, hlen, -, -, hw⟩ :=
    s.Create_ok_inv id name authorID now w w' pr h
  refine ⟨author, cands, by rw [hw], ?_⟩
  rw [hlen, List.countP_eq_length_filter]
  congr 2
  apply List.filter_congr
  intro u _
  by_cases hu : u.ID = author.ID <;> simp [hu]

theorem Create_assigns_min_two_of_candidates_witness :
    fakeService.Create "pr2" "PR 2" "u1" 7 exWorld0 = (.ok exPR, exWorld1) ∧
    ∃ (author : User) (cands : List User),
      exWorld1.log = exWorld0.log ++ [Event.Exists "pr2" (.ok false),
        Event.GetByID "u1" (.ok author),
        Event.ListActiveByTeam author.TeamName (.ok cands), Event.Create exPR (.ok ())] ∧
      exPR.AssignedReviewers.length
        = min 2 (cands.countP (fun u => decide (u.ID ≠ author.ID))) :=
  ⟨rfl, Create_assigns_min_two_of_candidates fakeService "pr2" "PR 2" "u1" 7 exWorld0 exWorld1
    exPR rfl⟩

/-- C2: when `Create` succeeds, every assigned reviewer is the ID of a user the
store listed as active in the author's team, none of them is the ID of the
author record (so none is the pull request's author when the store returned
the record of the requested ID), and the reviewers are pairwise distinct when
the listed users have pairwise distinct IDs. -/
theorem Create_reviewers_from_candidates {σ ρ : Type} (s : PRService σ ρ)
    (id : PullRequestID) (name : String) (authorID : UserID) (now : Time) (w w' : World σ ρ)
    (pr : PullRequest) (h : s.Create id name authorID now w = (.ok pr, w')) :
    ∃ (author : User) (cands : List User),
      w'.log = w.log ++ [Event.Exists id (.ok false), Event.GetByID authorID (.ok author),
        Event.ListActiveByTeam author.TeamName (.ok cands), Event.Create pr (.ok ())] ∧
      (∀ x ∈ pr.AssignedReviewers, ∃ u ∈ cands, u.ID = x) ∧
      (∀ x ∈ pr.AssignedReviewers, x ≠ author.ID) ∧
      (author.ID = authorID → ∀ x ∈ pr.AssignedReviewers, x ≠ pr.AuthorID) ∧
      ((cands.map (fun u => u.ID)).Nodup → pr.AssignedReviewers.Nodup) := by
  obtain ⟨author, cands, st1, st2, st3, st4, r, -, -, -, -, -, -, hau, -, -, -, -, hmem, hnd,
    hw⟩ := s.Create_ok_inv id name authorID now w w' pr h
  have hfilt : ∀ x ∈ pr.AssignedReviewers, ∃ u ∈ cands, u.ID ≠ author.ID ∧ u.ID = x := by
    intro x hx
    obtain ⟨u, hu, rfl⟩ := List.mem_map.mp (hmem x hx)
    obtain ⟨hu1, hu2⟩ := List.mem_filter.mp hu
    exact ⟨u, hu1, by simpa using hu2, rfl⟩
  refine ⟨author, cands, by rw [hw], ?_, ?_, ?_, ?_⟩
  · intro x hx
    obtain ⟨u, hu, -, rfl⟩ := hfilt x hx
    exact ⟨u, hu, rfl⟩
  · intro x hx
    obtain ⟨u, -, hne, rfl⟩ := hfilt x hx
    exact hne
  · intro hid x hx
    obtain ⟨u, -, hne, rfl⟩ := hfilt x hx
    rw [hau, ← hid]
    exact hne
  · intro hcn
    exact hnd (hcn.sublist (List.Sublist.map _ (List.filter_sublist _)))

theorem Create_reviewers_from_candidates_witness :
    fakeService.Create "pr2" "PR 2" "u1" 7 exWorld0 = (.ok exPR, exWorld1) ∧
    ∃ (author : User) (cands : List User),
      exWorld1.log = exWorld0.log ++ [Event.Exists "pr2" (.ok false),
        Event.GetByID "u1" (.ok author),
        Event.ListActiveByTeam author.TeamName (.ok cands), Event.Create exPR (.ok ())] ∧
      (∀ x ∈ exPR.AssignedReviewers, ∃ u ∈ cands, u.ID = x) ∧
      (∀ x ∈ exPR.AssignedReviewers, x ≠ author.ID) ∧
      (author.ID = "u1" → ∀ x ∈ exPR.AssignedReviewers, x ≠ exPR.AuthorID) ∧
      ((cands.map (fun u => u.ID)).Nodup → exPR.AssignedReviewers.Nodup) :=
  ⟨rfl, Create_reviewers_from_candidates fakeService "pr2" "PR 2" "u1" 7 exWorld0 exWorld1
    exPR rfl⟩

/-! ## Reassign -/

/-- C3: after a successful `Reassign(pr, old)` the returned reviewer list has
the length of the fetched one, contains the returned new reviewer and agrees
with the fetched list at every position that did not hold `old`; when the
fetched reviewer IDs are pairwise distinct, the returned list does not contain
`old`, and the position that held `old` holds the new reviewer. -/
theorem Reassign_swaps_old_for_new {σ ρ : Type} (s : PRService σ ρ) (prID : PullRequestID)
    (oldUserID newUserID : UserID) (w w' : World σ ρ) (pr : PullRequest)
    (h : s.Reassign prID oldUserID w = (.ok (pr, newUserID), w')) :
    ∃ (pr0 : PullRequest) (oldUser : User) (cands : List User),
      w'.log = w.log ++ [Event.Get prID (.ok pr0), Event.GetByID oldUserID (.ok oldUser),
        Event.ListActiveByTeam oldUser.TeamName (.ok cands),
        Event.ReplaceReviewer prID oldUserID newUserID (.ok ())] ∧
      pr.AssignedReviewers.length = pr0.AssignedReviewers.length ∧
      newUserID ∈ pr.AssignedReviewers ∧
      (∀ i : Nat, pr0.AssignedReviewers[i]? ≠ some oldUserID →
        pr.AssignedReviewers[i]? = pr0.AssignedReviewers[i]?) ∧
      (pr0.AssignedReviewers.Nodup →
        oldUserID ∉ pr.AssignedReviewers ∧
        ∀ i : Nat, pr0.AssignedReviewers[i]? = some oldUserID →
          pr.AssignedReviewers[i]? = some newUserID) := by
  obtain ⟨pr0, oldUser, cands, st1, st2, st3, st4, r, -, -, hin, -, -, hnew, -, hpr, hw⟩ :=
    s.Reassign_ok_inv prID oldUserID newUserID w w' pr h
  obtain ⟨u, hu, hid⟩ := List.mem_map.mp hnew
  obtain ⟨-, hne, -, -⟩ := PRService.mem_reassignFiltered.mp hu
  have hne2 : newUserID ≠ oldUserID := hid ▸ hne
  subst hpr
  refine ⟨pr0, oldUser, cands, by rw [hw], ?_, ?_, ?_, ?_⟩
  · exact PRService.length_replaceFirst _ _ _
  · exact PRService.mem_replaceFirst_new hin
  · intro i hi
    exact PRService.replaceFirst_getElem? _ _ _ i hi
  · intro hnd
    exact ⟨PRService.not_mem_replaceFirst_old hnd hne2,
      fun i hi => PRService.replaceFirst_getElem?_old _ _ _ hnd i hi⟩

theorem Reassign_swaps_old_for_new_witness :
    fakeService.Reassign "pr2" "u4" exWorld1 = (.ok (exPRReassigned, "u2"), exWorld3) ∧
    ∃ (pr0 : PullRequest) (oldUser : User) (cands : List User),
      exWorld3.log = exWorld1.log ++ [Event.Get "pr2" (.ok pr0),
        Event.GetByID "u4" (.ok oldUser),
        Event.ListActiveByTeam oldUser.TeamName (.ok cands),
        Event.ReplaceReviewer "pr2" "u4" "u2" (.ok ())] ∧
      exPRReassigned.AssignedReviewers.length = pr0.AssignedReviewers.length ∧
      "u2" ∈ exPRReassigned.AssignedReviewers ∧
      (∀ i : Nat, pr0.AssignedReviewers[i]? ≠ some "u4" →
        exPRReassigned.AssignedReviewers[i]? = pr0.AssignedReviewers[i]?) ∧
      (pr0.AssignedReviewers.Nodup →
        "u4" ∉ exPRReassigned.AssignedReviewers ∧
        ∀ i : Nat, pr0.AssignedReviewers[i]? = some "u4" →
          exPRReassigned.AssignedReviewers[i]? = some "u2") :=
  ⟨rfl, Reassign_swaps_old_for_new fakeService "pr2" "u4" "u2" exWorld1 exWorld3
    exPRReassigned rfl⟩

/-- C4: after a successful `Reassign(pr, old)` the returned new reviewer is the
ID of a user the store listed as active in the team of the record fetched for
`old`, differs from `old`, is not the author of the fetched pull request and
is not in its reviewer list. -/
theorem Reassign_new_reviewer_is_fresh_teammate {σ ρ : Type} (s : PRService σ ρ)
    (prID : PullRequestID) (oldUserID newUserID : UserID) (w w' : World σ ρ) (pr : PullRequest)
    (h : s.Reassign prID oldUserID w = (.ok (pr, newUserID), w')) :
    ∃ (pr0 : PullRequest) (oldUser : User) (cands : List User),
      w'.log = w.log ++ [Event.Get prID (.ok pr0), Event.GetByID oldUserID (.ok oldUser),
        Event.ListActiveByTeam oldUser.TeamName (.ok cands),
        Event.ReplaceReviewer prID oldUserID newUserID (.ok ())] ∧
      (∃ u ∈ cands, u.ID = newUserID) ∧
      newUserID ≠ oldUserID ∧
      newUserID ≠ pr0.AuthorID ∧
      newUserID ∉ pr0.AssignedReviewers := by
  obtain ⟨pr0, oldUser, cands, st1, st2, st3, st4, r, -, -, -, -, -, hnew, -, -, hw⟩ :=
    s.Reassign_ok_inv prID oldUserID newUserID w w' pr h
  obtain ⟨u, hu, hid⟩ := List.mem_map.mp hnew
  obtain ⟨hc, h1, h2, h3⟩ := PRService.mem_reassignFiltered.mp hu
  exact ⟨pr0, oldUser, cands, by rw [hw], ⟨u, hc, hid⟩, hid ▸ h1, hid ▸ h2, hid ▸ h3⟩

theorem Reassign_new_reviewer_is_fresh_teammate_witness :
    fakeService.Reassign "pr2" "u4" exWorld1 = (.ok (exPRReassigned, "u2"), exWorld3) ∧
    ∃ (pr0 : PullRequest) (oldUser : User) (cands : List User),
      exWorld3.log = exWorld1.log ++ [Event.Get "pr2" (.ok pr0),
        Event.GetByID "u4" (.ok oldUser),
        Event.ListActiveByTeam oldUser.TeamName (.ok cands),
        Event.ReplaceReviewer "pr2" "u4" "u2" (.ok ())] ∧
      (∃ u ∈ cands, u.ID = "u2") ∧
      "u2" ≠ "u4" ∧
      "u2" ≠ pr0.AuthorID ∧
      "u2" ∉ pr0.AssignedReviewers :=
  ⟨rfl, Reassign_new_reviewer_is_fresh_teammate fakeService "pr2" "u4" "u2" exWorld1 exWorld3
    exPRReassigned rfl⟩

/-- C5: on a pull request that the store returns with status MERGED, `Reassign`
fails with `ErrPullRequestMerged` for every old-reviewer argument; its only
repository call is that `Get`, which is not a mutating call, and the store is
left as `Get` left it. -/
theorem Reassign_merged_fails {σ ρ : Type} (s : PRService σ ρ) (prID : PullRequestID)
    (oldUserID : UserID) (w : World σ ρ) (pr0 : PullRequest) (st1 : σ)
    (hGet : s.Prs.Get prID w.store = (.ok pr0, st1)) (hst : pr0.Status = PRStatusMerged) :
    (s.Reassign prID oldUserID w).1 = .error .ErrPullRequestMerged ∧
    (s.Reassign prID oldUserID w).2.log = w.log ++ [Event.Get prID (.ok pr0)] ∧
    (Event.Get prID (.ok pr0)).isMutating = false ∧
    (s.Reassign prID oldUserID w).2.store = st1 := by
  rw [s.Reassign_run_merged prID oldUserID w pr0 st1 hGet hst]
  exact ⟨rfl, rfl, rfl, rfl⟩

theorem Reassign_merged_fails_witness :
    fakeService.Prs.Get "pr2" exWorld2.store = (.ok exPRMerged, exWorld2.store) ∧
    exPRMerged.Status = PRStatusMerged ∧
    (fakeService.Reassign "pr2" "nobody" exWorld2).1 = .error .ErrPullRequestMerged ∧
    (fakeService.Reassign "pr2" "nobody" exWorld2).2.log
      = exWorld2.log ++ [Event.Get "pr2" (.ok exPRMerged)] ∧
    (Event.Get "pr2" (.ok exPRMerged)).isMutating = false ∧
    (fakeService.Reassign "pr2" "nobody" exWorld2).2.store = exWorld2.store :=
  ⟨rfl, rfl, Reassign_merged_fails fakeService "pr2" "nobody" exWorld2 exPRMerged
    exWorld2.store rfl rfl⟩

/-- C7: on a pull request that the store returns with a status other than
MERGED (OPEN in particular) and an old reviewer that is not in its reviewer
list, `Reassign` fails with `ErrNotAssigned`; its only repository call is that
`Get` (no user lookup is made, so it does not matter whether the user exists),
which is not a mutating call, and the store is left as `Get` left it. -/
theorem Reassign_not_assigned_fails {σ ρ : Type} (s : PRService σ ρ) (prID : PullRequestID)
    (oldUserID : UserID) (w : World σ ρ) (pr0 : PullRequest) (st1 : σ)
    (hGet : s.Prs.Get prID w.store = (.ok pr0, st1)) (hst : pr0.Status ≠ PRStatusMerged)
    (hnot : oldUserID ∉ pr0.AssignedReviewers) :
    (s.Reassign prID oldUserID w).1 = .error .ErrNotAssigned ∧
    (s.Reassign prID oldUserID w).2.log = w.log ++ [Event.Get prID (.ok pr0)] ∧
    (Event.Get prID (.ok pr0)).isMutating = false ∧
    (s.Reassign prID oldUserID w).2.store = st1 := by
  rw [s.Reassign_run_not_assigned prID oldUserID w pr0 st1 hGet hst hnot]
  exact ⟨rfl, rfl, rfl, rfl⟩

theorem Reassign_not_assigned_fails_witness :
    fakeService.Prs.Get "pr2" exWorld1.store = (.ok exPR, exWorld1.store) ∧
    exPR.Status = PRStatusOpen ∧ "nobody" ∉ exPR.AssignedReviewers ∧
    (fakeService.Reassign "pr2" "nobody" exWorld1).1 = .error .ErrNotAssigned ∧
    (fakeService.Reassign "pr2" "nobody" exWorld1).2.log
      = exWorld1.log ++ [Event.Get "pr2" (.ok exPR)] ∧
    (Event.Get "pr2" (.ok exPR)).isMutating = false ∧
    (fakeService.Reassign "pr2" "nobody" exWorld1).2.store = exWorld1.store :=
  ⟨rfl, rfl, by decide, Reassign_not_assigned_fails fakeService "pr2" "nobody" exWorld1 exPR
    exWorld1.store rfl (by decide) (by decide)⟩

/-- C6: let the store return the pull request with a status other than MERGED
(OPEN in particular) and with `old` among its reviewers, the record of `old`,
and the list of active users of that record's team, and let `ReplaceReviewer`
never report `ErrNoCandidate` (the store contract lists ok, NotFound and
NotAssigned). Then `Reassign` fails with `ErrNoCandidate` exactly when every
listed user is `old`, the author, or an assigned reviewer; in that case the
repository calls are the three reads only, so `ReplaceReviewer` is not called,
and the store is left as the reads left it. -/
theorem Reassign_no_candidate_iff_pool_empty {σ ρ : Type} (s : PRService σ ρ)
    (prID : PullRequestID) (oldUserID : UserID) (w : World σ ρ) (pr0 : PullRequest)
    (oldUser : User) (cands : List User) (st1 st2 st3 : σ)
    (hGet : s.Prs.Get prID w.store = (.ok pr0, st1)) (hst : pr0.Status ≠ PRStatusMerged)
    (hin : oldUserID ∈ pr0.AssignedReviewers)
    (hU : s.Users.GetByID oldUserID st1 = (.ok oldUser, st2))
    (hL : s.Users.ListActiveByTeam oldUser.TeamName st2 = (.ok cands, st3))
    (hRR : ∀ new st, (s.Prs.ReplaceReviewer prID oldUserID new st).1 ≠ .error .ErrNoCandidate) :
    ((s.Reassign prID oldUserID w).1 = .error .ErrNoCandidate ↔
      ∀ u ∈ cands, u.ID = oldUserID ∨ u.ID = pr0.AuthorID ∨ u.ID ∈ pr0.AssignedReviewers) ∧
    ((∀ u ∈ cands, u.ID = oldUserID ∨ u.ID = pr0.AuthorID ∨ u.ID ∈ pr0.AssignedReviewers) →
      (s.Reassign prID oldUserID w).2.log
        = w.log ++ [Event.Get prID (.ok pr0), Event.GetByID oldUserID (.ok oldUser),
            Event.ListActiveByTeam oldUser.TeamName (.ok cands)] ∧
      (∀ ev ∈ (s.Reassign prID oldUserID w).2.log.drop w.log.length,
        ev.isReplaceReviewer = false ∧ ev.isMutating = false) ∧
      (s.Reassign prID oldUserID w).2.store = st3) := by
  obtain ⟨hempty, hpick⟩ :=
    s.Reassign_run_reads prID oldUserID w pr0 oldUser cands st1 st2 st3 hGet hst hin hU hL
  have hpool : PRService.reassignFiltered pr0 oldUserID cands = [] ↔
      ∀ u ∈ cands, u.ID = oldUserID ∨ u.ID = pr0.AuthorID ∨ u.ID ∈ pr0.AssignedReviewers := by
    rw [List.eq_nil_iff_forall_not_mem]
    constructor
    · intro hall u hu
      by_contra hcon
      push_neg at hcon
      exact hall u (PRService.mem_reassignFiltered.mpr ⟨hu, hcon.1, hcon.2.1, hcon.2.2⟩)
    · intro hall u hu
      obtain ⟨hc, h1, h2, h3⟩ := PRService.mem_reassignFiltered.mp hu
      rcases hall u hc with h | h | h
      · exact h1 h
      · exact h2 h
      · exact h3 h
  refine ⟨⟨?_, ?_⟩, ?_⟩
  · intro herr
    by_contra hcon
    have hne : PRService.reassignFiltered pr0 oldUserID cands ≠ [] := fun h => hcon (hpool.mp h)
    obtain ⟨new, r, -, hrun⟩ := hpick hne
    rw [hrun] at herr
    rcases hR : (s.Prs.ReplaceReviewer prID oldUserID new st3).1 with e | u
    · rw [hR] at herr
      simp only [Except.error.injEq] at herr
      exact hRR new st3 (by rw [hR, herr])
    · rw [hR] at herr
      simp at herr
  · intro hall
    rw [hempty (hpool.mpr hall)]
  · intro hall
    rw [hempty (hpool.mpr hall)]
    refine ⟨rfl, ?_, rfl⟩
    intro ev hev
    simp only [List.drop_left] at hev
    simp only [List.mem_cons, List.mem_singleton, List.not_mem_nil, or_false] at hev
    rcases hev with rfl | rfl | rfl <;> exact ⟨rfl, rfl⟩

theorem Reassign_no_candidate_iff_pool_empty_witness :
    ((fakeService.Reassign "p" "b" exWorldSmall).1 = .error .ErrNoCandidate ↔
      ∀ u ∈ [(⟨"a", "Ann", "core", true⟩ : User), ⟨"b", "Ben", "core", true⟩],
        u.ID = "b" ∨ u.ID = exPRSmall.AuthorID ∨ u.ID ∈ exPRSmall.AssignedReviewers) ∧
    ((∀ u ∈ [(⟨"a", "Ann", "core", true⟩ : User), ⟨"b", "Ben", "core", true⟩],
        u.ID = "b" ∨ u.ID = exPRSmall.AuthorID ∨ u.ID ∈ exPRSmall.AssignedReviewers) →
      (fakeService.Reassign "p" "b" exWorldSmall).2.log
        = exWorldSmall.log ++ [Event.Get "p" (.ok exPRSmall),
            Event.GetByID "b" (.ok ⟨"b", "Ben", "core", true⟩),
            Event.ListActiveByTeam "core"
              (.ok [⟨"a", "Ann", "core", true⟩, ⟨"b", "Ben", "core", true⟩])] ∧
      (∀ ev ∈ (fakeService.Reassign "p" "b" exWorldSmall).2.log.drop exWorldSmall.log.length,
        ev.isReplaceReviewer = false ∧ ev.isMutating = false) ∧
      (fakeService.Reassign "p" "b" exWorldSmall).2.store = exWorldSmall.store) :=
  Reassign_no_candidate_iff_pool_empty fakeService "p" "b" exWorldSmall exPRSmall
    ⟨"b", "Ben", "core", true⟩ [⟨"a", "Ann", "core", true⟩, ⟨"b", "Ben", "core", true⟩]
    exWorldSmall.store exWorldSmall.store exWorldSmall.store rfl (by decide) (by decide) rfl rfl
    (fun new st => fakePRRepo_ReplaceReviewer_ne "p" "b" new st)

/-! ## Merge -/

/-- C8: over a store whose `Get` is a query and whose `MarkMerged` records the
timestamp it is given, two calls of `Merge` in a row on an existing pull
request both return status MERGED and the same merge timestamp, whatever the
two clock readings are; the only repository call of the second `Merge` is a
`Get`, so it does not call `MarkMerged`, and it leaves the store as it was. -/
theorem Merge_twice_same_timestamp {σ ρ : Type} (s : PRService σ ρ) (id : PullRequestID)
    (now1 now2 : Time) (w : World σ ρ) (pr0 : PullRequest)
    (hex : (s.Prs.Get id w.store).1 = .ok pr0)
    (hro : s.Prs.GetReadOnly id) (hmm : s.Prs.MarkMergedRecords id) :
    ∃ (pr1 pr2 : PullRequest),
      (s.Merge id now1 w).1 = .ok pr1 ∧
      (s.Merge id now2 (s.Merge id now1 w).2).1 = .ok pr2 ∧
      pr1.Status = PRStatusMerged ∧ pr2.Status = PRStatusMerged ∧
      pr2.MergedAt = pr1.MergedAt ∧
      (s.Merge id now2 (s.Merge id now1 w).2).2.log
        = (s.Merge id now1 w).2.log ++ [Event.Get id (.ok pr2)] ∧
      (Event.Get id (.ok pr2)).isMarkMerged = false ∧
      (s.Merge id now2 (s.Merge id now1 w).2).2.store = (s.Merge id now1 w).2.store := by
  have hGet : s.Prs.Get id w.store = (.ok pr0, w.store) := by
    rw [Prod.ext_iff]
    exact ⟨hex, hro w.store⟩
  by_cases hst : pr0.Status = PRStatusMerged
  · have h1 := s.Merge_run_merged id now1 w pr0 w.store hGet hst
    have h2 := s.Merge_run_merged id now2 (s.Merge id now1 w).2 pr0 w.store
      (by rw [h1]; exact hGet) hst
    refine ⟨pr0, pr0, by rw [h1], by rw [h2], hst, hst, rfl, ?_, rfl, ?_⟩
    · rw [h2]
    · rw [h2, h1]
  · have h1 := s.Merge_run_open id now1 w pr0 w.store hGet hst
    obtain ⟨hok, pr2, hget2, hst2, hat2⟩ := hmm w.store now1 pr0 hex hst
    rw [hok] at h1
    simp only at h1
    have hGet2 : s.Prs.Get id (s.Merge id now1 w).2.store
        = (.ok pr2, (s.Merge id now1 w).2.store) := by
      rw [Prod.ext_iff]
      refine ⟨?_, hro _⟩
      rw [h1]
      exact hget2
    have h2 := s.Merge_run_merged id now2 (s.Merge id now1 w).2 pr2 _ hGet2 hst2
    refine ⟨{ pr0 with Status := PRStatusMerged, MergedAt := some now1 }, pr2, by rw [h1],
      by rw [h2], rfl, hst2, hat2, ?_, rfl, ?_⟩
    · rw [h2]
    · rw [h2]

theorem Merge_twice_same_timestamp_witness :
    (fakeService.Prs.Get "pr2" exWorld1.store).1 = .ok exPR ∧
    ∃ (pr1 pr2 : PullRequest),
      (fakeService.Merge "pr2" 9 exWorld1).1 = .ok pr1 ∧
      (fakeService.Merge "pr2" 12 (fakeService.Merge "pr2" 9 exWorld1).2).1 = .ok pr2 ∧
      pr1.Status = PRStatusMerged ∧ pr2.Status = PRStatusMerged ∧
      pr2.MergedAt = pr1.MergedAt ∧
      (fakeService.Merge "pr2" 12 (fakeService.Merge "pr2" 9 exWorld1).2).2.log
        = (fakeService.Merge "pr2" 9 exWorld1).2.log ++ [Event.Get "pr2" (.ok pr2)] ∧
      (Event.Get "pr2" (.ok pr2)).isMarkMerged = false ∧
      (fakeService.Merge "pr2" 12 (fakeService.Merge "pr2" 9 exWorld1).2).2.store
        = (fakeService.Merge "pr2" 9 exWorld1).2.store :=
  ⟨rfl, Merge_twice_same_timestamp fakeService "pr2" 9 12 exWorld1 exPR rfl
    (fakePRRepo_GetReadOnly "pr2") (fakePRRepo_MarkMergedRecords "pr2")⟩

/-- C9: on a pull request that the store returns with a status other than
MERGED, `Merge` calls `Get` and then `MarkMerged` with the current time, and
nothing else; when `MarkMerged` reports no error, `Merge` returns the fetched
pull request with status MERGED and the current time as merge timestamp, its
ID, name, author, reviewer list and creation timestamp unchanged; an error of
`MarkMerged` is returned as it is. -/
theorem Merge_open_marks_merged_now {σ ρ : Type} (s : PRService σ ρ) (id : PullRequestID)
    (now : Time) (w : World σ ρ) (pr0 : PullRequest) (st1 : σ)
    (hGet : s.Prs.Get id w.store = (.ok pr0, st1)) (hst : pr0.Status ≠ PRStatusMerged) :
    (s.Merge id now w).2.log
      = w.log ++ [Event.Get id (.ok pr0),
          Event.MarkMerged id now (s.Prs.MarkMerged id now st1).1] ∧
    (s.Merge id now w).2.store = (s.Prs.MarkMerged id now st1).2 ∧
    ((s.Prs.MarkMerged id now st1).1 = .ok () →
      ∃ pr, (s.Merge id now w).1 = .ok pr ∧
        pr.Status = PRStatusMerged ∧ pr.MergedAt = some now ∧
        pr.ID = pr0.ID ∧ pr.Name = pr0.Name ∧ pr.AuthorID = pr0.AuthorID ∧
        pr.AssignedReviewers = pr0.AssignedReviewers ∧ pr.CreatedAt = pr0.CreatedAt) ∧
    (∀ e, (s.Prs.MarkMerged id now st1).1 = .error e → (s.Merge id now w).1 = .error e) := by
  rw [s.Merge_run_open id now w pr0 st1 hGet hst]
  refine ⟨rfl, rfl, ?_, ?_⟩
  · intro hok
    rw [hok]
    exact ⟨_, rfl, rfl, rfl, rfl, rfl, rfl, rfl, rfl⟩
  · intro e he
    rw [he]

theorem Merge_open_marks_merged_now_witness :
    (fakeService.Merge "pr2" 9 exWorld1).1 = .ok exPRMerged ∧
    (fakeService.Merge "pr2" 9 exWorld1).2.log
      = exWorld1.log ++ [Event.Get "pr2" (.ok exPR),
          Event.MarkMerged "pr2" 9 (fakeService.Prs.MarkMerged "pr2" 9 exWorld1.store).1] ∧
    (fakeService.Merge "pr2" 9 exWorld1).2.store
      = (fakeService.Prs.MarkMerged "pr2" 9 exWorld1.store).2 ∧
    ((fakeService.Prs.MarkMerged "pr2" 9 exWorld1.store).1 = .ok () →
      ∃ pr, (fakeService.Merge "pr2" 9 exWorld1).1 = .ok pr ∧
        pr.Status = PRStatusMerged ∧ pr.MergedAt = some 9 ∧
        pr.ID = exPR.ID ∧ pr.Name = exPR.Name ∧ pr.AuthorID = exPR.AuthorID ∧
        pr.AssignedReviewers = exPR.AssignedReviewers ∧ pr.CreatedAt = exPR.CreatedAt) ∧
    (∀ e, (fakeService.Prs.MarkMerged "pr2" 9 exWorld1.store).1 = .error e →
      (fakeService.Merge "pr2" 9 exWorld1).1 = .error e) :=
  ⟨rfl,
    Merge_open_marks_merged_now fakeService "pr2" 9 exWorld1 exPR exWorld1.store rfl
      (by decide)⟩

/-- C9, as stated, fails when `MarkMerged` reports an error: the pull request
`pr2` exists and is OPEN, `Merge` calls `MarkMerged` with the current time 9,
the call fails, and `Merge` returns that error and no pull request. -/
theorem Merge_open_returns_error_of_MarkMerged :
    failingMarkMergedService.Prs.Get "pr2" exWorld1.store = (.ok exPR, exWorld1.store) ∧
    exPR.Status = PRStatusOpen ∧
    (failingMarkMergedService.Merge "pr2" 9 exWorld1).2.log
      = exWorld1.log ++ [Event.Get "pr2" (.ok exPR),
          Event.MarkMerged "pr2" 9 (.error (.internal "mark merged: connection lost"))] ∧
    (failingMarkMergedService.Merge "pr2" 9 exWorld1).1
      = .error (.internal "mark merged: connection lost") ∧
    ¬ ∃ pr, (failingMarkMergedService.Merge "pr2" 9 exWorld1).1 = .ok pr ∧
        pr.Status = PRStatusMerged ∧ pr.MergedAt = some 9 :=
  ⟨rfl, rfl, rfl, rfl, fun ⟨_, h, _⟩ => by
    have h2 : (failingMarkMergedService.Merge "pr2" 9 exWorld1).1
        = .error (.internal "mark merged: connection lost") := rfl
    rw [h2] at h
    exact Except.noConfusion h⟩

/-! ## Bulk deactivation -/

/-- C10: over the in-memory repositories, in a store where every pull request
is stored once and under its own ID (so that `ListByReviewer` agrees with
`Get`), `BulkDeactivateAndReassign` returns no error for every list of user
IDs and every generator, and afterwards every listed ID that had a user record
has an inactive one. -/
theorem Bulk_in_memory_returns_no_error {ρ : Type} (rnd : Rand ρ) (userIDs : List UserID)
    (w : World FakeStore ρ) (hwf : w.store.WF) :
    ((memService rnd).BulkDeactivateAndReassign userIDs w).1 = .ok () ∧
    ∀ uid ∈ userIDs, ∀ u, (fakeUserRepo.GetByID uid w.store).1 = .ok u →
      ∃ u1,
        (fakeUserRepo.GetByID uid
          ((memService rnd).BulkDeactivateAndReassign userIDs w).2.store).1 = .ok u1 ∧
        u1.IsActive = false := by
  obtain ⟨hok, husers⟩ := memService_Bulk_ok rnd userIDs w hwf
  refine ⟨hok, ?_⟩
  intro uid huid u hu
  have hu1 : (FakeStore.GetByID uid w.store).1 = .ok u := hu
  have hget : mapGet uid w.store.users = some u := by
    unfold FakeStore.GetByID at hu1
    rcases hm : mapGet uid w.store.users with _ | u2
    · simp [hm] at hu1
    · simp only [hm, Except.ok.injEq] at hu1
      rw [hu1]
  obtain ⟨u1, h1, h2⟩ := husers uid u hget
  refine ⟨u1, ?_, h2 (Or.inr huid)⟩
  show (FakeStore.GetByID uid _).1 = .ok u1
  simp [FakeStore.GetByID, h1]

theorem Bulk_in_memory_returns_no_error_witness :
    exWorldSmall.store.WF ∧
    (fakeService.Reassign "p" "b"
      (fakeService.BulkDeactivateAndReassign ["ghost"] exWorldSmall).2).1
        = .error .ErrNoCandidate ∧
    (fakeService.BulkDeactivateAndReassign ["ghost", "b"] exWorldSmall).1 = .ok () ∧
    ∀ uid ∈ ["ghost", "b"], ∀ u, (fakeUserRepo.GetByID uid exWorldSmall.store).1 = .ok u →
      ∃ u1,
        (fakeUserRepo.GetByID uid
          (fakeService.BulkDeactivateAndReassign ["ghost", "b"] exWorldSmall).2.store).1
            = .ok u1 ∧
        u1.IsActive = false :=
  ⟨⟨by decide, by decide⟩, rfl,
    Bulk_in_memory_returns_no_error descendingRand ["ghost", "b"] exWorldSmall
      ⟨by decide, by decide⟩⟩

/-! ## Create, Merge and Reassign: further run lemmas -/

/-- Run of `Create` when `Exists` reports the ID as present. -/
theorem PRService.Create_run_exists {σ ρ : Type} (s : PRService σ ρ) (id : PullRequestID)
    (name : String) (authorID : UserID) (now : Time) (w : World σ ρ) (st1 : σ)
    (hE : s.Prs.Exists id w.store = (.ok true, st1)) :
    s.Create id name authorID now w =
      (.error .ErrPullRequestExists,
        { store := st1, rand := w.rand, log := w.log ++ [Event.Exists id (.ok true)] }) := by
  unfold PRService.Create
  simp only [Eff.bind_run, Eff.call_run, hE, if_true]
  rfl

/-- Run of `Create` when the ID is new and `GetByID` returns an error. -/
theorem PRService.Create_run_author_error {σ ρ : Type} (s : PRService σ ρ)
    (id : PullRequestID) (name : String) (authorID : UserID) (now : Time) (w : World σ ρ)
    (st1 st2 : σ) (e : Err) (hE : s.Prs.Exists id w.store = (.ok false, st1))
    (hG : s.Users.GetByID authorID st1 = (.error e, st2)) :
    s.Create id name authorID now w =
      (.error e,
        { store := st2, rand := w.rand,
          log := w.log ++ [Event.Exists id (.ok false), Event.GetByID authorID (.error e)] }) := by
  unfold PRService.Create
  simp only [Eff.bind_run, Eff.call_run, hE, Bool.false_eq_true, if_false, hG]
  simp

/-- Run of `Create` after its three reads succeeded: it picks
`min(2, len(filtered))` reviewers, hands the pull request to the repository's
`Create`, and returns that call's error or the pull request. -/
theorem PRService.Create_run_reads {σ ρ : Type} (s : PRService σ ρ) (id : PullRequestID)
    (name : String) (authorID : UserID) (now : Time) (w : World σ ρ) (author : User)
    (cands : List User) (st1 st2 st3 : σ)
    (hE : s.Prs.Exists id w.store = (.ok false, st1))
    (hG : s.Users.GetByID authorID st1 = (.ok author, st2))
    (hL : s.Users.ListActiveByTeam author.TeamName st2 = (.ok cands, st3)) :
    ∃ (ids : List UserID) (r : ρ),
      ids.length = min 2 (cands.filter (fun u => !(u.ID == author.ID))).length ∧
      (∀ x ∈ ids, x ∈ (cands.filter (fun u => !(u.ID == author.ID))).map (fun u => u.ID)) ∧
      (((cands.filter (fun u => !(u.ID == author.ID))).map (fun u => u.ID)).Nodup →
        ids.Nodup) ∧
      s.Create id name authorID now w =
        (match (s.Prs.Create
            { ID := id, Name := name, AuthorID := authorID, Status := PRStatusOpen,
              AssignedReviewers := ids, CreatedAt := now, MergedAt := none } st3).1 with
          | .ok _ =>
            .ok { ID := id, Name := name, AuthorID := authorID, Status := PRStatusOpen,
                  AssignedReviewers := ids, CreatedAt := now, MergedAt := none }
          | .error e => .error e,
         { store := (s.Prs.Create
            { ID := id, Name := name, AuthorID := authorID, Status := PRStatusOpen,
              AssignedReviewers := ids, CreatedAt := now, MergedAt := none } st3).2,
           rand := r,
           log := w.log ++ [Event.Exists id (.ok false), Event.GetByID authorID (.ok author),
             Event.ListActiveByTeam author.TeamName (.ok cands),
             Event.Create
               { ID := id, Name := name, AuthorID := authorID, Status := PRStatusOpen,
                 AssignedReviewers := ids, CreatedAt := now, MergedAt := none }
               (s.Prs.Create
                 { ID := id, Name := name, AuthorID := authorID, Status := PRStatusOpen,
                   AssignedReviewers := ids, CreatedAt := now, MergedAt := none } st3).1] }) := by
  obtain ⟨ids, r, hp, hlen, hmem, hnd⟩ :=
    s.pick_spec (cands.filter (fun u => !(u.ID == author.ID))) 2
      { store := st3, rand := w.rand,
        log := w.log ++ [Event.Exists id (.ok false)] ++ [Event.GetByID authorID (.ok author)]
          ++ [Event.ListActiveByTeam author.TeamName (.ok cands)] }
  refine ⟨ids, r, by simpa using hlen, hmem, hnd, ?_⟩
  unfold PRService.Create
  simp only [Eff.bind_run, Eff.call_run, hE, Bool.false_eq_true, if_false, hG, hL, hp]
  rcases hC : (s.Prs.Create
      { ID := id, Name := name, AuthorID := authorID, Status := PRStatusOpen,
        AssignedReviewers := ids, CreatedAt := now, MergedAt := none } st3).1 with e | u
  · simp
  · simp [Eff.pure_run]

/-- Run of `Merge` when `Get` returns an error. -/
theorem PRService.Merge_run_get_error {σ ρ : Type} (s : PRService σ ρ) (id : PullRequestID)
    (now : Time) (w : World σ ρ) (e : Err) (st1 : σ)
    (hGet : s.Prs.Get id w.store = (.error e, st1)) :
    s.Merge id now w =
      (.error e, { store := st1, rand := w.rand, log := w.log ++ [Event.Get id (.error e)] }) := by
  unfold PRService.Merge
  simp only [Eff.bind_run, Eff.call_run, hGet]

/-- Run of `Reassign` when `Get` returns an error. -/
theorem PRService.Reassign_run_get_error {σ ρ : Type} (s : PRService σ ρ)
    (prID : PullRequestID) (oldUserID : UserID) (w : World σ ρ) (e : Err) (st1 : σ)
    (hGet : s.Prs.Get prID w.store = (.error e, st1)) :
    s.Reassign prID oldUserID w =
      (.error e,
        { store := st1, rand := w.rand, log := w.log ++ [Event.Get prID (.error e)] }) := by
  unfold PRService.Reassign
  simp only [Eff.bind_run, Eff.call_run, hGet]

/-- Run of `Reassign` when the old reviewer is assigned and `GetByID` returns
an error. -/
theorem PRService.Reassign_run_user_error {σ ρ : Type} (s : PRService σ ρ)
    (prID : PullRequestID) (oldUserID : UserID) (w : World σ ρ) (pr0 : PullRequest)
    (e : Err) (st1 st2 : σ)
    (hGet : s.Prs.Get prID w.store = (.ok pr0, st1)) (hst : pr0.Status ≠ PRStatusMerged)
    (hin : oldUserID ∈ pr0.AssignedReviewers)
    (hU : s.Users.GetByID oldUserID st1 = (.error e, st2)) :
    s.Reassign prID oldUserID w =
      (.error e,
        { store := st2, rand := w.rand,
          log := w.log ++ [Event.Get prID (.ok pr0), Event.GetByID oldUserID (.error e)] }) := by
  have hb : (pr0.Status == PRStatusMerged) = false := by simpa using hst
  have hf : (pr0.AssignedReviewers.any (fun r => r == oldUserID)) = true := by
    rw [List.any_eq_true]
    exact ⟨oldUserID, hin, by simp⟩
  unfold PRService.Reassign
  simp only [Eff.bind_run, Eff.call_run, hGet, hb, hf, hU, Bool.false_eq_true, if_false,
    Bool.not_true]
  simp

/-! ## Reassign over the in-memory repositories -/

/-- Run of `Reassign` over the in-memory repositories of the service tests,
for a stored pull request that is not merged and has `uid` among its
reviewers, and an existing user `uid`: with an empty pool it fails with
`ErrNoCandidate` and leaves the store as it was; otherwise it succeeds and
rewrites this pull request with `uid` replaced by a member of the pool. -/
theorem memService_Reassign_listed {ρ : Type} (rnd : Rand ρ) (prID : PullRequestID)
    (uid : UserID) (w : World FakeStore ρ) (pr0 : PullRequest) (u : User)
    (hpr : mapGet prID w.store.prs = some pr0) (hst : pr0.Status ≠ PRStatusMerged)
    (hin : uid ∈ pr0.AssignedReviewers) (hu : mapGet uid w.store.users = some u) :
    (PRService.reassignFiltered pr0 uid (w.store.activeInTeam u.TeamName) = [] ∧
      ((memService rnd).Reassign prID uid w).1 = .error .ErrNoCandidate ∧
      ((memService rnd).Reassign prID uid w).2.store = w.store) ∨
    (∃ y, y ∈ (PRService.reassignFiltered pr0 uid (w.store.activeInTeam u.TeamName)).map
          (fun x => x.ID) ∧
      ((memService rnd).Reassign prID uid w).1
        = .ok ({ pr0 with AssignedReviewers :=
                  PRService.replaceFirst uid y pr0.AssignedReviewers }, y) ∧
      ((memService rnd).Reassign prID uid w).2.store
        = { w.store with
            prs := mapSet prID
              { pr0 with AssignedReviewers :=
                  PRService.replaceFirst uid y pr0.AssignedReviewers }
              w.store.prs }) := by
  have hGet : (memService rnd).Prs.Get prID w.store = (.ok pr0, w.store) := by
    show FakeStore.Get prID w.store = _
    simp [FakeStore.Get, hpr]
  have hU : (memService rnd).Users.GetByID uid w.store = (.ok u, w.store) := by
    show FakeStore.GetByID uid w.store = _
    simp [FakeStore.GetByID, hu]
  have hL : (memService rnd).Users.ListActiveByTeam u.TeamName w.store
      = (.ok (w.store.activeInTeam u.TeamName), w.store) := rfl
  obtain ⟨hempty, hpick⟩ :=
    (memService rnd).Reassign_run_reads prID uid w pr0 u _ w.store w.store w.store hGet hst hin
      hU hL
  by_cases hpool : PRService.reassignFiltered pr0 uid (w.store.activeInTeam u.TeamName) = []
  · rw [hempty hpool]
    exact Or.inl ⟨hpool, rfl, rfl⟩
  · obtain ⟨new, r, hnew, hrun⟩ := hpick hpool
    have hRR : (memService rnd).Prs.ReplaceReviewer prID uid new w.store
        = (.ok (), { w.store with
            prs := mapSet prID
              { pr0 with
                AssignedReviewers := PRService.replaceFirst uid new pr0.AssignedReviewers }
              w.store.prs }) := by
      show FakeStore.ReplaceReviewer prID uid new w.store = _
      simp [FakeStore.ReplaceReviewer, hpr]
    rw [hrun, hRR]
    exact Or.inr ⟨new, hnew, rfl, rfl⟩

/-- What `Reassign` over the in-memory repositories of the service tests does
to the store, for any arguments: nothing, or it rewrites a stored, unmerged
pull request that has the old reviewer, replacing it by a member of the
pool. -/
theorem memService_Reassign_store {ρ : Type} (rnd : Rand ρ) (prID : PullRequestID)
    (uid : UserID) (w : World FakeStore ρ) :
    ((memService rnd).Reassign prID uid w).2.store = w.store ∨
    ∃ pr0 u y, mapGet prID w.store.prs = some pr0 ∧ pr0.Status ≠ PRStatusMerged ∧
      uid ∈ pr0.AssignedReviewers ∧ mapGet uid w.store.users = some u ∧
      y ∈ (PRService.reassignFiltered pr0 uid (w.store.activeInTeam u.TeamName)).map
          (fun x => x.ID) ∧
      ((memService rnd).Reassign prID uid w).2.store
        = { w.store with
            prs := mapSet prID
              { pr0 with AssignedReviewers :=
                  PRService.replaceFirst uid y pr0.AssignedReviewers }
              w.store.prs } := by
  rcases hpr : mapGet prID w.store.prs with _ | pr0
  · left
    have hGet : (memService rnd).Prs.Get prID w.store = (.error .ErrNotFound, w.store) := by
      show FakeStore.Get prID w.store = _
      simp [FakeStore.Get, hpr]
    rw [(memService rnd).Reassign_run_get_error prID uid w _ _ hGet]
  have hGet : (memService rnd).Prs.Get prID w.store = (.ok pr0, w.store) := by
    show FakeStore.Get prID w.store = _
    simp [FakeStore.Get, hpr]
  by_cases hst : pr0.Status = PRStatusMerged
  · left
    rw [(memService rnd).Reassign_run_merged prID uid w pr0 _ hGet hst]
  by_cases hin : uid ∈ pr0.AssignedReviewers
  swap
  · left
    rw [(memService rnd).Reassign_run_not_assigned prID uid w pr0 _ hGet hst hin]
  rcases hu : mapGet uid w.store.users with _ | u
  · left
    have hU : (memService rnd).Users.GetByID uid w.store = (.error .ErrNotFound, w.store) := by
      show FakeStore.GetByID uid w.store = _
      simp [FakeStore.GetByID, hu]
    rw [(memService rnd).Reassign_run_user_error prID uid w pr0 _ _ _ hGet hst hin hU]
  rcases memService_Reassign_listed rnd prID uid w pr0 u hpr hst hin hu with
    ⟨-, -, h⟩ | ⟨y, hy, -, h⟩
  · exact Or.inl h
  · exact Or.inr ⟨pr0, u, y, rfl, hst, hin, rfl, hy, h⟩

theorem memService_CreateStoreNeverFailsInternally {ρ : Type} (rnd : Rand ρ) :
    (memService rnd).CreateStoreNeverFailsInternally := by
  refine ⟨fun id st => ⟨_, rfl⟩, ?_, fun t st => ⟨_, rfl⟩, fun pr st => Or.inl rfl⟩
  intro id st
  show (∃ u, FakeStore.GetByID id st = (.ok u, st)) ∨
    FakeStore.GetByID id st = (.error .ErrNotFound, st)
  unfold FakeStore.GetByID
  rcases mapGet id st.users with _ | u
  · exact Or.inr rfl
  · exact Or.inl ⟨u, rfl⟩

theorem fakePRRepo_GetReturnsCreated : fakePRRepo.GetReturnsCreated := by
  intro pr st st1 h
  have h1 : FakeStore.Create pr st = (.ok (), st1) := h
  unfold FakeStore.Create at h1
  simp only [Prod.mk.injEq, true_and] at h1
  subst h1
  show (FakeStore.Get pr.ID _).1 = .ok pr
  simp [FakeStore.Get, mapGet_mapSet_self]

/-! ## Create: error handling and the returned value -/

/-- C15: when the store reports that a pull request with the given ID exists,
`Create` fails with `ErrPullRequestExists` for every name and author ID; its
only repository call is that `Exists`, so no user is looked up and the
repository's `Create` is not called, and the store is left as `Exists` left
it. -/
theorem Create_existing_id_fails {σ ρ : Type} (s : PRService σ ρ) (id : PullRequestID)
    (name : String) (authorID : UserID) (now : Time) (w : World σ ρ) (st1 : σ)
    (hE : s.Prs.Exists id w.store = (.ok true, st1)) :
    (s.Create id name authorID now w).1 = .error .ErrPullRequestExists ∧
    (s.Create id name authorID now w).2.log = w.log ++ [Event.Exists id (.ok true)] ∧
    (Event.Exists id (.ok true)).isMutating = false ∧
    (s.Create id name authorID now w).2.store = st1 := by
  rw [s.Create_run_exists id name authorID now w st1 hE]
  exact ⟨rfl, rfl, rfl, rfl⟩

theorem Create_existing_id_fails_witness :
    fakeService.Prs.Exists "pr2" exWorld1.store = (.ok true, exWorld1.store) ∧
    (fakeService.Create "pr2" "again" "nobody" 8 exWorld1).1 = .error .ErrPullRequestExists ∧
    (fakeService.Create "pr2" "again" "nobody" 8 exWorld1).2.log
      = exWorld1.log ++ [Event.Exists "pr2" (.ok true)] ∧
    (Event.Exists "pr2" (.ok true)).isMutating = false ∧
    (fakeService.Create "pr2" "again" "nobody" 8 exWorld1).2.store = exWorld1.store :=
  ⟨rfl, Create_existing_id_fails fakeService "pr2" "again" "nobody" 8 exWorld1
    exWorld1.store rfl⟩

/-- C16: over a store whose operations do not fail internally, `Create`
succeeds exactly when `Exists` reports the ID as new and `GetByID` finds the
author; a successful `Create` assigns `min(2, k)` reviewers for the `k` listed
users other than the author, so a pool of 0 or 1 is no failure; and for a new
ID with an author that `GetByID` does not find, `Create` fails with
`ErrNotFound` after those two reads, without calling the repository's `Create`
and leaving the store as it was. -/
theorem Create_succeeds_iff_new_id_and_known_author {σ ρ : Type} (s : PRService σ ρ)
    (id : PullRequestID) (name : String) (authorID : UserID) (now : Time) (w : World σ ρ)
    (hs : s.CreateStoreNeverFailsInternally) :
    ((∃ pr, (s.Create id name authorID now w).1 = .ok pr) ↔
      ((s.Prs.Exists id w.store).1 = .ok false ∧
        ∃ a, (s.Users.GetByID authorID w.store).1 = .ok a)) ∧
    (∀ pr, (s.Create id name authorID now w).1 = .ok pr →
      ∃ author cands, (s.Users.GetByID authorID w.store).1 = .ok author ∧
        (s.Users.ListActiveByTeam author.TeamName w.store).1 = .ok cands ∧
        pr.AssignedReviewers.length
          = min 2 (cands.countP (fun u => decide (u.ID ≠ author.ID)))) ∧
    ((s.Prs.Exists id w.store).1 = .ok false →
      (s.Users.GetByID authorID w.store).1 = .error .ErrNotFound →
      (s.Create id name authorID now w).1 = .error .ErrNotFound ∧
      (s.Create id name authorID now w).2.log
        = w.log ++ [Event.Exists id (.ok false),
            Event.GetByID authorID (.error .ErrNotFound)] ∧
      (s.Create id name authorID now w).2.store = w.store) := by
  obtain ⟨hEx, hGet, hList, hCr⟩ := hs
  obtain ⟨b, hE⟩ := hEx id w.store
  have hcount : ∀ (author : User) (cands : List User),
      (cands.filter (fun u => !(u.ID == author.ID))).length
        = cands.countP (fun u => decide (u.ID ≠ author.ID)) := by
    intro author cands
    rw [List.countP_eq_length_filter]
    congr 1
    apply List.filter_congr
    intro u _
    by_cases hu : u.ID = author.ID <;> simp [hu]
  cases b with
  | true =>
    have hrun := s.Create_run_exists id name authorID now w w.store hE
    refine ⟨⟨?_, ?_⟩, ?_, ?_⟩
    · rintro ⟨pr, hpr⟩
      rw [hrun] at hpr
      simp at hpr
    · rintro ⟨h1, -⟩
      rw [hE] at h1
      simp at h1
    · intro pr hpr
      rw [hrun] at hpr
      simp at hpr
    · intro h1
      rw [hE] at h1
      simp at h1
  | false =>
    rcases hGet authorID w.store with ⟨author, hG⟩ | hG
    · obtain ⟨cands, hL⟩ := hList author.TeamName w.store
      obtain ⟨ids, r, hlen, -, -, hrun⟩ :=
        s.Create_run_reads id name authorID now w author cands w.store w.store w.store hE hG hL
      have hC : (s.Prs.Create
          { ID := id, Name := name, AuthorID := authorID, Status := PRStatusOpen,
            AssignedReviewers := ids, CreatedAt := now, MergedAt := none } w.store).1
          = .ok () := by
        have hcr := hCr
          { ID := id, Name := name, AuthorID := authorID, Status := PRStatusOpen,
            AssignedReviewers := ids, CreatedAt := now, MergedAt := none } w.store
        rcases hcr with h | h
        · exact h
        · simp only at h
          rw [hE] at h
          simp at h
      rw [hC] at hrun
      simp only at hrun
      refine ⟨⟨fun _ => ⟨by rw [hE], author, by rw [hG]⟩, fun _ => ⟨_, by rw [hrun]⟩⟩, ?_, ?_⟩
      · intro pr hpr
        rw [hrun] at hpr
        simp only [Except.ok.injEq] at hpr
        subst hpr
        refine ⟨author, cands, by rw [hG], by rw [hL], ?_⟩
        show ids.length = _
        rw [hlen, hcount]
      · intro _ h2
        rw [hG] at h2
        simp at h2
    · have hrun := s.Create_run_author_error id name authorID now w w.store w.store _ hE hG
      refine ⟨⟨?_, ?_⟩, ?_, ?_⟩
      · rintro ⟨pr, hpr⟩
        rw [hrun] at hpr
        simp at hpr
      · rintro ⟨-, a, ha⟩
        rw [hG] at ha
        simp at ha
      · intro pr hpr
        rw [hrun] at hpr
        simp at hpr
      · intro _ _
        rw [hrun]
        exact ⟨rfl, rfl, rfl⟩

theorem Create_succeeds_iff_new_id_and_known_author_witness :
    (fakeService.Prs.Exists "pr2" exWorld0.store).1 = .ok false ∧
    (fakeService.Users.GetByID "nobody" exWorld0.store).1 = .error .ErrNotFound ∧
    ((∃ pr, (fakeService.Create "pr2" "PR 2" "nobody" 7 exWorld0).1 = .ok pr) ↔
      ((fakeService.Prs.Exists "pr2" exWorld0.store).1 = .ok false ∧
        ∃ a, (fakeService.Users.GetByID "nobody" exWorld0.store).1 = .ok a)) ∧
    (∀ pr, (fakeService.Create "pr2" "PR 2" "nobody" 7 exWorld0).1 = .ok pr →
      ∃ author cands, (fakeService.Users.GetByID "nobody" exWorld0.store).1 = .ok author ∧
        (fakeService.Users.ListActiveByTeam author.TeamName exWorld0.store).1 = .ok cands ∧
        pr.AssignedReviewers.length
          = min 2 (cands.countP (fun u => decide (u.ID ≠ author.ID)))) ∧
    ((fakeService.Prs.Exists "pr2" exWorld0.store).1 = .ok false →
      (fakeService.Users.GetByID "nobody" exWorld0.store).1 = .error .ErrNotFound →
      (fakeService.Create "pr2" "PR 2" "nobody" 7 exWorld0).1 = .error .ErrNotFound ∧
      (fakeService.Create "pr2" "PR 2" "nobody" 7 exWorld0).2.log
        = exWorld0.log ++ [Event.Exists "pr2" (.ok false),
            Event.GetByID "nobody" (.error .ErrNotFound)] ∧
      (fakeService.Create "pr2" "PR 2" "nobody" 7 exWorld0).2.store = exWorld0.store) :=
  ⟨rfl, rfl, Create_succeeds_iff_new_id_and_known_author fakeService "pr2" "PR 2" "nobody" 7
    exWorld0 (memService_CreateStoreNeverFailsInternally descendingRand)⟩

/-- C17: a successful `Create` returns a pull request with the given ID, name
and author, status OPEN and no merge timestamp; the last repository call is
the repository's `Create` with that very value, which reported no error; so
over a store whose `Get` returns what `Create` stored, `Get` of that ID on the
store `Create` left returns the same pull request. -/
theorem Create_returns_persisted_value {σ ρ : Type} (s : PRService σ ρ) (id : PullRequestID)
    (name : String) (authorID : UserID) (now : Time) (w w' : World σ ρ) (pr : PullRequest)
    (h : s.Create id name authorID now w = (.ok pr, w')) :
    pr.ID = id ∧ pr.Name = name ∧ pr.AuthorID = authorID ∧ pr.Status = PRStatusOpen ∧
    pr.MergedAt = none ∧
    (∃ evs, w'.log = evs ++ [Event.Create pr (.ok ())]) ∧
    (s.Prs.GetReturnsCreated → (s.Prs.Get id w'.store).1 = .ok pr) := by
  obtain ⟨author, cands, st1, st2, st3, st4, r, -, -, -, hC, h1, h2, h3, h4, -, h6, -, -, -,
    hw⟩ := s.Create_ok_inv id name authorID now w w' pr h
  refine ⟨h1, h2, h3, h4, h6, ?_, ?_⟩
  · refine ⟨w.log ++ [Event.Exists id (.ok false), Event.GetByID authorID (.ok author),
      Event.ListActiveByTeam author.TeamName (.ok cands)], ?_⟩
    rw [hw]
    simp
  · intro hlaw
    have := hlaw pr st3 st4 hC
    rw [h1] at this
    rw [hw]
    exact this

theorem Create_returns_persisted_value_witness :
    fakeService.Create "pr2" "PR 2" "u1" 7 exWorld0 = (.ok exPR, exWorld1) ∧
    (exPR.ID = "pr2" ∧ exPR.Name = "PR 2" ∧ exPR.AuthorID = "u1" ∧
      exPR.Status = PRStatusOpen ∧ exPR.MergedAt = none ∧
      (∃ evs, exWorld1.log = evs ++ [Event.Create exPR (.ok ())]) ∧
      (fakeService.Prs.GetReturnsCreated →
        (fakeService.Prs.Get "pr2" exWorld1.store).1 = .ok exPR)) ∧
    fakeService.Prs.GetReturnsCreated :=
  ⟨rfl, Create_returns_persisted_value fakeService "pr2" "PR 2" "u1" 7 exWorld0 exWorld1
    exPR rfl, fakePRRepo_GetReturnsCreated⟩

/-- C17, as stated, fails over the relational repositories: `Create` of `pr2`
returns the reviewers `u4`, `u3` in the order they were picked and stores one
row per reviewer; the following `Get` of `pr2` returns them ordered by user
ID, `u3`, `u4`, which is not the value `Create` returned. -/
theorem Create_then_Get_reorders_reviewers :
    postgresService.Create "pr2" "PR 2" "u1" 7 exPgWorld0 = (.ok exPR, exPgWorld1) ∧
    exPR.AssignedReviewers = ["u4", "u3"] ∧
    (postgresService.Prs.Get "pr2" exPgWorld1.store).1
      = .ok { exPR with AssignedReviewers := ["u3", "u4"] } ∧
    (postgresService.Prs.Get "pr2" exPgWorld1.store).1 ≠ .ok exPR :=
  ⟨rfl, rfl, rfl, fun h => by
    have h2 : (postgresService.Prs.Get "pr2" exPgWorld1.store).1
        = .ok { exPR with AssignedReviewers := ["u3", "u4"] } := rfl
    rw [h2] at h
    have h3 := congrArg PullRequest.AssignedReviewers (Except.ok.inj h)
    exact absurd h3 (by decide)⟩

/-! ## Merge and Reassign on a missing pull request -/

/-- C18: when the store's `Get` reports `ErrNotFound` for the given ID, `Merge`
and `Reassign` both fail with `ErrNotFound`; the only repository call of each
is that `Get`, which is not a mutating call, so neither `MarkMerged` nor
`ReplaceReviewer` is called, and the store is left as `Get` left it. -/
theorem Merge_and_Reassign_not_found {σ ρ : Type} (s : PRService σ ρ) (id : PullRequestID)
    (now : Time) (oldUserID : UserID) (w : World σ ρ) (st1 : σ)
    (hGet : s.Prs.Get id w.store = (.error .ErrNotFound, st1)) :
    ((s.Merge id now w).1 = .error .ErrNotFound ∧
      (s.Merge id now w).2.log = w.log ++ [Event.Get id (.error .ErrNotFound)] ∧
      (s.Merge id now w).2.store = st1) ∧
    ((s.Reassign id oldUserID w).1 = .error .ErrNotFound ∧
      (s.Reassign id oldUserID w).2.log = w.log ++ [Event.Get id (.error .ErrNotFound)] ∧
      (s.Reassign id oldUserID w).2.store = st1) ∧
    (Event.Get id (.error .ErrNotFound)).isMutating = false := by
  rw [s.Merge_run_get_error id now w _ st1 hGet,
    s.Reassign_run_get_error id oldUserID w _ st1 hGet]
  exact ⟨⟨rfl, rfl, rfl⟩, ⟨rfl, rfl, rfl⟩, rfl⟩

theorem Merge_and_Reassign_not_found_witness :
    fakeService.Prs.Get "pr9" exWorld1.store = (.error .ErrNotFound, exWorld1.store) ∧
    ((fakeService.Merge "pr9" 9 exWorld1).1 = .error .ErrNotFound ∧
      (fakeService.Merge "pr9" 9 exWorld1).2.log
        = exWorld1.log ++ [Event.Get "pr9" (.error .ErrNotFound)] ∧
      (fakeService.Merge "pr9" 9 exWorld1).2.store = exWorld1.store) ∧
    ((fakeService.Reassign "pr9" "u4" exWorld1).1 = .error .ErrNotFound ∧
      (fakeService.Reassign "pr9" "u4" exWorld1).2.log
        = exWorld1.log ++ [Event.Get "pr9" (.error .ErrNotFound)] ∧
      (fakeService.Reassign "pr9" "u4" exWorld1).2.store = exWorld1.store) ∧
    (Event.Get "pr9" (.error .ErrNotFound)).isMutating = false :=
  ⟨rfl, Merge_and_Reassign_not_found fakeService "pr9" 9 "u4" exWorld1 exWorld1.store rfl⟩

/-! ## Bulk deactivation: running a list in two parts -/

theorem PRService.reassignOpen_cons {σ ρ : Type} (s : PRService σ ρ) (uid : UserID)
    (p : PullRequestShort) (rest : List PullRequestShort) :
    s.reassignOpen uid (p :: rest) =
      if p.Status != PRStatusOpen then
        s.reassignOpen uid rest
      else fun w =>
        match s.Reassign p.ID uid w with
        | (.ok _, w1) => s.reassignOpen uid rest w1
        | (.error err, w1) =>
          if err = .ErrNoCandidate ∨ err = .ErrPullRequestMerged then
            s.reassignOpen uid rest w1
          else
            (.error err, w1) := rfl

theorem PRService.Bulk_cons {σ ρ : Type} (s : PRService σ ρ) (uid : UserID)
    (rest : List UserID) (w : World σ ρ) :
    s.BulkDeactivateAndReassign (uid :: rest) w =
      match Eff.call (s.Users.GetByID uid) (Event.GetByID uid) w with
      | (.error err, w1) =>
        if err = .ErrNotFound then
          s.BulkDeactivateAndReassign rest w1
        else
          (.error err, w1)
      | (.ok _, w1) =>
        match Eff.call (s.Users.SetIsActive uid false) (Event.SetIsActive uid false) w1 with
        | (.error err, w2) => (.error err, w2)
        | (.ok _, w2) =>
          match Eff.call (s.Prs.ListByReviewer uid) (Event.ListByReviewer uid) w2 with
          | (.error err, w3) => (.error err, w3)
          | (.ok prs, w3) =>
            match s.reassignOpen uid prs w3 with
            | (.error err, w4) => (.error err, w4)
            | (.ok _, w4) => s.BulkDeactivateAndReassign rest w4 := rfl

/-- The inner loop over `done ++ todo` is the loop over `done` followed, when
that returned no error, by the loop over `todo`. -/
theorem PRService.reassignOpen_append {σ ρ : Type} (s : PRService σ ρ) (uid : UserID)
    (todo : List PullRequestShort) :
    ∀ (done : List PullRequestShort) (w : World σ ρ),
      s.reassignOpen uid (done ++ todo) w =
        match s.reassignOpen uid done w with
        | (.ok _, w1) => s.reassignOpen uid todo w1
        | (.error e, w1) => (.error e, w1) := by
  intro done
  induction done with
  | nil => intro w; rfl
  | cons p rest ih =>
    intro w
    simp only [List.cons_append]
    rw [PRService.reassignOpen_cons, PRService.reassignOpen_cons]
    by_cases hb : (p.Status != PRStatusOpen) = true
    · simp only [hb, if_true]
      exact ih w
    · simp only [hb, Bool.false_eq_true, if_false]
      rcases s.Reassign p.ID uid w with ⟨res, w1⟩
      rcases res with e | x
      · simp only
        split
        · exact ih w1
        · rfl
      · exact ih w1

/-- The bulk operation over `pre ++ ids` is the operation over `pre` followed,
when that returned no error, by the operation over `ids`. -/
theorem PRService.Bulk_append {σ ρ : Type} (s : PRService σ ρ) (ids : List UserID) :
    ∀ (pre : List UserID) (w : World σ ρ),
      s.BulkDeactivateAndReassign (pre ++ ids) w =
        match s.BulkDeactivateAndReassign pre w with
        | (.ok _, w1) => s.BulkDeactivateAndReassign ids w1
        | (.error e, w1) => (.error e, w1) := by
  intro pre
  induction pre with
  | nil => intro w; rfl
  | cons uid rest ih =>
    intro w
    simp only [List.cons_append]
    rw [PRService.Bulk_cons, PRService.Bulk_cons]
    rcases Eff.call (s.Users.GetByID uid) (Event.GetByID uid) w with ⟨r1, w1⟩
    rcases r1 with e | u
    · simp only
      split
      · exact ih w1
      · rfl
    simp only
    rcases Eff.call (s.Users.SetIsActive uid false) (Event.SetIsActive uid false) w1 with
      ⟨r2, w2⟩
    rcases r2 with e | u2
    · rfl
    simp only
    rcases Eff.call (s.Prs.ListByReviewer uid) (Event.ListByReviewer uid) w2 with ⟨r3, w3⟩
    rcases r3 with e | prs
    · rfl
    simp only
    rcases s.reassignOpen uid prs w3 with ⟨r4, w4⟩
    rcases r4 with e | u4
    · rfl
    exact ih w4

/-- The inner loop stops with the error of `Reassign` when that error is
neither `ErrNoCandidate` nor `ErrPullRequestMerged`. -/
theorem PRService.reassignOpen_abort {σ ρ : Type} (s : PRService σ ρ) (uid : UserID)
    (p : PullRequestShort) (todo : List PullRequestShort) (w w1 : World σ ρ) (e : Err)
    (hopen : p.Status = PRStatusOpen) (hR : s.Reassign p.ID uid w = (.error e, w1))
    (h1 : e ≠ .ErrNoCandidate) (h2 : e ≠ .ErrPullRequestMerged) :
    s.reassignOpen uid (p :: todo) w = (.error e, w1) := by
  rw [PRService.reassignOpen_cons]
  have hb : (p.Status != PRStatusOpen) = false := by simpa using hopen
  simp only [hb, Bool.false_eq_true, if_false, hR]
  have : ¬ (e = .ErrNoCandidate ∨ e = .ErrPullRequestMerged) := by
    rintro (h | h)
    · exact h1 h
    · exact h2 h
  simp only [this, if_false]

/-! ## Bulk deactivation: errors that abort the batch -/

/-- C12: let the user IDs before `uid` have been processed without error. If
then `GetByID uid` returns an error other than `ErrNotFound`, or `SetIsActive`
or `ListByReviewer` returns any error, or `Reassign` of a listed OPEN pull
request returns an error other than `ErrNoCandidate` and
`ErrPullRequestMerged`, the bulk operation returns exactly that error, and the
world it leaves is the world right after the failing call: nothing is called
for the user IDs later in the list, which are neither looked up nor
deactivated. -/
theorem Bulk_aborts_on_other_error {σ ρ : Type} (s : PRService σ ρ) (pre rest : List UserID)
    (uid : UserID) (w w1 : World σ ρ)
    (hpre : s.BulkDeactivateAndReassign pre w = (.ok (), w1)) :
    (∀ e st1, s.Users.GetByID uid w1.store = (.error e, st1) → e ≠ .ErrNotFound →
      s.BulkDeactivateAndReassign (pre ++ uid :: rest) w =
        (.error e,
          { store := st1, rand := w1.rand,
            log := w1.log ++ [Event.GetByID uid (.error e)] })) ∧
    (∀ u st1 e st2, s.Users.GetByID uid w1.store = (.ok u, st1) →
      s.Users.SetIsActive uid false st1 = (.error e, st2) →
      s.BulkDeactivateAndReassign (pre ++ uid :: rest) w =
        (.error e,
          { store := st2, rand := w1.rand,
            log := w1.log ++ [Event.GetByID uid (.ok u),
              Event.SetIsActive uid false (.error e)] })) ∧
    (∀ u st1 u2 st2 e st3, s.Users.GetByID uid w1.store = (.ok u, st1) →
      s.Users.SetIsActive uid false st1 = (.ok u2, st2) →
      s.Prs.ListByReviewer uid st2 = (.error e, st3) →
      s.BulkDeactivateAndReassign (pre ++ uid :: rest) w =
        (.error e,
          { store := st3, rand := w1.rand,
            log := w1.log ++ [Event.GetByID uid (.ok u), Event.SetIsActive uid false (.ok u2),
              Event.ListByReviewer uid (.error e)] })) ∧
    (∀ u st1 u2 st2 prs st3 done p todo w4 e w5,
      s.Users.GetByID uid w1.store = (.ok u, st1) →
      s.Users.SetIsActive uid false st1 = (.ok u2, st2) →
      s.Prs.ListByReviewer uid st2 = (.ok prs, st3) →
      prs = done ++ p :: todo →
      s.reassignOpen uid done
        { store := st3, rand := w1.rand,
          log := w1.log ++ [Event.GetByID uid (.ok u), Event.SetIsActive uid false (.ok u2),
            Event.ListByReviewer uid (.ok prs)] } = (.ok (), w4) →
      p.Status = PRStatusOpen →
      s.Reassign p.ID uid w4 = (.error e, w5) →
      e ≠ .ErrNoCandidate → e ≠ .ErrPullRequestMerged →
      s.BulkDeactivateAndReassign (pre ++ uid :: rest) w = (.error e, w5)) := by
  have happ : s.BulkDeactivateAndReassign (pre ++ uid :: rest) w
      = s.BulkDeactivateAndReassign (uid :: rest) w1 := by
    rw [s.Bulk_append (uid :: rest) pre w, hpre]
  rw [happ, PRService.Bulk_cons]
  simp only [Eff.call_run]
  refine ⟨?_, ?_, ?_, ?_⟩
  · intro e st1 hG hne
    simp only [hG, hne, if_false]
  · intro u st1 e st2 hG hS
    simp only [hG, hS]
    simp
  · intro u st1 u2 st2 e st3 hG hS hL
    simp only [hG, hS, hL]
    simp
  · intro u st1 u2 st2 prs st3 done p todo w4 e w5 hG hS hL hprs hdone hopen hR h1 h2
    simp only [hG, hS, hL]
    have hloop : s.reassignOpen uid prs
        { store := st3, rand := w1.rand,
          log := w1.log ++ [Event.GetByID uid (.ok u), Event.SetIsActive uid false (.ok u2),
            Event.ListByReviewer uid (.ok prs)] } = (.error e, w5) := by
      have key : ∀ w3, s.reassignOpen uid done w3 = (.ok (), w4) →
          s.reassignOpen uid prs w3 = (.error e, w5) := by
        intro w3 h3
        rw [hprs, s.reassignOpen_append uid (p :: todo) done, h3]
        exact s.reassignOpen_abort uid p todo w4 w5 e hopen hR h1 h2
      exact key _ hdone
    have hlog : w1.log ++ [Event.GetByID uid (.ok u)] ++ [Event.SetIsActive uid false (.ok u2)]
        ++ [Event.ListByReviewer uid (.ok prs)]
        = w1.log ++ [Event.GetByID uid (.ok u), Event.SetIsActive uid false (.ok u2),
            Event.ListByReviewer uid (.ok prs)] := by simp
    rw [hlog, hloop]

theorem Bulk_aborts_on_other_error_witness :
    failingSetIsActiveService.BulkDeactivateAndReassign ["ghost"] exWorldSmall
      = (.ok (), (failingSetIsActiveService.BulkDeactivateAndReassign ["ghost"]
          exWorldSmall).2) ∧
    failingSetIsActiveService.BulkDeactivateAndReassign ["ghost", "b", "a"] exWorldSmall
      = (.error (.internal "set is_active: connection lost"),
          { store := exWorldSmall.store, rand := 0,
            log := [Event.GetByID "ghost" (.error .ErrNotFound),
              Event.GetByID "b" (.ok ⟨"b", "Ben", "core", true⟩),
              Event.SetIsActive "b" false
                (.error (.internal "set is_active: connection lost"))] }) :=
  ⟨rfl,
    (Bulk_aborts_on_other_error failingSetIsActiveService ["ghost"] ["a"] "b" exWorldSmall
      (failingSetIsActiveService.BulkDeactivateAndReassign ["ghost"] exWorldSmall).2
      rfl).2.1 ⟨"b", "Ben", "core", true⟩ exWorldSmall.store
        (.internal "set is_active: connection lost") exWorldSmall.store rfl rfl⟩

/-! ## What the operations do to the in-memory store -/

/-- What `Create` over the in-memory repositories of the service tests does to
the store: nothing, or it adds under the new ID a pull request of the given
author whose reviewers are `min(2, k)` IDs picked from the active users of the
author's team other than the author. -/
theorem memService_Create_store {ρ : Type} (rnd : Rand ρ) (id : PullRequestID)
    (name : String) (authorID : UserID) (now : Time) (w : World FakeStore ρ) :
    ((memService rnd).Create id name authorID now w).2.store = w.store ∨
    ∃ (author : User) (ids : List UserID),
      mapGet id w.store.prs = none ∧ mapGet authorID w.store.users = some author ∧
      ids.length ≤ 2 ∧
      (∀ x ∈ ids, ∃ u ∈ w.store.activeInTeam author.TeamName, u.ID ≠ author.ID ∧ u.ID = x) ∧
      ((((w.store.activeInTeam author.TeamName).filter
          (fun u => !(u.ID == author.ID))).map (fun u => u.ID)).Nodup → ids.Nodup) ∧
      ((memService rnd).Create id name authorID now w).1
        = .ok { ID := id, Name := name, AuthorID := authorID, Status := PRStatusOpen,
                AssignedReviewers := ids, CreatedAt := now, MergedAt := none } ∧
      ((memService rnd).Create id name authorID now w).2.store
        = { w.store with
            prs := mapSet id
              { ID := id, Name := name, AuthorID := authorID, Status := PRStatusOpen,
                AssignedReviewers := ids, CreatedAt := now, MergedAt := none }
              w.store.prs } := by
  rcases hpr : mapGet id w.store.prs with _ | pr0
  swap
  · left
    have hE : (memService rnd).Prs.Exists id w.store = (.ok true, w.store) := by
      show FakeStore.Exists id w.store = _
      simp [FakeStore.Exists, hpr]
    rw [(memService rnd).Create_run_exists id name authorID now w _ hE]
  have hE : (memService rnd).Prs.Exists id w.store = (.ok false, w.store) := by
    show FakeStore.Exists id w.store = _
    simp [FakeStore.Exists, hpr]
  rcases hu : mapGet authorID w.store.users with _ | author
  · left
    have hG : (memService rnd).Users.GetByID authorID w.store
        = (.error .ErrNotFound, w.store) := by
      show FakeStore.GetByID authorID w.store = _
      simp [FakeStore.GetByID, hu]
    rw [(memService rnd).Create_run_author_error id name authorID now w _ _ _ hE hG]
  right
  have hG : (memService rnd).Users.GetByID authorID w.store = (.ok author, w.store) := by
    show FakeStore.GetByID authorID w.store = _
    simp [FakeStore.GetByID, hu]
  have hL : (memService rnd).Users.ListActiveByTeam author.TeamName w.store
      = (.ok (w.store.activeInTeam author.TeamName), w.store) := rfl
  obtain ⟨ids, r, hlen, hmem, hnd, hrun⟩ :=
    (memService rnd).Create_run_reads id name authorID now w author _ _ _ _ hE hG hL
  refine ⟨author, ids, rfl, rfl, ?_, ?_, hnd, ?_, ?_⟩
  · rw [hlen]
    exact Nat.min_le_left _ _
  · intro x hx
    obtain ⟨u, hu1, rfl⟩ := List.mem_map.mp (hmem x hx)
    obtain ⟨hu2, hu3⟩ := List.mem_filter.mp hu1
    exact ⟨u, hu2, by simpa using hu3, rfl⟩
  · rw [hrun]
    rfl
  · rw [hrun]
    rfl

/-- What `Merge` over the in-memory repositories of the service tests does to
the store: nothing, or it rewrites a stored, unmerged pull request with status
MERGED and the merge timestamp. -/
theorem memService_Merge_store {ρ : Type} (rnd : Rand ρ) (id : PullRequestID) (now : Time)
    (w : World FakeStore ρ) :
    ((memService rnd).Merge id now w).2.store = w.store ∨
    ∃ pr0, mapGet id w.store.prs = some pr0 ∧ pr0.Status ≠ PRStatusMerged ∧
      ((memService rnd).Merge id now w).2.store
        = { w.store with
            prs := mapSet id { pr0 with Status := PRStatusMerged, MergedAt := some now }
              w.store.prs } := by
  rcases hpr : mapGet id w.store.prs with _ | pr0
  · left
    have hGet : (memService rnd).Prs.Get id w.store = (.error .ErrNotFound, w.store) := by
      show FakeStore.Get id w.store = _
      simp [FakeStore.Get, hpr]
    rw [(memService rnd).Merge_run_get_error id now w _ _ hGet]
  have hGet : (memService rnd).Prs.Get id w.store = (.ok pr0, w.store) := by
    show FakeStore.Get id w.store = _
    simp [FakeStore.Get, hpr]
  by_cases hst : pr0.Status = PRStatusMerged
  · left
    rw [(memService rnd).Merge_run_merged id now w pr0 _ hGet hst]
  · right
    refine ⟨pr0, rfl, hst, ?_⟩
    rw [(memService rnd).Merge_run_open id now w pr0 _ hGet hst]
    show (FakeStore.MarkMerged id now w.store).2 = _
    simp [FakeStore.MarkMerged, hpr]

/-- A property of the store that deactivating a user and every `Reassign` keep
is kept by the inner loop of the bulk operation. -/
theorem memService_reassignOpen_invariant {ρ : Type} (rnd : Rand ρ) (P : FakeStore → Prop)
    (hre : ∀ (w : World FakeStore ρ) prID uid, P w.store →
      P ((memService rnd).Reassign prID uid w).2.store)
    (uid : UserID) :
    ∀ (ps : List PullRequestShort) (w : World FakeStore ρ), P w.store →
      P ((memService rnd).reassignOpen uid ps w).2.store := by
  intro ps
  induction ps with
  | nil => intro w h; exact h
  | cons p rest ih =>
    intro w h
    rw [PRService.reassignOpen_cons]
    by_cases hb : (p.Status != PRStatusOpen) = true
    · simp only [hb, if_true]
      exact ih w h
    · simp only [hb, Bool.false_eq_true, if_false]
      have h1 := hre w p.ID uid h
      rcases hR : (memService rnd).Reassign p.ID uid w with ⟨res, w1⟩
      rw [hR] at h1
      rcases res with e | x
      · simp only
        split
        · exact ih w1 h1
        · exact h1
      · exact ih w1 h1

/-- A property of the store that deactivating an existing user and every
`Reassign` keep is kept by the bulk operation. -/
theorem memService_Bulk_invariant {ρ : Type} (rnd : Rand ρ) (P : FakeStore → Prop)
    (hset : ∀ (st : FakeStore) uid u, P st → mapGet uid st.users = some u →
      P { st with users := mapSet uid { u with IsActive := false } st.users })
    (hre : ∀ (w : World FakeStore ρ) prID uid, P w.store →
      P ((memService rnd).Reassign prID uid w).2.store) :
    ∀ (ids : List UserID) (w : World FakeStore ρ), P w.store →
      P ((memService rnd).BulkDeactivateAndReassign ids w).2.store := by
  intro ids
  induction ids with
  | nil => intro w h; exact h
  | cons uid rest ih =>
    intro w h
    rw [PRService.Bulk_cons]
    simp only [Eff.call_run]
    rcases hu0 : mapGet uid w.store.users with _ | u0
    · have hG : (memService rnd).Users.GetByID uid w.store = (.error .ErrNotFound, w.store) := by
        show FakeStore.GetByID uid w.store = _
        simp [FakeStore.GetByID, hu0]
      simp only [hG, if_true]
      exact ih _ h
    · have hG : (memService rnd).Users.GetByID uid w.store = (.ok u0, w.store) := by
        show FakeStore.GetByID uid w.store = _
        simp [FakeStore.GetByID, hu0]
      have hS : (memService rnd).Users.SetIsActive uid false w.store
          = (.ok { u0 with IsActive := false },
              { w.store with
                users := mapSet uid { u0 with IsActive := false } w.store.users }) := by
        show FakeStore.SetIsActive uid false w.store = _
        simp [FakeStore.SetIsActive, hu0]
      have hLr : ∀ st : FakeStore, ∃ ps, (memService rnd).Prs.ListByReviewer uid st
          = (.ok ps, st) := fun st => ⟨_, rfl⟩
      obtain ⟨ps, hps⟩ := hLr
        { w.store with users := mapSet uid { u0 with IsActive := false } w.store.users }
      simp only [hG, hS, hps]
      have h2 := hset w.store uid u0 h hu0
      have h3 := memService_reassignOpen_invariant rnd P hre uid ps
        { store := { w.store with
            users := mapSet uid { u0 with IsActive := false } w.store.users },
          rand := w.rand,
          log := w.log ++ [Event.GetByID uid (.ok u0)] ++
            [Event.SetIsActive uid false (.ok { u0 with IsActive := false })] ++
            [Event.ListByReviewer uid (.ok ps)] } h2
      rcases hR : (memService rnd).reassignOpen uid ps
        { store := { w.store with
            users := mapSet uid { u0 with IsActive := false } w.store.users },
          rand := w.rand,
          log := w.log ++ [Event.GetByID uid (.ok u0)] ++
            [Event.SetIsActive uid false (.ok { u0 with IsActive := false })] ++
            [Event.ListByReviewer uid (.ok ps)] } with ⟨res, w4⟩
      rw [hR] at h3
      rcases res with e | x
      · exact h3
      · exact ih w4 h3

theorem FakeStore.Get_ok_iff (id : PullRequestID) (st : FakeStore) (pr : PullRequest) :
    (FakeStore.Get id st).1 = .ok pr ↔ mapGet id st.prs = some pr := by
  unfold FakeStore.Get
  rcases mapGet id st.prs with _ | pr0
  · simp
  · simp

theorem FakeStore.GetByID_ok_iff (id : UserID) (st : FakeStore) (u : User) :
    (FakeStore.GetByID id st).1 = .ok u ↔ mapGet id st.users = some u := by
  unfold FakeStore.GetByID
  rcases mapGet id st.users with _ | u0
  · simp
  · simp

/-- A stored MERGED pull request is left as it is by `Create`. -/
theorem memService_Create_keeps_merged {ρ : Type} (rnd : Rand ρ) (w : World FakeStore ρ)
    (id : PullRequestID) (pr : PullRequest) (h : mapGet id w.store.prs = some pr)
    (id2 : PullRequestID) (name : String) (authorID : UserID) (now : Time) :
    mapGet id ((memService rnd).Create id2 name authorID now w).2.store.prs = some pr := by
  rcases memService_Create_store rnd id2 name authorID now w with
    hs | ⟨author, ids, hnone, -, -, -, -, -, hs⟩
  · rw [hs]; exact h
  · rw [hs]
    show mapGet id (mapSet id2 _ w.store.prs) = some pr
    rw [mapGet_mapSet_ne]
    · exact h
    · intro hid
      rw [hid, hnone] at h
      simp at h

/-- A stored MERGED pull request is left as it is by `Merge`. -/
theorem memService_Merge_keeps_merged {ρ : Type} (rnd : Rand ρ) (w : World FakeStore ρ)
    (id : PullRequestID) (pr : PullRequest) (h : mapGet id w.store.prs = some pr)
    (hst : pr.Status = PRStatusMerged) (id2 : PullRequestID) (now : Time) :
    mapGet id ((memService rnd).Merge id2 now w).2.store.prs = some pr := by
  rcases memService_Merge_store rnd id2 now w with hs | ⟨pr0, hpr0, hne, hs⟩
  · rw [hs]; exact h
  · rw [hs]
    show mapGet id (mapSet id2 _ w.store.prs) = some pr
    rw [mapGet_mapSet_ne]
    · exact h
    · intro hid
      rw [hid, hpr0] at h
      simp only [Option.some.injEq] at h
      exact hne (h ▸ hst)

/-- A stored MERGED pull request is left as it is by `Reassign`. -/
theorem memService_Reassign_keeps_merged {ρ : Type} (rnd : Rand ρ) (w : World FakeStore ρ)
    (id : PullRequestID) (pr : PullRequest) (h : mapGet id w.store.prs = some pr)
    (hst : pr.Status = PRStatusMerged) (id2 : PullRequestID) (uid : UserID) :
    mapGet id ((memService rnd).Reassign id2 uid w).2.store.prs = some pr := by
  rcases memService_Reassign_store rnd id2 uid w with hs | ⟨pr0, u, y, hpr0, hne, -, -, -, hs⟩
  · rw [hs]; exact h
  · rw [hs]
    show mapGet id (mapSet id2 _ w.store.prs) = some pr
    rw [mapGet_mapSet_ne]
    · exact h
    · intro hid
      rw [hid, hpr0] at h
      simp only [Option.some.injEq] at h
      exact hne (h ▸ hst)

/-! ## MERGED is terminal -/

/-- C13: over the in-memory repositories, a pull request that is stored with
status MERGED is returned by `Get` unchanged (so with the same status, merge
timestamp and reviewer list) after any call of `Create`, `Merge`, `Reassign`
or `BulkDeactivateAndReassign`, whatever the arguments and the generator. -/
theorem Merged_pull_request_never_changes {ρ : Type} (rnd : Rand ρ) (w : World FakeStore ρ)
    (id : PullRequestID) (pr : PullRequest)
    (hget : (fakePRRepo.Get id w.store).1 = .ok pr) (hst : pr.Status = PRStatusMerged) :
    (∀ id2 name authorID now,
      (fakePRRepo.Get id ((memService rnd).Create id2 name authorID now w).2.store).1
        = .ok pr) ∧
    (∀ id2 now, (fakePRRepo.Get id ((memService rnd).Merge id2 now w).2.store).1 = .ok pr) ∧
    (∀ id2 uid,
      (fakePRRepo.Get id ((memService rnd).Reassign id2 uid w).2.store).1 = .ok pr) ∧
    (∀ ids,
      (fakePRRepo.Get id ((memService rnd).BulkDeactivateAndReassign ids w).2.store).1
        = .ok pr) := by
  have h : mapGet id w.store.prs = some pr := (FakeStore.Get_ok_iff id w.store pr).mp hget
  refine ⟨?_, ?_, ?_, ?_⟩
  · intro id2 name authorID now
    exact (FakeStore.Get_ok_iff _ _ _).mpr
      (memService_Create_keeps_merged rnd w id pr h id2 name authorID now)
  · intro id2 now
    exact (FakeStore.Get_ok_iff _ _ _).mpr (memService_Merge_keeps_merged rnd w id pr h hst id2 now)
  · intro id2 uid
    exact (FakeStore.Get_ok_iff _ _ _).mpr
      (memService_Reassign_keeps_merged rnd w id pr h hst id2 uid)
  · intro ids
    apply (FakeStore.Get_ok_iff _ _ _).mpr
    exact memService_Bulk_invariant rnd (fun st => mapGet id st.prs = some pr)
      (fun st uid u hP _ => hP)
      (fun w1 prID uid hP => memService_Reassign_keeps_merged rnd w1 id pr hP hst prID uid)
      ids w h

theorem Merged_pull_request_never_changes_witness :
    (fakePRRepo.Get "pr2" exWorld2.store).1 = .ok exPRMerged ∧
    exPRMerged.Status = PRStatusMerged ∧
    (fakePRRepo.Get "pr2"
      (fakeService.BulkDeactivateAndReassign ["u4", "u3"] exWorld2).2.store).1
        = .ok exPRMerged ∧
    (∀ id2 name authorID now,
      (fakePRRepo.Get "pr2" (fakeService.Create id2 name authorID now exWorld2).2.store).1
        = .ok exPRMerged) ∧
    (∀ id2 now, (fakePRRepo.Get "pr2" (fakeService.Merge id2 now exWorld2).2.store).1
      = .ok exPRMerged) ∧
    (∀ id2 uid,
      (fakePRRepo.Get "pr2" (fakeService.Reassign id2 uid exWorld2).2.store).1
        = .ok exPRMerged) ∧
    (∀ ids,
      (fakePRRepo.Get "pr2" (fakeService.BulkDeactivateAndReassign ids exWorld2).2.store).1
        = .ok exPRMerged) :=
  ⟨rfl, rfl, rfl,
    Merged_pull_request_never_changes descendingRand exWorld2 "pr2" exPRMerged rfl rfl⟩

/-! ## Reviewer lists stay well formed -/

theorem PRService.mem_of_mem_replaceFirst {a b c : UserID} {l : List UserID}
    (h : c ∈ PRService.replaceFirst a b l) : c = b ∨ c ∈ l := by
  induction l with
  | nil => simp [PRService.replaceFirst] at h
  | cons r rs ih =>
    unfold PRService.replaceFirst at h
    by_cases hr : r = a
    · have hb : (r == a) = true := by simpa using hr
      simp only [hb, if_true, List.mem_cons] at h
      rcases h with h | h
      · exact Or.inl h
      · exact Or.inr (List.mem_cons_of_mem _ h)
    · have hb : (r == a) = false := by simpa using hr
      simp only [hb, Bool.false_eq_true, if_false, List.mem_cons] at h
      rcases h with h | h
      · exact Or.inr (h ▸ List.mem_cons_self _ _)
      · rcases ih h with h2 | h2
        · exact Or.inl h2
        · exact Or.inr (List.mem_cons_of_mem _ h2)

theorem PRService.mem_replaceFirst_of_ne {a b c : UserID} {l : List UserID} (h : c ∈ l)
    (hne : c ≠ a) : c ∈ PRService.replaceFirst a b l := by
  induction l with
  | nil => simp at h
  | cons r rs ih =>
    unfold PRService.replaceFirst
    by_cases hr : r = a
    · have hb : (r == a) = true := by simpa using hr
      simp only [hb, if_true, List.mem_cons]
      rcases List.mem_cons.mp h with h1 | h1
      · exact absurd (h1.trans hr) hne
      · exact Or.inr h1
    · have hb : (r == a) = false := by simpa using hr
      simp only [hb, Bool.false_eq_true, if_false, List.mem_cons]
      rcases List.mem_cons.mp h with h1 | h1
      · exact Or.inl h1
      · exact Or.inr (ih h1)

theorem PRService.nodup_replaceFirst {a b : UserID} {l : List UserID} (hnd : l.Nodup)
    (hb : b ∉ l) : (PRService.replaceFirst a b l).Nodup := by
  induction l with
  | nil => simp [PRService.replaceFirst]
  | cons r rs ih =>
    obtain ⟨hr, hrs⟩ := List.nodup_cons.mp hnd
    have hbr : b ≠ r := fun h => hb (h ▸ List.mem_cons_self _ _)
    have hbrs : b ∉ rs := fun h => hb (List.mem_cons_of_mem _ h)
    unfold PRService.replaceFirst
    by_cases hra : r = a
    · have hbq : (r == a) = true := by simpa using hra
      simp only [hbq, if_true]
      exact List.nodup_cons.mpr ⟨hbrs, hrs⟩
    · have hbq : (r == a) = false := by simpa using hra
      simp only [hbq, Bool.false_eq_true, if_false]
      refine List.nodup_cons.mpr ⟨?_, ih hrs hbrs⟩
      intro hmem
      rcases PRService.mem_of_mem_replaceFirst hmem with h | h
      · exact hbr h.symm
      · exact hr h

/-- In a store whose users are stored once and under their own ID, the IDs of
the active users of a team are pairwise distinct. -/
theorem FakeStore.activeInTeam_nodup {st : FakeStore} (h : st.UsersWF) (team : TeamName) :
    ((st.activeInTeam team).map (fun u => u.ID)).Nodup := by
  obtain ⟨hnd, hkey⟩ := h
  have hsub : List.Sublist ((st.activeInTeam team).map (fun u => u.ID))
      ((st.users.map Prod.snd).map (fun u => u.ID)) :=
    List.Sublist.map _ (List.filter_sublist _)
  have heq : (st.users.map Prod.snd).map (fun u => u.ID) = st.users.map Prod.fst := by
    rw [List.map_map]
    apply List.map_congr_left
    intro e he
    exact hkey e he
  rw [heq] at hsub
  exact hnd.sublist hsub

/-- In a store whose users are stored under their own ID, `GetByID` returns a
record with the requested ID. -/
theorem FakeStore.UsersWF.id_eq {st : FakeStore} (h : st.UsersWF) {uid : UserID} {u : User}
    (hu : mapGet uid st.users = some u) : u.ID = uid :=
  h.2 (uid, u) (mem_of_mapGet hu)

/-- Deactivating an existing user keeps the users stored once and under their
own ID. -/
theorem FakeStore.UsersWF_setInactive {st : FakeStore} (h : st.UsersWF) {uid : UserID}
    {u : User} (hu : mapGet uid st.users = some u) :
    FakeStore.UsersWF
      { st with users := mapSet uid { u with IsActive := false } st.users } := by
  refine ⟨?_, ?_⟩
  · show ((mapSet uid _ st.users).map Prod.fst).Nodup
    rw [map_fst_mapSet _ hu]
    exact h.1
  · intro e he
    rcases mem_mapSet he with h1 | h1
    · rw [h1]
      show u.ID = uid
      exact h.id_eq hu
    · exact h.2 e h1

/-- Well-formed reviewer lists are kept by `Reassign`. -/
theorem memService_Reassign_keeps_ReviewersWF {ρ : Type} (rnd : Rand ρ)
    (w : World FakeStore ρ) (prID : PullRequestID) (uid : UserID)
    (h : w.store.ReviewersWF) :
    ((memService rnd).Reassign prID uid w).2.store.ReviewersWF := by
  rcases memService_Reassign_store rnd prID uid w with
    hs | ⟨pr0, u, y, hpr0, -, -, -, hy, hs⟩
  · rw [hs]; exact h
  · rw [hs]
    intro e he
    rcases mem_mapSet he with h1 | h1
    · rw [h1]
      obtain ⟨hlen, hnd, hauth⟩ := h _ (mem_of_mapGet hpr0)
      obtain ⟨x, hx, rfl⟩ := List.mem_map.mp hy
      obtain ⟨-, -, hxa, hxr⟩ := PRService.mem_reassignFiltered.mp hx
      refine ⟨?_, ?_, ?_⟩
      · show (PRService.replaceFirst uid x.ID pr0.AssignedReviewers).length ≤ 2
        rw [PRService.length_replaceFirst]
        exact hlen
      · exact PRService.nodup_replaceFirst hnd hxr
      · intro hmem
        rcases PRService.mem_of_mem_replaceFirst hmem with h2 | h2
        · exact hxa h2.symm
        · exact hauth h2
    · exact h e h1

/-- C14: over the in-memory repositories, starting from a store whose users
are stored once and under their own ID (so that `GetByID` returns the record
of the requested ID and `ListActiveByTeam` returns each user at most once) and
in which every pull request has at most 2 reviewers, pairwise distinct, none
equal to its author, every call of `Create`, `Merge`, `Reassign` and
`BulkDeactivateAndReassign` leaves a store with the same two properties. -/
theorem Reviewer_lists_stay_well_formed {ρ : Type} (rnd : Rand ρ) (w : World FakeStore ρ)
    (husers : w.store.UsersWF) (hprs : w.store.ReviewersWF) :
    (∀ id name authorID now,
      ((memService rnd).Create id name authorID now w).2.store.ReviewersWF ∧
      ((memService rnd).Create id name authorID now w).2.store.UsersWF) ∧
    (∀ id now,
      ((memService rnd).Merge id now w).2.store.ReviewersWF ∧
      ((memService rnd).Merge id now w).2.store.UsersWF) ∧
    (∀ id uid,
      ((memService rnd).Reassign id uid w).2.store.ReviewersWF ∧
      ((memService rnd).Reassign id uid w).2.store.UsersWF) ∧
    (∀ ids,
      ((memService rnd).BulkDeactivateAndReassign ids w).2.store.ReviewersWF ∧
      ((memService rnd).BulkDeactivateAndReassign ids w).2.store.UsersWF) := by
  have hReU : ∀ (w1 : World FakeStore ρ) prID uid, w1.store.UsersWF →
      ((memService rnd).Reassign prID uid w1).2.store.UsersWF := by
    intro w1 prID uid h1
    rcases memService_Reassign_store rnd prID uid w1 with hs | ⟨_, _, _, -, -, -, -, -, hs⟩
    · rw [hs]; exact h1
    · rw [hs]; exact h1
  refine ⟨?_, ?_, ?_, ?_⟩
  · intro id name authorID now
    rcases memService_Create_store rnd id name authorID now w with
      hs | ⟨author, ids, -, hau, hlen, hmem, hnd, -, hs⟩
    · rw [hs]; exact ⟨hprs, husers⟩
    · rw [hs]
      refine ⟨?_, husers⟩
      intro e he
      rcases mem_mapSet he with h1 | h1
      · rw [h1]
        refine ⟨hlen, ?_, ?_⟩
        · apply hnd
          exact (FakeStore.activeInTeam_nodup husers author.TeamName).sublist
            (List.Sublist.map _ (List.filter_sublist _))
        · intro hin
          obtain ⟨u, -, hne, hid⟩ := hmem _ hin
          apply hne
          rw [hid]
          exact (husers.id_eq hau).symm
      · exact hprs e h1
  · intro id now
    rcases memService_Merge_store rnd id now w with hs | ⟨pr0, hpr0, -, hs⟩
    · rw [hs]; exact ⟨hprs, husers⟩
    · rw [hs]
      refine ⟨?_, husers⟩
      intro e he
      rcases mem_mapSet he with h1 | h1
      · rw [h1]
        have h0 : ReviewersOK pr0 := hprs (id, pr0) (mem_of_mapGet hpr0)
        exact h0
      · exact hprs e h1
  · intro id uid
    exact ⟨memService_Reassign_keeps_ReviewersWF rnd w id uid hprs, hReU w id uid husers⟩
  · intro ids
    exact memService_Bulk_invariant rnd (fun st => st.ReviewersWF ∧ st.UsersWF)
      (fun st uid u hP hu => ⟨hP.1, FakeStore.UsersWF_setInactive hP.2 hu⟩)
      (fun w1 prID uid hP =>
        ⟨memService_Reassign_keeps_ReviewersWF rnd w1 prID uid hP.1, hReU w1 prID uid hP.2⟩)
      ids w ⟨hprs, husers⟩

theorem exWorld1_ReviewersWF : exWorld1.store.ReviewersWF := by
  unfold FakeStore.ReviewersWF ReviewersOK
  decide

theorem Reviewer_lists_stay_well_formed_witness :
    exWorld1.store.UsersWF ∧ exWorld1.store.ReviewersWF ∧
    (fakeService.Reassign "pr2" "u4" exWorld1).2.store.prs = [("pr2", exPRReassigned)] ∧
    (∀ id name authorID now,
      (fakeService.Create id name authorID now exWorld1).2.store.ReviewersWF ∧
      (fakeService.Create id name authorID now exWorld1).2.store.UsersWF) ∧
    (∀ id now,
      (fakeService.Merge id now exWorld1).2.store.ReviewersWF ∧
      (fakeService.Merge id now exWorld1).2.store.UsersWF) ∧
    (∀ id uid,
      (fakeService.Reassign id uid exWorld1).2.store.ReviewersWF ∧
      (fakeService.Reassign id uid exWorld1).2.store.UsersWF) ∧
    (∀ ids,
      (fakeService.BulkDeactivateAndReassign ids exWorld1).2.store.ReviewersWF ∧
      (fakeService.BulkDeactivateAndReassign ids exWorld1).2.store.UsersWF) :=
  ⟨⟨by decide, by decide⟩, exWorld1_ReviewersWF, rfl,
    Reviewer_lists_stay_well_formed descendingRand exWorld1 ⟨by decide, by decide⟩
      exWorld1_ReviewersWF⟩

/-! ## Create and the reviewer-centric listing -/

theorem mapGet_ne_none_of_mem {V : Type} {k : String} {v : V} {m : List (String × V)}
    (h : (k, v) ∈ m) : mapGet k m ≠ none := by
  induction m with
  | nil => simp at h
  | cons e rest ih =>
    obtain ⟨k1, v1⟩ := e
    unfold mapGet
    by_cases hk : k1 = k
    · simp [hk]
    · have hb : (k1 == k) = false := by simpa using hk
      simp only [hb, Bool.false_eq_true, if_false]
      rcases List.mem_cons.mp h with h1 | h1
      · exact absurd (congrArg Prod.fst h1).symm hk
      · exact ih h1

/-- In a store whose pull requests are stored under their own ID, after a new
OPEN pull request is stored under its ID, `ListByReviewer u` lists its
projection exactly for its reviewers. -/
theorem FakeStore.listed_after_create (st : FakeStore) (hwf : st.WF) (pr : PullRequest)
    (hnew : mapGet pr.ID st.prs = none) (hopen : pr.Status = PRStatusOpen) (u : UserID) :
    ∃ ps, FakeStore.ListByReviewer u { st with prs := mapSet pr.ID pr st.prs }
        = (.ok ps, { st with prs := mapSet pr.ID pr st.prs }) ∧
      ((⟨pr.ID, pr.Name, pr.AuthorID, PRStatusOpen⟩ : PullRequestShort) ∈ ps ↔
        u ∈ pr.AssignedReviewers) := by
  refine ⟨_, rfl, ?_⟩
  simp only [List.mem_map, List.mem_filter, List.any_eq_true, beq_iff_eq]
  constructor
  · rintro ⟨pr1, ⟨⟨e, he, rfl⟩, x, hx, rfl⟩, hshort⟩
    have hid : e.2.ID = pr.ID := by
      have := congrArg PullRequestShort.ID hshort
      simpa using this
    rcases mem_mapSet he with h1 | h1
    · rw [h1] at hx
      exact hx
    · exfalso
      have hk : e.2.ID = e.1 := hwf.2 e h1
      have : (pr.ID, e.2) ∈ st.prs := by
        have he2 : e = (e.1, e.2) := rfl
        rw [he2, ← hk, hid] at h1
        exact h1
      exact mapGet_ne_none_of_mem this hnew
  · intro hu
    refine ⟨pr, ⟨⟨(pr.ID, pr), mem_of_mapGet (mapGet_mapSet_self _ _ _), rfl⟩, u, hu, rfl⟩, ?_⟩
    rw [hopen]

/-- Listing after a successful `Create`, for a service over the two Go maps
whose reads leave the store as it is and whose `Create` stores the pull
request under its ID. -/
theorem FakeStore.Create_then_list {ρ : Type} (s : PRService FakeStore ρ)
    (hE : ∀ id st, s.Prs.Exists id st = FakeStore.Exists id st)
    (hG : ∀ id st, (s.Users.GetByID id st).2 = st)
    (hL : ∀ t st, (s.Users.ListActiveByTeam t st).2 = st)
    (hC : ∀ pr st st1, s.Prs.Create pr st = (.ok (), st1) →
      st1 = { st with prs := mapSet pr.ID pr st.prs })
    (hLR : ∀ u st, s.Prs.ListByReviewer u st = FakeStore.ListByReviewer u st)
    (id : PullRequestID) (name : String) (authorID : UserID) (now : Time)
    (w w' : World FakeStore ρ) (pr : PullRequest) (hwf : w.store.WF)
    (h : s.Create id name authorID now w = (.ok pr, w')) (u : UserID) :
    ∃ ps, (s.ListByReviewer u w').1 = .ok ps ∧
      ((⟨pr.ID, pr.Name, pr.AuthorID, PRStatusOpen⟩ : PullRequestShort) ∈ ps ↔
        u ∈ pr.AssignedReviewers) := by
  obtain ⟨author, cands, st1, st2, st3, st4, r, h1, h2, h3, h4, hid, -, -, hopen, -, -, -, -,
    -, hw⟩ := s.Create_ok_inv id name authorID now w w' pr h
  have e1 : st1 = w.store := by
    have := hE id w.store
    rw [h1] at this
    exact (congrArg Prod.snd this)
  have hnone : mapGet id w.store.prs = none := by
    have := hE id w.store
    rw [h1] at this
    have h5 : (Except.ok false : Except Err Bool) = .ok (mapGet id w.store.prs).isSome :=
      congrArg Prod.fst this
    simp only [Except.ok.injEq] at h5
    rcases hm : mapGet id w.store.prs with _ | x
    · rfl
    · rw [hm] at h5
      simp at h5
  have e2 : st2 = st1 := by
    have := hG authorID st1
    rw [h2] at this
    exact this
  have e3 : st3 = st2 := by
    have := hL author.TeamName st2
    rw [h3] at this
    exact this
  have e4 := hC pr st3 st4 h4
  rw [e3, e2, e1] at e4
  obtain ⟨ps, hps, hiff⟩ := FakeStore.listed_after_create w.store hwf pr (hid ▸ hnone) hopen u
  refine ⟨ps, ?_, hiff⟩
  show (s.Prs.ListByReviewer u w'.store).1 = .ok ps
  rw [hLR, hw, e4, hps]

/-- C19: after a successful `Create` over either pair of in-memory
repositories (those of the service tests and those of the integration test),
in a store whose pull requests are stored once and under their own ID,
`ListByReviewer(u)` contains the projection of the new pull request (its ID,
name and author, status OPEN) if and only if `u` is one of the assigned
reviewers that `Create` returned. -/
theorem Create_listed_exactly_for_its_reviewers {ρ : Type} (rnd : Rand ρ)
    (id : PullRequestID) (name : String) (authorID : UserID) (now : Time)
    (w w' : World FakeStore ρ) (pr : PullRequest) (hwf : w.store.WF) :
    ((memService rnd).Create id name authorID now w = (.ok pr, w') →
      ∀ u, ∃ ps, ((memService rnd).ListByReviewer u w').1 = .ok ps ∧
        ((⟨pr.ID, pr.Name, pr.AuthorID, PRStatusOpen⟩ : PullRequestShort) ∈ ps ↔
          u ∈ pr.AssignedReviewers)) ∧
    ((inMemoryService rnd).Create id name authorID now w = (.ok pr, w') →
      ∀ u, ∃ ps, ((inMemoryService rnd).ListByReviewer u w').1 = .ok ps ∧
        ((⟨pr.ID, pr.Name, pr.AuthorID, PRStatusOpen⟩ : PullRequestShort) ∈ ps ↔
          u ∈ pr.AssignedReviewers)) := by
  have hG : ∀ id st, (FakeStore.GetByID id st).2 = st := by
    intro id st
    unfold FakeStore.GetByID
    split <;> rfl
  constructor
  · intro h u
    refine FakeStore.Create_then_list (memService rnd) (fun _ _ => rfl) hG (fun _ _ => rfl) ?_
      (fun _ _ => rfl) id name authorID now w w' pr hwf h u
    intro pr1 st st1 hc
    have hc1 : FakeStore.Create pr1 st = (.ok (), st1) := hc
    unfold FakeStore.Create at hc1
    exact (congrArg Prod.snd hc1).symm
  · intro h u
    refine FakeStore.Create_then_list (inMemoryService rnd) (fun _ _ => rfl) hG
      (fun _ _ => rfl) ?_ (fun _ _ => rfl) id name authorID now w w' pr hwf h u
    intro pr1 st st1 hc
    have hc1 : InMemory.Create pr1 st = (.ok (), st1) := hc
    unfold InMemory.Create at hc1
    rcases hm : mapGet pr1.ID st.prs with _ | x
    · rw [hm] at hc1
      exact (congrArg Prod.snd hc1).symm
    · rw [hm] at hc1
      simp at hc1

theorem Create_listed_exactly_for_its_reviewers_witness :
    exWorld0.store.WF ∧
    fakeService.Create "pr2" "PR 2" "u1" 7 exWorld0 = (.ok exPR, exWorld1) ∧
    (fakeService.ListByReviewer "u4" exWorld1).1 = .ok [⟨"pr2", "PR 2", "u1", "OPEN"⟩] ∧
    (fakeService.ListByReviewer "u2" exWorld1).1 = .ok [] ∧
    (fakeService.Create "pr2" "PR 2" "u1" 7 exWorld0 = (.ok exPR, exWorld1) →
      ∀ u, ∃ ps, (fakeService.ListByReviewer u exWorld1).1 = .ok ps ∧
        ((⟨exPR.ID, exPR.Name, exPR.AuthorID, PRStatusOpen⟩ : PullRequestShort) ∈ ps ↔
          u ∈ exPR.AssignedReviewers)) ∧
    ((inMemoryService descendingRand).Create "pr2" "PR 2" "u1" 7 exWorld0
        = (.ok exPR, exWorld1) →
      ∀ u, ∃ ps, ((inMemoryService descendingRand).ListByReviewer u exWorld1).1 = .ok ps ∧
        ((⟨exPR.ID, exPR.Name, exPR.AuthorID, PRStatusOpen⟩ : PullRequestShort) ∈ ps ↔
          u ∈ exPR.AssignedReviewers)) :=
  ⟨⟨by decide, by decide⟩, rfl, rfl, rfl,
    Create_listed_exactly_for_its_reviewers descendingRand "pr2" "PR 2" "u1" 7 exWorld0
      exWorld1 exPR ⟨by decide, by decide⟩⟩

/-! ## Reviewer selection: every position is selected equally often -/

/-- The IDs that the loop returns are the IDs at the positions it reads. -/
theorem pickLoop_eq_map_positions (users : List User) (indices : List Nat) :
    ∀ (k i : Nat), pickLoop users indices i k
      = (pickLoopPositions users indices i k).map (fun ps => ps.map (idAt users)) := by
  intro k
  induction k with
  | zero => intro i; simp [pickLoop, pickLoopPositions]
  | succ k ih =>
    intro i
    unfold pickLoop pickLoopPositions
    rcases hidx : indices[i]? with _ | idx
    · rfl
    simp only
    rcases hu : users[idx]? with _ | u
    · rfl
    simp only [ih (i + 1)]
    rcases hrest : pickLoopPositions users indices (i + 1) k with _ | rest
    · rfl
    · simp [idAt, hu]

theorem pickLoopPositions_eq (users : List User) (indices : List Nat)
    (hlt : ∀ j ∈ indices, j < users.length) :
    ∀ (k i : Nat), i + k ≤ indices.length →
      pickLoopPositions users indices i k = some ((indices.drop i).take k) := by
  intro k
  induction k with
  | zero => intro i _; simp [pickLoopPositions]
  | succ k ih =>
    intro i hik
    have hi : i < indices.length := by omega
    have hidx : indices[i]? = some indices[i] := List.getElem?_eq_getElem hi
    have hj : indices[i] < users.length := hlt _ (List.getElem_mem hi)
    have hu : users[indices[i]]? = some users[indices[i]] := List.getElem?_eq_getElem hj
    have hrec := ih (i + 1) (by omega)
    have hdrop : indices.drop i = indices[i] :: indices.drop (i + 1) :=
      List.drop_eq_getElem_cons hi
    simp only [pickLoopPositions, hidx, hu, hrec, hdrop, List.take_succ_cons]

/-- For a permutation of the indices, the selected positions are its first
`min(limit, len(users))` entries. -/
theorem pickedPositions_eq (users : List User) (limit : Int) (indices : List Nat)
    (hperm : List.Perm indices (List.range users.length)) :
    pickedPositions users limit indices
      = some (indices.take (min limit.toNat users.length)) := by
  have hlen : indices.length = users.length := by simpa using hperm.length_eq
  unfold pickedPositions
  split
  · rename_i h
    rcases h with h | h
    · simp [h]
    · have : limit.toNat = 0 := by omega
      simp [this]
  · have hn : (if (users.length : Int) < limit then users.length else limit.toNat)
        = min limit.toNat users.length := by
      split <;> omega
    simp only [hn]
    have := pickLoopPositions_eq users indices (perm_range_lt hperm)
      (min limit.toNat users.length) 0 (by omega)
    simpa using this

/-- Swapping two values below `n` maps the numbers below `n` onto themselves. -/
theorem map_swap_range_perm {n i j : Nat} (hi : i < n) (hj : j < n) :
    List.Perm ((List.range n).map (Equiv.swap i j)) (List.range n) := by
  rw [List.perm_ext_iff_of_nodup
    ((List.nodup_range n).map (Equiv.swap i j).injective) (List.nodup_range n)]
  intro a
  simp only [List.mem_map, List.mem_range]
  constructor
  · rintro ⟨b, hb, rfl⟩
    by_cases h1 : b = i
    · subst h1; simpa using hj
    by_cases h2 : b = j
    · subst h2; simpa using hi
    rw [Equiv.swap_apply_of_ne_of_ne h1 h2]
    exact hb
  · intro ha
    refine ⟨Equiv.swap i j a, ?_, by simp⟩
    by_cases h1 : a = i
    · subst h1; simpa using hj
    by_cases h2 : a = j
    · subst h2; simpa using hi
    rw [Equiv.swap_apply_of_ne_of_ne h1 h2]
    exact ha

/-- Among the permutations of `0, ..., n-1`, as many have `i` among their
first `m` entries as have `j` there. -/
theorem countP_take_permutations (n m i j : Nat) (hi : i < n) (hj : j < n) :
    (List.range n).permutations.countP (fun p => decide (i ∈ p.take m))
      = (List.range n).permutations.countP (fun p => decide (j ∈ p.take m)) := by
  have hinj : Function.Injective (List.map (Equiv.swap i j) : List Nat → List Nat) :=
    List.map_injective_iff.mpr (Equiv.swap i j).injective
  have hmem : ∀ q : List Nat, List.Perm q (List.range n) →
      List.Perm (q.map (Equiv.swap i j)) (List.range n) :=
    fun q hq => (hq.map _).trans (map_swap_range_perm hi hj)
  have hperm : List.Perm ((List.range n).permutations.map (List.map (Equiv.swap i j)))
      (List.range n).permutations := by
    rw [List.perm_ext_iff_of_nodup
      ((List.nodup_permutations _ (List.nodup_range n)).map hinj)
      (List.nodup_permutations _ (List.nodup_range n))]
    intro q
    simp only [List.mem_map, List.mem_permutations]
    constructor
    · rintro ⟨p, hp, rfl⟩
      exact hmem p hp
    · intro hq
      refine ⟨q.map (Equiv.swap i j), hmem q hq, ?_⟩
      have hid : (Equiv.swap i j : Nat → Nat) ∘ (Equiv.swap i j : Nat → Nat) = id := by
        funext x
        simp
      rw [List.map_map, hid, List.map_id]
  rw [← hperm.countP_eq (fun p => decide (j ∈ p.take m)), List.countP_map]
  apply List.countP_congr
  intro p _
  simp only [Function.comp_apply, decide_eq_true_eq, ← List.map_take, List.mem_map]
  constructor
  · intro h
    exact ⟨i, h, by simp⟩
  · rintro ⟨a, ha, haj⟩
    have : a = i := by
      have := congrArg (Equiv.swap i j) haj
      simpa using this
    exact this ▸ ha

/-- C20: for every candidate list and every limit, `pickRandomReviewers`
selects the positions that are the first `min(limit, n)` entries of the
permutation the random source returns, the IDs it returns are the IDs at those
positions, and, counted over the `n!` permutations of `0, ..., n-1`, any two
positions of the list are selected under the same number of permutations. -/
theorem pick_selects_every_position_equally_often (users : List User) (limit : Int) :
    (List.range users.length).permutations.length = users.length.factorial ∧
    (∀ p ∈ (List.range users.length).permutations,
      pickedPositions users limit p = some (p.take (min limit.toNat users.length)) ∧
      (¬ (users.length = 0 ∨ limit ≤ 0) →
        pickWithIndices users limit p
          = (pickedPositions users limit p).map (fun ps => ps.map (idAt users)))) ∧
    (∀ i j, i < users.length → j < users.length →
      (List.range users.length).permutations.countP (fun p => selectsPosition users limit p i)
        = (List.range users.length).permutations.countP
            (fun p => selectsPosition users limit p j)) := by
  refine ⟨by simp [List.length_permutations], ?_, ?_⟩
  · intro p hp
    refine ⟨pickedPositions_eq users limit p (List.mem_permutations.mp hp), ?_⟩
    intro hne
    unfold pickWithIndices pickedPositions
    simp only [hne, if_false]
    exact pickLoop_eq_map_positions users p _ 0
  · intro i j hi hj
    have hsel : ∀ (pos : Nat), ∀ p ∈ (List.range users.length).permutations,
        selectsPosition users limit p pos
          = decide (pos ∈ p.take (min limit.toNat users.length)) := by
      intro pos p hp
      unfold selectsPosition
      rw [pickedPositions_eq users limit p (List.mem_permutations.mp hp)]
      simp
    have hcount : ∀ pos : Nat,
        (List.range users.length).permutations.countP
            (fun p => selectsPosition users limit p pos)
          = (List.range users.length).permutations.countP
              (fun p => decide (pos ∈ p.take (min limit.toNat users.length))) := by
      intro pos
      apply List.countP_congr
      intro p hp
      rw [hsel pos p hp]
    rw [hcount i, hcount j]
    exact countP_take_permutations users.length _ i j hi hj

theorem pick_selects_every_position_equally_often_witness :
    (List.range exTrio.length).permutations.countP (fun p => selectsPosition exTrio 2 p 0) = 4 ∧
    (List.range exTrio.length).permutations.countP (fun p => selectsPosition exTrio 2 p 0)
      = (List.range exTrio.length).permutations.countP
          (fun p => selectsPosition exTrio 2 p 2) :=
  ⟨(List.Perm.countP_eq _ (List.permutations_perm_permutations' _)).trans (by decide),
    (pick_selects_every_position_equally_often exTrio 2).2.2 0 2 (by decide) (by decide)⟩

/-! ## Bulk deactivation reassigns wherever possible: helper lemmas -/

/-- In a store whose users are stored once and under their own ID, an active
user does not carry the ID of a stored inactive user. -/
theorem FakeStore.active_id_ne_inactive {st : FakeStore} (h : st.UsersWF) {d : UserID}
    {ud : User} (hd : mapGet d st.users = some ud) (hina : ud.IsActive = false)
    {team : TeamName} {x : User} (hx : x ∈ st.activeInTeam team) : x.ID ≠ d := by
  intro hxd
  obtain ⟨hx1, hx2⟩ := List.mem_filter.mp hx
  obtain ⟨e, he, rfl⟩ := List.mem_map.mp hx1
  have hk : e.2.ID = e.1 := h.2 e he
  have hmem : (d, e.2) ∈ st.users := by
    have he2 : e = (e.1, e.2) := rfl
    rw [he2, ← hk, hxd] at he
    exact he
  have := mapGet_of_mem h.1 hmem
  rw [hd] at this
  simp only [Option.some.injEq] at this
  rw [← this, hina] at hx2
  simp at hx2

/-- Deactivating a user adds no active user to any team. -/
theorem FakeStore.activeInTeam_setInactive_subset {st : FakeStore} {v : UserID} {u0 : User}
    {team : TeamName} {x : User}
    (hx : x ∈ FakeStore.activeInTeam
      { st with users := mapSet v { u0 with IsActive := false } st.users } team) :
    x ∈ st.activeInTeam team := by
  obtain ⟨hx1, hx2⟩ := List.mem_filter.mp hx
  obtain ⟨e, he, rfl⟩ := List.mem_map.mp hx1
  rcases mem_mapSet he with h1 | h1
  · rw [h1] at hx2
    simp at hx2
  · exact List.mem_filter.mpr ⟨List.mem_map.mpr ⟨e, h1, rfl⟩, hx2⟩

/-- A settled user stays settled when a user is deactivated. -/
theorem FakeStore.Settled_setInactive {st : FakeStore} {v : UserID} {u0 : User}
    (hv : mapGet v st.users = some u0) {d : UserID} (hd : st.Settled d) :
    FakeStore.Settled
      { st with users := mapSet v { u0 with IsActive := false } st.users } d := by
  intro ud hud
  have hud1 : mapGet d (mapSet v { u0 with IsActive := false } st.users) = some ud := hud
  by_cases hdv : d = v
  · subst hdv
    rw [mapGet_mapSet_self] at hud1
    simp only [Option.some.injEq] at hud1
    subst hud1
    obtain ⟨-, hall⟩ := hd u0 hv
    refine ⟨rfl, ?_⟩
    intro k pr hk hopen hin x hx
    exact hall k pr hk hopen hin x (FakeStore.activeInTeam_setInactive_subset hx)
  · rw [mapGet_mapSet_ne _ _ hdv] at hud1
    obtain ⟨hina, hall⟩ := hd ud hud1
    refine ⟨hina, ?_⟩
    intro k pr hk hopen hin x hx
    exact hall k pr hk hopen hin x (FakeStore.activeInTeam_setInactive_subset hx)

/-- A settled user stays settled when `Reassign` replaces the deactivated user
`uid` on a pull request by an active user. -/
theorem FakeStore.Settled_replace {st : FakeStore} (husers : st.UsersWF) {uid : UserID}
    {u : User} (hu : mapGet uid st.users = some u) (hina : u.IsActive = false)
    {prID : PullRequestID} {pr0 : PullRequest} (hpr : mapGet prID st.prs = some pr0)
    {y : UserID}
    (hy : y ∈ (PRService.reassignFiltered pr0 uid (st.activeInTeam u.TeamName)).map
      (fun x => x.ID))
    {d : UserID} (hd : st.Settled d) :
    FakeStore.Settled
      { st with
        prs := mapSet prID
          { pr0 with AssignedReviewers := PRService.replaceFirst uid y pr0.AssignedReviewers }
          st.prs } d := by
  intro ud hud
  obtain ⟨hdina, hall⟩ := hd ud hud
  refine ⟨hdina, ?_⟩
  intro k pr hk hopen hin x hx
  have hx0 : x ∈ st.activeInTeam ud.TeamName := hx
  have hk1 : mapGet k (mapSet prID
      { pr0 with AssignedReviewers := PRService.replaceFirst uid y pr0.AssignedReviewers }
      st.prs) = some pr := hk
  by_cases hkp : k = prID
  · subst hkp
    rw [mapGet_mapSet_self] at hk1
    simp only [Option.some.injEq] at hk1
    subst hk1
    obtain ⟨z, hz, rfl⟩ := List.mem_map.mp hy
    obtain ⟨hzact, -, -, -⟩ := PRService.mem_reassignFiltered.mp hz
    rcases PRService.mem_of_mem_replaceFirst hin with h1 | h1
    · exact absurd h1.symm (FakeStore.active_id_ne_inactive husers hud hdina hzact)
    · rcases hall k pr0 hpr hopen h1 x hx0 with h2 | h2
      · exact Or.inl h2
      · exact Or.inr (PRService.mem_replaceFirst_of_ne h2
          (FakeStore.active_id_ne_inactive husers hu hina hx0))
  · rw [mapGet_mapSet_ne _ _ hkp] at hk1
    exact hall k pr hk1 hopen hin x hx0

/-- In a consistent store, what `ListByReviewer uid` returns starts the inner
loop for the deactivated user `uid`. -/
theorem FakeStore.InProgress_start {st : FakeStore} (hwf : st.WF) {uid : UserID} {u : User}
    (hu : mapGet uid st.users = some u) (hina : u.IsActive = false) :
    ∃ ps, FakeStore.ListByReviewer uid st = (.ok ps, st) ∧ st.InProgress uid u ps := by
  obtain ⟨ps, hps, hnd, -⟩ := FakeStore.ListByReviewer_listed uid st hwf
  refine ⟨ps, hps, hu, hina, hnd, ?_, ?_⟩
  · have hps1 : ps = ((st.prs.map Prod.snd).filter
        (fun pr => pr.AssignedReviewers.any (fun rID => rID == uid))).map
        (fun pr => { ID := pr.ID, Name := pr.Name, AuthorID := pr.AuthorID,
                     Status := pr.Status }) := by
      have := congrArg Prod.fst hps
      simp only [FakeStore.ListByReviewer, Except.ok.injEq] at this
      exact this.symm
    intro p hp
    rw [hps1] at hp
    obtain ⟨pr, hprm, rfl⟩ := List.mem_map.mp hp
    obtain ⟨hprm1, hany⟩ := List.mem_filter.mp hprm
    obtain ⟨e, he, rfl⟩ := List.mem_map.mp hprm1
    have hk : e.2.ID = e.1 := hwf.2 e he
    refine ⟨e.2, ?_, rfl, ?_⟩
    · show mapGet e.2.ID st.prs = some e.2
      rw [hk]
      exact mapGet_of_mem hwf.1 he
    · obtain ⟨x, hx, hxe⟩ := List.any_eq_true.mp hany
      have : x = uid := by simpa using hxe
      exact this ▸ hx
  · intro k pr hk _ hin
    right
    have hps1 : ps = ((st.prs.map Prod.snd).filter
        (fun pr => pr.AssignedReviewers.any (fun rID => rID == uid))).map
        (fun pr => { ID := pr.ID, Name := pr.Name, AuthorID := pr.AuthorID,
                     Status := pr.Status }) := by
      have := congrArg Prod.fst hps
      simp only [FakeStore.ListByReviewer, Except.ok.injEq] at this
      exact this.symm
    have hmem : (k, pr) ∈ st.prs := mem_of_mapGet hk
    have hid : pr.ID = k := hwf.2 _ hmem
    rw [hps1, List.map_map]
    refine List.mem_map.mpr ⟨pr, List.mem_filter.mpr ⟨List.mem_map.mpr ⟨_, hmem, rfl⟩, ?_⟩, hid⟩
    exact List.any_eq_true.mpr ⟨uid, hin, by simp⟩

/-- One visit of the inner loop: after `Reassign` of the first listed pull
request (or after skipping it when it is not OPEN), the invariants hold for
the rest of the list. -/
theorem memService_reassign_step {ρ : Type} (rnd : Rand ρ) (done : List UserID)
    (uid : UserID) (u : User) (p : PullRequestShort) (rest : List PullRequestShort)
    (w : World FakeStore ρ) (hinv : w.store.BulkInv done)
    (hprog : w.store.InProgress uid u (p :: rest)) :
    (p.Status ≠ PRStatusOpen → w.store.InProgress uid u rest) ∧
    (p.Status = PRStatusOpen →
      ((memService rnd).Reassign p.ID uid w).2.store.BulkInv done ∧
      ((memService rnd).Reassign p.ID uid w).2.store.InProgress uid u rest ∧
      (((memService rnd).Reassign p.ID uid w).1 = .error .ErrNoCandidate ∨
        ∃ x, ((memService rnd).Reassign p.ID uid w).1 = .ok x)) := by
  obtain ⟨hwf, husers, hdist, hsettled⟩ := hinv
  obtain ⟨hu, hina, hnd, hlisted, hall⟩ := hprog
  simp only [List.map_cons, List.nodup_cons] at hnd
  obtain ⟨hp, hndr⟩ := hnd
  obtain ⟨pr0, hpr0, hst0, hin0⟩ := hlisted p (List.mem_cons_self _ _)
  have hrestne : ∀ q ∈ rest, q.ID ≠ p.ID := by
    intro q hq hqp
    apply hp
    rw [← hqp]
    exact List.mem_map.mpr ⟨q, hq, rfl⟩
  constructor
  · intro hnotopen
    refine ⟨hu, hina, hndr, fun q hq => hlisted q (List.mem_cons_of_mem _ hq), ?_⟩
    intro k pr hk hopen hin
    rcases hall k pr hk hopen hin with h | h
    · exact Or.inl h
    · rcases List.mem_cons.mp h with h1 | h1
      · exfalso
        rw [h1, hpr0] at hk
        simp only [Option.some.injEq] at hk
        rw [← hk, hst0] at hopen
        exact hnotopen hopen
      · exact Or.inr h1
  · intro hopen
    have hst : pr0.Status ≠ PRStatusMerged := by
      rw [hst0, hopen]
      exact PRStatusOpen_ne_Merged
    rcases memService_Reassign_listed rnd p.ID uid w pr0 u hpr0 hst hin0 hu with
      ⟨hpool, hres, hstore⟩ | ⟨y, hy, hres, hstore⟩
    · rw [hstore]
      refine ⟨⟨hwf, husers, hdist, hsettled⟩, ?_, Or.inl hres⟩
      refine ⟨hu, hina, hndr, fun q hq => hlisted q (List.mem_cons_of_mem _ hq), ?_⟩
      intro k pr hk hopen1 hin
      rcases hall k pr hk hopen1 hin with h | h
      · exact Or.inl h
      · rcases List.mem_cons.mp h with h1 | h1
        · left
          rw [h1, hpr0] at hk
          simp only [Option.some.injEq] at hk
          subst hk
          intro x hx
          by_contra hcon
          push_neg at hcon
          have hxu : x.ID ≠ uid := FakeStore.active_id_ne_inactive husers hu hina hx
          have : x ∈ PRService.reassignFiltered pr0 uid (w.store.activeInTeam u.TeamName) :=
            PRService.mem_reassignFiltered.mpr ⟨hx, hxu, hcon.1, hcon.2⟩
          rw [hpool] at this
          simp at this
        · exact Or.inr h1
    · rw [hstore]
      obtain ⟨z, hz, hzy⟩ := List.mem_map.mp hy
      obtain ⟨-, hzu, -, hzr⟩ := PRService.mem_reassignFiltered.mp hz
      have hyu : y ≠ uid := hzy ▸ hzu
      have hyr : y ∉ pr0.AssignedReviewers := hzy ▸ hzr
      have hnd0 : pr0.AssignedReviewers.Nodup := hdist _ _ hpr0
      refine ⟨⟨?_, husers, ?_, ?_⟩, ?_, Or.inr ⟨_, hres⟩⟩
      · exact FakeStore.WF_mapSet
          { pr0 with
            AssignedReviewers := PRService.replaceFirst uid y pr0.AssignedReviewers }
          hwf hpr0 rfl w.store.users
      · intro k pr hk
        have hk1 : mapGet k (mapSet p.ID
            { pr0 with
              AssignedReviewers := PRService.replaceFirst uid y pr0.AssignedReviewers }
            w.store.prs) = some pr := hk
        by_cases hkp : k = p.ID
        · rw [hkp, mapGet_mapSet_self] at hk1
          simp only [Option.some.injEq] at hk1
          rw [← hk1]
          exact PRService.nodup_replaceFirst hnd0 hyr
        · rw [mapGet_mapSet_ne _ _ hkp] at hk1
          exact hdist k pr hk1
      · intro d hd
        exact FakeStore.Settled_replace husers hu hina hpr0 hy (hsettled d hd)
      · refine ⟨hu, hina, hndr, ?_, ?_⟩
        · intro q hq
          obtain ⟨pr, h1, h2, h3⟩ := hlisted q (List.mem_cons_of_mem _ hq)
          refine ⟨pr, ?_, h2, h3⟩
          show mapGet q.ID (mapSet p.ID _ w.store.prs) = some pr
          rw [mapGet_mapSet_ne _ _ (hrestne q hq)]
          exact h1
        · intro k pr hk hopen1 hin
          have hk1 : mapGet k (mapSet p.ID
              { pr0 with
                AssignedReviewers := PRService.replaceFirst uid y pr0.AssignedReviewers }
              w.store.prs) = some pr := hk
          by_cases hkp : k = p.ID
          · exfalso
            rw [hkp, mapGet_mapSet_self] at hk1
            simp only [Option.some.injEq] at hk1
            rw [← hk1] at hin
            exact PRService.not_mem_replaceFirst_old hnd0 hyu hin
          · rw [mapGet_mapSet_ne _ _ hkp] at hk1
            rcases hall k pr hk1 hopen1 hin with h | h
            · exact Or.inl h
            · rcases List.mem_cons.mp h with h1 | h1
              · exact absurd h1 hkp
              · exact Or.inr h1

/-- The inner loop of the bulk operation keeps the invariant of the outer loop
and ends with every OPEN pull request that `uid` still reviews having no
possible replacement. -/
theorem memService_reassignOpen_settles {ρ : Type} (rnd : Rand ρ) (done : List UserID)
    (uid : UserID) (u : User) :
    ∀ (ps : List PullRequestShort) (w : World FakeStore ρ), w.store.BulkInv done →
      w.store.InProgress uid u ps →
      ((memService rnd).reassignOpen uid ps w).1 = .ok () ∧
      ((memService rnd).reassignOpen uid ps w).2.store.BulkInv done ∧
      ((memService rnd).reassignOpen uid ps w).2.store.InProgress uid u [] := by
  intro ps
  induction ps with
  | nil =>
    intro w hinv hprog
    exact ⟨rfl, hinv, hprog⟩
  | cons p rest ih =>
    intro w hinv hprog
    obtain ⟨hskip, hvisit⟩ := memService_reassign_step rnd done uid u p rest w hinv hprog
    rw [PRService.reassignOpen_cons]
    by_cases hopen : p.Status = PRStatusOpen
    swap
    · have hb : (p.Status != PRStatusOpen) = true := by simpa using hopen
      simp only [hb, if_true]
      exact ih w hinv (hskip hopen)
    have hb : (p.Status != PRStatusOpen) = false := by simpa using hopen
    simp only [hb, Bool.false_eq_true, if_false]
    obtain ⟨hinv1, hprog1, hres⟩ := hvisit hopen
    have hrec := ih ((memService rnd).Reassign p.ID uid w).2 hinv1 hprog1
    rcases hR : (memService rnd).Reassign p.ID uid w with ⟨res, w1⟩
    rw [hR] at hres hrec
    rcases hres with he | ⟨x, hx⟩
    · simp only at he
      subst he
      simpa using hrec
    · simp only at hx
      subst hx
      simpa using hrec

/-- The bulk operation over a consistent in-memory store with distinct
reviewers settles every user it is given. -/
theorem memService_Bulk_settles {ρ : Type} (rnd : Rand ρ) :
    ∀ (ids : List UserID) (w : World FakeStore ρ) (done : List UserID),
      w.store.BulkInv done →
      ((memService rnd).BulkDeactivateAndReassign ids w).2.store.BulkInv (ids ++ done) := by
  intro ids
  induction ids with
  | nil => intro w done h; exact h
  | cons uid rest ih =>
    intro w done hinv
    have hfinal : ∀ st : FakeStore, st.BulkInv (rest ++ uid :: done) →
        st.BulkInv (uid :: rest ++ done) := by
      intro st h
      refine ⟨h.1, h.2.1, h.2.2.1, ?_⟩
      intro d hd
      apply h.2.2.2 d
      simp only [List.cons_append, List.mem_cons, List.mem_append] at hd ⊢
      tauto
    apply hfinal
    rw [PRService.Bulk_cons]
    simp only [Eff.call_run]
    obtain ⟨hwf, husers, hdist, hsettled⟩ := hinv
    rcases hu0 : mapGet uid w.store.users with _ | u0
    · have hG : (memService rnd).Users.GetByID uid w.store = (.error .ErrNotFound, w.store) := by
        show FakeStore.GetByID uid w.store = _
        simp [FakeStore.GetByID, hu0]
      simp only [hG, if_true]
      apply ih
      refine ⟨hwf, husers, hdist, ?_⟩
      intro d hd
      rcases List.mem_cons.mp hd with h1 | h1
      · intro ud hud
        have hud1 : mapGet d w.store.users = some ud := hud
        rw [h1, hu0] at hud1
        simp at hud1
      · exact hsettled d h1
    · have hG : (memService rnd).Users.GetByID uid w.store = (.ok u0, w.store) := by
        show FakeStore.GetByID uid w.store = _
        simp [FakeStore.GetByID, hu0]
      have hS : (memService rnd).Users.SetIsActive uid false w.store
          = (.ok { u0 with IsActive := false },
              { w.store with
                users := mapSet uid { u0 with IsActive := false } w.store.users }) := by
        show FakeStore.SetIsActive uid false w.store = _
        simp [FakeStore.SetIsActive, hu0]
      have hinv2 : FakeStore.BulkInv
          { w.store with users := mapSet uid { u0 with IsActive := false } w.store.users }
          done :=
        ⟨hwf, FakeStore.UsersWF_setInactive husers hu0, hdist,
          fun d hd => FakeStore.Settled_setInactive hu0 (hsettled d hd)⟩
      obtain ⟨ps, hLr, hprog⟩ := FakeStore.InProgress_start hinv2.1
        (mapGet_mapSet_self uid { u0 with IsActive := false } w.store.users) rfl
      have hLr2 : (memService rnd).Prs.ListByReviewer uid
          { w.store with users := mapSet uid { u0 with IsActive := false } w.store.users }
          = (.ok ps, { w.store with
              users := mapSet uid { u0 with IsActive := false } w.store.users }) := hLr
      simp only [hG, hS, hLr2]
      obtain ⟨hok, hinv3, hprog3⟩ := memService_reassignOpen_settles rnd done uid
        { u0 with IsActive := false } ps
        { store := { w.store with
            users := mapSet uid { u0 with IsActive := false } w.store.users },
          rand := w.rand,
          log := w.log ++ [Event.GetByID uid (.ok u0)] ++
            [Event.SetIsActive uid false (.ok { u0 with IsActive := false })] ++
            [Event.ListByReviewer uid (.ok ps)] }
        hinv2 hprog
      rcases hR : (memService rnd).reassignOpen uid ps
        { store := { w.store with
            users := mapSet uid { u0 with IsActive := false } w.store.users },
          rand := w.rand,
          log := w.log ++ [Event.GetByID uid (.ok u0)] ++
            [Event.SetIsActive uid false (.ok { u0 with IsActive := false })] ++
            [Event.ListByReviewer uid (.ok ps)] } with ⟨res, w4⟩
      rw [hR] at hok hinv3 hprog3
      simp only at hok hinv3 hprog3
      subst hok
      simp only
      apply ih
      refine ⟨hinv3.1, hinv3.2.1, hinv3.2.2.1, ?_⟩
      intro d hd
      rcases List.mem_cons.mp hd with h1 | h1
      · obtain ⟨hu4, hina4, -, -, hall4⟩ := hprog3
        intro ud hud
        have hud1 : mapGet d w4.store.users = some ud := hud
        rw [h1, hu4] at hud1
        simp only [Option.some.injEq] at hud1
        subst hud1
        refine ⟨hina4, ?_⟩
        intro k pr hk hopen hin
        rcases hall4 k pr hk hopen (h1 ▸ hin) with h | h
        · exact h
        · simp at h
      · exact hinv3.2.2.2 d h1

/-- The bulk operation keeps every user record and its team. -/
theorem memService_Bulk_keeps_teams {ρ : Type} (rnd : Rand ρ) (ids : List UserID)
    (w : World FakeStore ρ) (uid : UserID) (u : User)
    (hu : mapGet uid w.store.users = some u) :
    ∃ u1, mapGet uid ((memService rnd).BulkDeactivateAndReassign ids w).2.store.users
        = some u1 ∧ u1.TeamName = u.TeamName := by
  refine memService_Bulk_invariant rnd
    (fun st => ∃ u1, mapGet uid st.users = some u1 ∧ u1.TeamName = u.TeamName)
    ?_ ?_ ids w ⟨u, hu, rfl⟩
  · rintro st v u0 ⟨u1, h1, h2⟩ hv
    by_cases hvu : uid = v
    · subst hvu
      rw [h1] at hv
      simp only [Option.some.injEq] at hv
      subst hv
      exact ⟨{ u1 with IsActive := false }, mapGet_mapSet_self _ _ _, h2⟩
    · refine ⟨u1, ?_, h2⟩
      show mapGet uid (mapSet v _ st.users) = some u1
      rw [mapGet_mapSet_ne _ _ hvu]
      exact h1
  · rintro w1 prID v ⟨u1, h1, h2⟩
    refine ⟨u1, ?_, h2⟩
    rcases memService_Reassign_store rnd prID v w1 with hs | ⟨_, _, _, -, -, -, -, -, hs⟩
    · rw [hs]; exact h1
    · rw [hs]; exact h1

/-! ## Bulk deactivation reassigns wherever possible -/

/-- C11: over the in-memory repositories, in a consistent store (pull requests
and users stored once and under their own ID) in which every pull request has
pairwise distinct reviewers, `BulkDeactivateAndReassign` returns no error, and
afterwards, for every listed user `uid` that had a record `u` and every stored
OPEN pull request that still has `uid` among its reviewers, every user that
`ListActiveByTeam` returns for the team of `u` is the author of that pull
request or one of its current reviewers: no replacement is possible there. -/
theorem Bulk_leaves_only_unreplaceable_reviewers {ρ : Type} (rnd : Rand ρ)
    (userIDs : List UserID) (w : World FakeStore ρ) (hwf : w.store.WF)
    (husers : w.store.UsersWF) (hnd : ∀ e ∈ w.store.prs, e.2.AssignedReviewers.Nodup) :
    ((memService rnd).BulkDeactivateAndReassign userIDs w).1 = .ok () ∧
    ∀ uid ∈ userIDs, ∀ u, (fakeUserRepo.GetByID uid w.store).1 = .ok u →
      ∀ k pr,
        (fakePRRepo.Get k
          ((memService rnd).BulkDeactivateAndReassign userIDs w).2.store).1 = .ok pr →
        pr.Status = PRStatusOpen → uid ∈ pr.AssignedReviewers →
        ∃ xs,
          (fakeUserRepo.ListActiveByTeam u.TeamName
            ((memService rnd).BulkDeactivateAndReassign userIDs w).2.store).1 = .ok xs ∧
          ∀ x ∈ xs, x.ID = pr.AuthorID ∨ x.ID ∈ pr.AssignedReviewers := by
  refine ⟨(memService_Bulk_ok rnd userIDs w hwf).1, ?_⟩
  intro uid huid u hu k pr hk hopen hin
  have hu0 : mapGet uid w.store.users = some u := (FakeStore.GetByID_ok_iff _ _ _).mp hu
  have hk0 := (FakeStore.Get_ok_iff _ _ _).mp hk
  have hinv0 : w.store.BulkInv [] :=
    ⟨hwf, husers, fun k1 pr1 h1 => hnd (k1, pr1) (mem_of_mapGet h1),
      fun d hd => absurd hd (List.not_mem_nil d)⟩
  obtain ⟨-, -, -, hsettled⟩ := memService_Bulk_settles rnd userIDs w [] hinv0
  obtain ⟨u1, hu1, hteam⟩ := memService_Bulk_keeps_teams rnd userIDs w uid u hu0
  obtain ⟨-, hall⟩ := hsettled uid (by simpa using huid) u1 hu1
  refine ⟨_, rfl, ?_⟩
  intro x hx
  have hx1 : x ∈ ((memService rnd).BulkDeactivateAndReassign userIDs w).2.store.activeInTeam
      u1.TeamName := by
    rw [hteam]
    exact hx
  exact hall k pr hk0 hopen hin x hx1

theorem Bulk_leaves_only_unreplaceable_reviewers_witness :
    exWorldSmall.store.WF ∧ exWorldSmall.store.UsersWF ∧
    (∀ e ∈ exWorldSmall.store.prs, e.2.AssignedReviewers.Nodup) ∧
    (fakePRRepo.Get "p"
      (fakeService.BulkDeactivateAndReassign ["ghost", "b"] exWorldSmall).2.store).1
        = .ok exPRSmall ∧
    (fakeService.BulkDeactivateAndReassign ["ghost", "b"] exWorldSmall).1 = .ok () ∧
    ∀ uid ∈ ["ghost", "b"], ∀ u, (fakeUserRepo.GetByID uid exWorldSmall.store).1 = .ok u →
      ∀ k pr,
        (fakePRRepo.Get k
          (fakeService.BulkDeactivateAndReassign ["ghost", "b"] exWorldSmall).2.store).1
            = .ok pr →
        pr.Status = PRStatusOpen → uid ∈ pr.AssignedReviewers →
        ∃ xs,
          (fakeUserRepo.ListActiveByTeam u.TeamName
            (fakeService.BulkDeactivateAndReassign ["ghost", "b"] exWorldSmall).2.store).1
              = .ok xs ∧
          ∀ x ∈ xs, x.ID = pr.AuthorID ∨ x.ID ∈ pr.AssignedReviewers :=
  ⟨⟨by decide, by decide⟩, ⟨by decide, by decide⟩, by decide, rfl,
    Bulk_leaves_only_unreplaceable_reviewers descendingRand ["ghost", "b"] exWorldSmall
      ⟨by decide, by decide⟩ ⟨by decide, by decide⟩ (by decide)⟩

/-! ## Team onboarding: helper lemmas -/

/-- Run of `AddTeam` for a name that `TeamExists` reports as registered. -/
theorem TeamService.AddTeam_run_registered {σ ρ : Type} (s : TeamService σ) (name : TeamName)
    (members : List User) (w : World σ ρ) (st1 : σ)
    (hEx : s.teams.TeamExists name w.store = (.ok true, st1)) :
    s.AddTeam name members w =
      (.error .ErrTeamExists,
        { store := st1, rand := w.rand, log := w.log ++ [Event.TeamExists name (.ok true)] }) := by
  unfold TeamService.AddTeam
  simp only [Eff.bind_run, Eff.call_run, hEx, if_true]
  rfl

/-- Run of `AddTeam` for a name that `TeamExists` reports as new, up to the
call of `CreateTeam`. -/
theorem TeamService.AddTeam_run_create_error {σ ρ : Type} (s : TeamService σ) (name : TeamName)
    (members : List User) (w : World σ ρ) (st1 st2 : σ) (e : Err)
    (hEx : s.teams.TeamExists name w.store = (.ok false, st1))
    (hCr : s.teams.CreateTeam name st1 = (.error e, st2)) :
    s.AddTeam name members w =
      (.error e,
        { store := st2, rand := w.rand,
          log := w.log ++ [Event.TeamExists name (.ok false), Event.CreateTeam name (.error e)] }) := by
  unfold TeamService.AddTeam
  simp only [Eff.bind_run, Eff.call_run, hEx, Bool.false_eq_true, if_false, hCr]
  simp

/-- Run of `AddTeam` for a new name after `CreateTeam` succeeded. -/
theorem TeamService.AddTeam_run_created {σ ρ : Type} (s : TeamService σ) (name : TeamName)
    (members : List User) (w : World σ ρ) (st1 st2 : σ)
    (hEx : s.teams.TeamExists name w.store = (.ok false, st1))
    (hCr : s.teams.CreateTeam name st1 = (.ok (), st2)) :
    s.AddTeam name members w =
      (match (s.users.UpsertUsers (TeamService.stamp name members) st2).1 with
        | .error e =>
          (.error e,
            { store := (s.users.UpsertUsers (TeamService.stamp name members) st2).2,
              rand := w.rand,
              log := w.log ++ [Event.TeamExists name (.ok false), Event.CreateTeam name (.ok ()),
                Event.UpsertUsers (TeamService.stamp name members) (.error e)] })
        | .ok _ =>
          ((s.teams.GetTeam name
              (s.users.UpsertUsers (TeamService.stamp name members) st2).2).1,
            { store := (s.teams.GetTeam name
                (s.users.UpsertUsers (TeamService.stamp name members) st2).2).2,
              rand := w.rand,
              log := w.log ++ [Event.TeamExists name (.ok false), Event.CreateTeam name (.ok ()),
                Event.UpsertUsers (TeamService.stamp name members) (.ok ()),
                Event.GetTeam name (s.teams.GetTeam name
                  (s.users.UpsertUsers (TeamService.stamp name members) st2).2).1] })) := by
  unfold TeamService.AddTeam
  simp only [Eff.bind_run, Eff.call_run, hEx, Bool.false_eq_true, if_false, hCr]
  rcases hU : s.users.UpsertUsers (TeamService.stamp name members) st2 with ⟨rU, st3⟩
  rcases rU with e | u
  · simp
  · simp only
    rcases hG : s.teams.GetTeam name st3 with ⟨rG, st4⟩
    rcases rG with e | t
    · simp
    · simp [Eff.pure_run]

/-- The run of a successful `AddTeam`, call by call. -/
theorem TeamService.AddTeam_ok_inv {σ ρ : Type} (s : TeamService σ) (name : TeamName)
    (members : List User) (w w1 : World σ ρ) (team : Team)
    (h : s.AddTeam name members w = (.ok team, w1)) :
    ∃ st1 st2 st3 : σ,
      s.teams.TeamExists name w.store = (.ok false, st1) ∧
      s.teams.CreateTeam name st1 = (.ok (), st2) ∧
      s.users.UpsertUsers (TeamService.stamp name members) st2 = (.ok (), st3) ∧
      s.teams.GetTeam name st3 = (.ok team, w1.store) ∧
      w1.rand = w.rand ∧
      w1.log = w.log ++ [Event.TeamExists name (.ok false), Event.CreateTeam name (.ok ()),
        Event.UpsertUsers (TeamService.stamp name members) (.ok ()),
        Event.GetTeam name (.ok team)] := by
  rcases hEx : s.teams.TeamExists name w.store with ⟨rE, st1⟩
  rcases rE with e | b
  · unfold TeamService.AddTeam at h
    simp [Eff.bind_run, Eff.call_run, hEx] at h
  cases b
  swap
  · rw [s.AddTeam_run_registered name members w st1 hEx] at h
    simp at h
  rcases hCr : s.teams.CreateTeam name st1 with ⟨rC, st2⟩
  rcases rC with e | u
  · rw [s.AddTeam_run_create_error name members w st1 st2 e hEx hCr] at h
    simp at h
  rw [s.AddTeam_run_created name members w st1 st2 hEx hCr] at h
  rcases hU : s.users.UpsertUsers (TeamService.stamp name members) st2 with ⟨rU, st3⟩
  rw [hU] at h
  rcases rU with e | u
  · simp at h
  simp only at h
  rcases hG : s.teams.GetTeam name st3 with ⟨rG, st4⟩
  rw [hG] at h
  simp only [Prod.mk.injEq] at h
  obtain ⟨hr, hw⟩ := h
  subst hr
  subst hw
  exact ⟨st1, st2, st3, rfl, hCr, hU, hG, rfl, rfl⟩

theorem TeamService.length_stamp (name : TeamName) (members : List User) :
    (TeamService.stamp name members).length = members.length := by
  simp [TeamService.stamp]

theorem TeamService.stamp_getElem? (name : TeamName) (members : List User) (i : Nat) :
    (TeamService.stamp name members)[i]? =
      (members[i]?).map (fun u => { u with TeamName := name }) := by
  simp [TeamService.stamp]

/-! ## Team onboarding: the claims -/

/-- C21: when `TeamExists` reports the team name as registered, `AddTeam` fails
with `ErrTeamExists`; the one repository call it makes is that `TeamExists`, so
it calls neither `CreateTeam` nor `UpsertUsers`, and it leaves the store as
`TeamExists` left it. -/
theorem AddTeam_registered_name_fails {σ ρ : Type} (s : TeamService σ) (name : TeamName)
    (members : List User) (w : World σ ρ) (st1 : σ)
    (hEx : s.teams.TeamExists name w.store = (.ok true, st1)) :
    (s.AddTeam name members w).1 = .error .ErrTeamExists ∧
    (s.AddTeam name members w).2.log = w.log ++ [Event.TeamExists name (.ok true)] ∧
    (∀ ev ∈ (s.AddTeam name members w).2.log, ev ∈ w.log ∨ ev.isMutating = false) ∧
    (s.AddTeam name members w).2.store = st1 := by
  rw [s.AddTeam_run_registered name members w st1 hEx]
  refine ⟨rfl, rfl, ?_, rfl⟩
  intro ev hev
  simp only [List.mem_append, List.mem_singleton] at hev
  rcases hev with h | h
  · exact Or.inl h
  · exact Or.inr (by rw [h]; rfl)

theorem AddTeam_registered_name_fails_witness :
    postgresTeamService.teams.TeamExists "backend" exPgWorld0.store
      = (.ok true, exPgWorld0.store) ∧
    ((postgresTeamService.AddTeam "backend" [⟨"u5", "Eve", "", true⟩] exPgWorld0).1
        = .error .ErrTeamExists ∧
      (postgresTeamService.AddTeam "backend" [⟨"u5", "Eve", "", true⟩] exPgWorld0).2.log
        = exPgWorld0.log ++ [Event.TeamExists "backend" (.ok true)] ∧
      (∀ ev ∈ (postgresTeamService.AddTeam "backend" [⟨"u5", "Eve", "", true⟩] exPgWorld0).2.log,
        ev ∈ exPgWorld0.log ∨ ev.isMutating = false) ∧
      (postgresTeamService.AddTeam "backend" [⟨"u5", "Eve", "", true⟩] exPgWorld0).2.store
        = exPgWorld0.store) :=
  ⟨by rfl,
    AddTeam_registered_name_fails postgresTeamService "backend" [⟨"u5", "Eve", "", true⟩]
      exPgWorld0 exPgWorld0.store (by rfl)⟩

/-- C22: for a team name that `TeamExists` reports as new, `AddTeam` calls
`UpsertUsers` once `CreateTeam` has succeeded, exactly once, and its argument
is the list of the supplied members in the same number and order, each with
`TeamName` set to the new name and `ID`, `Username` and `IsActive` as supplied;
when `CreateTeam` fails, `AddTeam` stops there and calls `UpsertUsers` not at
all. -/
theorem AddTeam_upserts_stamped_members {σ ρ : Type} (s : TeamService σ) (name : TeamName)
    (members : List User) (w : World σ ρ) (st1 : σ)
    (hEx : s.teams.TeamExists name w.store = (.ok false, st1)) :
    (∀ st2, s.teams.CreateTeam name st1 = (.ok (), st2) →
      ∃ (us : List User) (res : Except Err Unit) (rest : List Event),
        (s.AddTeam name members w).2.log =
          w.log ++ [Event.TeamExists name (.ok false), Event.CreateTeam name (.ok ()),
            Event.UpsertUsers us res] ++ rest ∧
        (∀ ev ∈ rest, ∃ r, ev = Event.GetTeam name r) ∧
        us.length = members.length ∧
        ∀ (i : Nat) (m : User), members[i]? = some m →
          ∃ u, us[i]? = some u ∧ u.TeamName = name ∧ u.ID = m.ID ∧
            u.Username = m.Username ∧ u.IsActive = m.IsActive) ∧
    (∀ e st2, s.teams.CreateTeam name st1 = (.error e, st2) →
      (s.AddTeam name members w).2.log =
        w.log ++ [Event.TeamExists name (.ok false), Event.CreateTeam name (.error e)]) := by
  constructor
  · intro st2 hCr
    have hrun := s.AddTeam_run_created name members w st1 st2 hEx hCr
    refine ⟨TeamService.stamp name members,
      (s.users.UpsertUsers (TeamService.stamp name members) st2).1, ?_⟩
    rcases hU : (s.users.UpsertUsers (TeamService.stamp name members) st2).1 with e | u
    · refine ⟨[], ?_, ?_, TeamService.length_stamp name members, ?_⟩
      · rw [hrun, hU]
        simp
      · intro ev hev
        simp at hev
      · intro i m hm
        refine ⟨{ m with TeamName := name }, ?_, rfl, rfl, rfl, rfl⟩
        rw [TeamService.stamp_getElem?, hm]
        rfl
    · refine ⟨[Event.GetTeam name (s.teams.GetTeam name
          (s.users.UpsertUsers (TeamService.stamp name members) st2).2).1], ?_, ?_,
        TeamService.length_stamp name members, ?_⟩
      · rw [hrun, hU]
        simp
      · intro ev hev
        exact ⟨_, List.mem_singleton.mp hev⟩
      · intro i m hm
        refine ⟨{ m with TeamName := name }, ?_, rfl, rfl, rfl, rfl⟩
        rw [TeamService.stamp_getElem?, hm]
        rfl
  · intro e st2 hCr
    rw [s.AddTeam_run_create_error name members w st1 st2 e hEx hCr]

theorem AddTeam_upserts_stamped_members_witness :
    fakeTeamService.teams.TeamExists "backend" exTeamWorld0.store
      = (.ok false, exTeamWorld0.store) ∧
    ((∀ st2, fakeTeamService.teams.CreateTeam "backend" exTeamWorld0.store = (.ok (), st2) →
      ∃ (us : List User) (res : Except Err Unit) (rest : List Event),
        (fakeTeamService.AddTeam "backend" exMembers exTeamWorld0).2.log =
          exTeamWorld0.log ++ [Event.TeamExists "backend" (.ok false),
            Event.CreateTeam "backend" (.ok ()), Event.UpsertUsers us res] ++ rest ∧
        (∀ ev ∈ rest, ∃ r, ev = Event.GetTeam "backend" r) ∧
        us.length = exMembers.length ∧
        ∀ (i : Nat) (m : User), exMembers[i]? = some m →
          ∃ u, us[i]? = some u ∧ u.TeamName = "backend" ∧ u.ID = m.ID ∧
            u.Username = m.Username ∧ u.IsActive = m.IsActive) ∧
    (∀ e st2, fakeTeamService.teams.CreateTeam "backend" exTeamWorld0.store = (.error e, st2) →
      (fakeTeamService.AddTeam "backend" exMembers exTeamWorld0).2.log =
        exTeamWorld0.log ++ [Event.TeamExists "backend" (.ok false),
          Event.CreateTeam "backend" (.error e)])) :=
  ⟨by rfl,
    AddTeam_upserts_stamped_members fakeTeamService "backend" exMembers exTeamWorld0
      exTeamWorld0.store (by rfl)⟩

/-! ## The relational team repository: helper lemmas -/

theorem mem_insertOrdered {α : Type} (le : α → α → Bool) (a x : α) (l : List α) :
    x ∈ insertOrdered le a l ↔ x = a ∨ x ∈ l := by
  induction l with
  | nil => simp [insertOrdered]
  | cons b rest ih =>
    unfold insertOrdered
    split
    · simp
    · simp only [List.mem_cons, ih]
      tauto

theorem mem_orderBy {α : Type} (le : α → α → Bool) (x : α) (l : List α) :
    x ∈ orderBy le l ↔ x ∈ l := by
  induction l with
  | nil => simp [orderBy]
  | cons b rest ih =>
    have : orderBy le (b :: rest) = insertOrdered le b (orderBy le rest) := rfl
    rw [this, mem_insertOrdered, ih]
    simp

theorem Postgres.UpsertUsers_eq (us : List User) (st : PgStore) :
    Postgres.UpsertUsers us st =
      (.ok (), { st with users := us.foldl Postgres.upsertRow st.users }) := rfl

theorem Postgres.mem_upsertRow_self (rows : List User) (u : User) :
    u ∈ Postgres.upsertRow rows u := by
  unfold Postgres.upsertRow
  split
  · rename_i h
    obtain ⟨r, hr, hid⟩ := List.any_eq_true.mp h
    exact List.mem_map.mpr ⟨r, hr, by simp [hid]⟩
  · simp

theorem Postgres.eq_of_mem_upsertRow {rows : List User} {u r : User}
    (hr : r ∈ Postgres.upsertRow rows u) (hid : r.ID = u.ID) : r = u := by
  unfold Postgres.upsertRow at hr
  split at hr
  · obtain ⟨r0, -, h0⟩ := List.mem_map.mp hr
    by_cases hc : r0.ID = u.ID
    · simp [hc] at h0
      exact h0.symm
    · have hb : (r0.ID == u.ID) = false := by simpa using hc
      simp only [hb, Bool.false_eq_true, if_false] at h0
      exact absurd (h0 ▸ hid) hc
  · rename_i hany
    rcases List.mem_append.mp hr with h | h
    · exact absurd (List.any_eq_true.mpr ⟨r, h, by simp [hid]⟩) hany
    · exact List.mem_singleton.mp h

theorem Postgres.mem_upsertRow_of_ne {rows : List User} {u r : User} (hne : r.ID ≠ u.ID) :
    r ∈ Postgres.upsertRow rows u ↔ r ∈ rows := by
  unfold Postgres.upsertRow
  split
  · constructor
    · intro hr
      obtain ⟨r0, hr0, h0⟩ := List.mem_map.mp hr
      by_cases hc : r0.ID = u.ID
      · simp [hc] at h0
        exact absurd (h0 ▸ rfl) hne
      · have hb : (r0.ID == u.ID) = false := by simpa using hc
        simp only [hb, Bool.false_eq_true, if_false] at h0
        exact h0 ▸ hr0
    · intro hr
      refine List.mem_map.mpr ⟨r, hr, ?_⟩
      have hb : (r.ID == u.ID) = false := by simpa using hne
      simp [hb]
  · constructor
    · intro hr
      rcases List.mem_append.mp hr with h | h
      · exact h
      · exact absurd (by rw [List.mem_singleton.mp h]) hne
    · intro hr
      exact List.mem_append_left _ hr

theorem Postgres.mem_foldl_upsertRow_of_absent (us : List User) (rows : List User) (r : User)
    (h : ∀ u ∈ us, u.ID ≠ r.ID) :
    r ∈ us.foldl Postgres.upsertRow rows ↔ r ∈ rows := by
  induction us generalizing rows with
  | nil => simp
  | cons a rest ih =>
    rw [List.foldl_cons, ih _ (fun u hu => h u (List.mem_cons_of_mem _ hu))]
    exact Postgres.mem_upsertRow_of_ne (fun e => h a (List.mem_cons_self _ _) e.symm)

theorem lastWithID_eq_none {id : UserID} {us : List User} :
    lastWithID id us = none ↔ ∀ u ∈ us, u.ID ≠ id := by
  induction us with
  | nil => simp [lastWithID]
  | cons a rest ih =>
    unfold lastWithID
    rcases hrest : lastWithID id rest with _ | v
    · have hall := ih.mp hrest
      by_cases ha : a.ID = id
      · simp [ha]
      · have hb : (a.ID == id) = false := by simpa using ha
        simp only [hb, Bool.false_eq_true, if_false, true_iff]
        intro u hu
        rcases List.mem_cons.mp hu with h | h
        · exact h ▸ ha
        · exact hall u h
    · refine ⟨fun h => (by cases h), fun hall => ?_⟩
      have : lastWithID id rest = none :=
        ih.mpr (fun u hu => hall u (List.mem_cons_of_mem _ hu))
      rw [hrest] at this
      cases this

theorem lastWithID_some {id : UserID} {us : List User} {l : User}
    (h : lastWithID id us = some l) : l ∈ us ∧ l.ID = id := by
  induction us with
  | nil => simp [lastWithID] at h
  | cons a rest ih =>
    unfold lastWithID at h
    rcases hrest : lastWithID id rest with _ | v
    · rw [hrest] at h
      by_cases ha : a.ID = id
      · simp [ha] at h
        subst h
        exact ⟨List.mem_cons_self _ _, ha⟩
      · have hb : (a.ID == id) = false := by simpa using ha
        simp [hb] at h
    · rw [hrest] at h
      simp only [Option.some.injEq] at h
      subst h
      exact ⟨List.mem_cons_of_mem _ (ih hrest).1, (ih hrest).2⟩

theorem lastWithID_of_mem {us : List User} {u : User} (hu : u ∈ us) :
    ∃ l, lastWithID u.ID us = some l := by
  rcases h : lastWithID u.ID us with _ | l
  · exact absurd rfl (lastWithID_eq_none.mp h u hu)
  · exact ⟨l, rfl⟩

/-- After the upserts of `us`, the rows with the ID of one of `us` are all
equal to the last of `us` with that ID, and there is such a row. -/
theorem Postgres.foldl_upsertRow_last (us : List User) (rows : List User) (id : UserID)
    (l : User) (h : lastWithID id us = some l) :
    l ∈ us.foldl Postgres.upsertRow rows ∧
      ∀ r ∈ us.foldl Postgres.upsertRow rows, r.ID = id → r = l := by
  induction us generalizing rows with
  | nil => simp [lastWithID] at h
  | cons a rest ih =>
    rw [List.foldl_cons]
    unfold lastWithID at h
    rcases hrest : lastWithID id rest with _ | v
    · rw [hrest] at h
      have hall := lastWithID_eq_none.mp hrest
      by_cases ha : a.ID = id
      · simp [ha] at h
        subst h
        constructor
        · exact (Postgres.mem_foldl_upsertRow_of_absent rest _ a
            (fun u hu => ha ▸ hall u hu)).mpr (Postgres.mem_upsertRow_self rows a)
        · intro r hr hid
          have hr1 := (Postgres.mem_foldl_upsertRow_of_absent rest _ r
            (fun u hu => hid ▸ hall u hu)).mp hr
          exact Postgres.eq_of_mem_upsertRow hr1 (hid.trans ha.symm)
      · have hb : (a.ID == id) = false := by simpa using ha
        simp [hb] at h
    · rw [hrest] at h
      simp only [Option.some.injEq] at h
      subst h
      exact ih _ hrest

theorem lastWithID_stamp (id : UserID) (name : TeamName) (us : List User) :
    lastWithID id (TeamService.stamp name us) =
      (lastWithID id us).map (fun u => { u with TeamName := name }) := by
  induction us with
  | nil => rfl
  | cons a rest ih =>
    have hc : TeamService.stamp name (a :: rest) =
        { a with TeamName := name } :: TeamService.stamp name rest := rfl
    rw [hc]
    unfold lastWithID
    rw [ih]
    rcases lastWithID id rest with _ | v
    · by_cases ha : a.ID = id
      · simp [ha]
      · have hb : (a.ID == id) = false := by simpa using ha
        simp [hb]
    · simp

/-- What `AddTeam` of the relational team service returns when it succeeds:
the rows of `users` with the new team name after the upserts, by user ID. -/
theorem postgresTeamService_AddTeam_ok {ρ : Type} (name : TeamName) (members : List User)
    (w w1 : World PgStore ρ) (team : Team)
    (h : postgresTeamService.AddTeam name members w = (.ok team, w1)) :
    team =
      { Name := name
        Members := (orderBy (fun a b => textLE a.ID b.ID)
          (((TeamService.stamp name members).foldl Postgres.upsertRow w.store.users).filter
            (fun r => r.TeamName == name))).map
          (fun r => { ID := r.ID, Username := r.Username, TeamName := name,
                      IsActive := r.IsActive }) } := by
  obtain ⟨st1, st2, st3, h1, h2, h3, h4, -, -⟩ :=
    postgresTeamService.AddTeam_ok_inv name members w w1 team h
  simp only [postgresTeamService, postgresTeamRepo, Postgres.TeamExists, Prod.mk.injEq,
    Except.ok.injEq] at h1
  obtain ⟨hc, hst1⟩ := h1
  subst hst1
  simp only [postgresTeamService, postgresTeamRepo, Postgres.CreateTeam, hc,
    Bool.false_eq_true, if_false, Prod.mk.injEq, true_and] at h2
  subst h2
  simp only [postgresTeamService, postgresUserRepo, Postgres.UpsertUsers_eq, Prod.mk.injEq,
    true_and] at h3
  subst h3
  simp only [postgresTeamService, postgresTeamRepo, Postgres.GetTeam] at h4
  have hin : (w.store.teams ++ [name]).contains name = true := by simp
  simp only [hin, Bool.not_true, Bool.false_eq_true, if_false, Prod.mk.injEq,
    Except.ok.injEq] at h4
  exact h4.1.symm

/-- C23: a successful `AddTeam(name, members)` returns what `GetTeam(name)`
returns in the store left by `TeamExists`, `CreateTeam` and `UpsertUsers` of
the stamped members, in this order; over the relational repositories, whose
`GetTeam` lists the rows of `users` with that team name, the returned team has
`Name = name` and, for every supplied member, exactly one kind of entry with
its ID: the last supplied member with that ID, with `TeamName = name`. -/
theorem AddTeam_returns_refetched_team :
    (∀ (σ ρ : Type) (s : TeamService σ) (name : TeamName) (members : List User)
        (w w1 : World σ ρ) (team : Team),
      s.AddTeam name members w = (.ok team, w1) →
      ∃ st1 st2 st3 : σ,
        s.teams.TeamExists name w.store = (.ok false, st1) ∧
        s.teams.CreateTeam name st1 = (.ok (), st2) ∧
        s.users.UpsertUsers (TeamService.stamp name members) st2 = (.ok (), st3) ∧
        s.teams.GetTeam name st3 = (.ok team, w1.store)) ∧
    (∀ (ρ : Type) (name : TeamName) (members : List User) (w w1 : World PgStore ρ)
        (team : Team),
      postgresTeamService.AddTeam name members w = (.ok team, w1) →
      team.Name = name ∧
      ∀ u ∈ members, ∃ l, lastWithID u.ID members = some l ∧
        ({ l with TeamName := name } : User) ∈ team.Members ∧
        ∀ m ∈ team.Members, m.ID = u.ID → m = { l with TeamName := name }) := by
  constructor
  · intro σ ρ s name members w w1 team h
    obtain ⟨st1, st2, st3, h1, h2, h3, h4, -, -⟩ := s.AddTeam_ok_inv name members w w1 team h
    exact ⟨st1, st2, st3, h1, h2, h3, h4⟩
  · intro ρ name members w w1 team h
    have hteam := postgresTeamService_AddTeam_ok name members w w1 team h
    subst hteam
    refine ⟨rfl, ?_⟩
    intro u hu
    obtain ⟨l, hl⟩ := lastWithID_of_mem hu
    have hlid : l.ID = u.ID := (lastWithID_some hl).2
    have hls : lastWithID u.ID (TeamService.stamp name members)
        = some { l with TeamName := name } := by
      rw [lastWithID_stamp, hl]
      rfl
    obtain ⟨hmem, huniq⟩ :=
      Postgres.foldl_upsertRow_last (TeamService.stamp name members) w.store.users u.ID _ hls
    refine ⟨l, hl, ?_, ?_⟩
    · refine List.mem_map.mpr ⟨{ l with TeamName := name }, ?_, rfl⟩
      rw [mem_orderBy]
      exact List.mem_filter.mpr ⟨hmem, by simp⟩
    · intro m hm hid
      obtain ⟨r, hr, hrm⟩ := List.mem_map.mp hm
      rw [mem_orderBy] at hr
      obtain ⟨hr1, hr2⟩ := List.mem_filter.mp hr
      have hrid : r.ID = u.ID := by
        rw [← hrm] at hid
        exact hid
      have hrl := huniq r hr1 hrid
      rw [← hrm, hrl]

theorem AddTeam_returns_refetched_team_witness :
    postgresTeamService.AddTeam "payments" exNewMembers exPgWorld0 =
      (.ok { Name := "payments"
             Members := [⟨"u5", "Eva", "payments", false⟩, ⟨"u7", "Gus", "payments", true⟩] },
        (postgresTeamService.AddTeam "payments" exNewMembers exPgWorld0).2) ∧
    (({ Name := "payments"
        Members := [⟨"u5", "Eva", "payments", false⟩, ⟨"u7", "Gus", "payments", true⟩] }
        : Team).Name = "payments" ∧
      ∀ u ∈ exNewMembers, ∃ l, lastWithID u.ID exNewMembers = some l ∧
        ({ l with TeamName := "payments" } : User) ∈
          ({ Name := "payments"
             Members := [⟨"u5", "Eva", "payments", false⟩, ⟨"u7", "Gus", "payments", true⟩] }
            : Team).Members ∧
        ∀ m ∈ ({ Name := "payments"
                 Members := [⟨"u5", "Eva", "payments", false⟩,
                   ⟨"u7", "Gus", "payments", true⟩] } : Team).Members,
          m.ID = u.ID → m = { l with TeamName := "payments" }) :=
  ⟨by rfl,
    AddTeam_returns_refetched_team.2 Nat "payments" exNewMembers exPgWorld0 _ _ (by rfl)⟩

/-! ## The HTTP handlers: helper lemmas -/

theorem answerError_of_ne {σ ρ : Type} (respond : Err → Response) {err : Err}
    (herr : err ≠ .indexOutOfRange) (w : World σ ρ) :
    answerError respond err w = (.ok (respond err), w) := by
  unfold answerError
  simp [herr]

/-- Run of `handleTeamAdd` on a POST request with a team name, after `AddTeam`
returned an error value. -/
theorem Handler.handleTeamAdd_run_error {σ ρ : Type} (h : Handler σ ρ) (req : teamDTO)
    (w w1 : World σ ρ) (err : Err) (hname : req.TeamName ≠ "") (herr : err ≠ .indexOutOfRange)
    (hrun : h.teamService.AddTeam req.TeamName (teamAddMembers req) w = (.error err, w1)) :
    h.handleTeamAdd { Method := MethodPost, Body := some req } w
      = (.ok (teamAddError err), w1) := by
  have hb : (req.TeamName == "") = false := by simpa using hname
  unfold Handler.handleTeamAdd
  simp only [bne_self_eq_false, Bool.false_eq_true, if_false, hb, hrun]
  exact answerError_of_ne teamAddError herr w1

/-- Run of `handlePRCreate` on a POST request with its three fields, after
`Create` returned an error value. -/
theorem Handler.handlePRCreate_run_error {σ ρ : Type} (h : Handler σ ρ) (fmt : Time → String)
    (now : Time) (req : prCreateRequest) (w w1 : World σ ρ) (err : Err)
    (hid : req.PullRequestID ≠ "") (hname : req.PullRequestName ≠ "")
    (hauthor : req.AuthorID ≠ "") (herr : err ≠ .indexOutOfRange)
    (hrun : h.prService.Create req.PullRequestID req.PullRequestName req.AuthorID now w
      = (.error err, w1)) :
    h.handlePRCreate fmt now { Method := MethodPost, Body := some req } w
      = (.ok (prCreateError err), w1) := by
  have hb1 : (req.PullRequestID == "") = false := by simpa using hid
  have hb2 : (req.PullRequestName == "") = false := by simpa using hname
  have hb3 : (req.AuthorID == "") = false := by simpa using hauthor
  unfold Handler.handlePRCreate
  simp only [bne_self_eq_false, Bool.false_eq_true, if_false, hb1, hb2, hb3, Bool.or_self,
    hrun]
  exact answerError_of_ne prCreateError herr w1

/-- Run of `handlePRReassign` on a POST request with its two fields, after
`Reassign` returned an error value. -/
theorem Handler.handlePRReassign_run_error {σ ρ : Type} (h : Handler σ ρ)
    (fmt : Time → String) (req : prReassignRequest) (w w1 : World σ ρ) (err : Err)
    (hid : req.PullRequestID ≠ "") (hold : req.OldUserID ≠ "")
    (herr : err ≠ .indexOutOfRange)
    (hrun : h.prService.Reassign req.PullRequestID req.OldUserID w = (.error err, w1)) :
    h.handlePRReassign fmt { Method := MethodPost, Body := some req } w
      = (.ok (prReassignError err), w1) := by
  have hb1 : (req.PullRequestID == "") = false := by simpa using hid
  have hb2 : (req.OldUserID == "") = false := by simpa using hold
  unfold Handler.handlePRReassign
  simp only [bne_self_eq_false, Bool.false_eq_true, if_false, hb1, hb2, Bool.or_self, hrun]
  exact answerError_of_ne prReassignError herr w1

/-! ## The HTTP handlers: the claims -/

/-- C24, as amended: a pull-request-ID collision reported by `Create` is
answered on `/pullRequest/create` with status 409 and code `PR_EXISTS`; a
team-name collision reported by `AddTeam` is answered on `/team/add` with
status 400 and code `TEAM_EXISTS`. -/
theorem Already_exists_status_codes {σ ρ : Type} (h : Handler σ ρ) (fmt : Time → String)
    (now : Time) (w w1 : World σ ρ) :
    (∀ req : prCreateRequest,
      req.PullRequestID ≠ "" → req.PullRequestName ≠ "" → req.AuthorID ≠ "" →
      h.prService.Create req.PullRequestID req.PullRequestName req.AuthorID now w
        = (.error .ErrPullRequestExists, w1) →
      h.handlePRCreate fmt now { Method := MethodPost, Body := some req } w
        = (.ok { status := 409, allow := none,
                 body := .errorBody "PR_EXISTS" "PR id already exists" }, w1)) ∧
    (∀ req : teamDTO, req.TeamName ≠ "" →
      h.teamService.AddTeam req.TeamName (teamAddMembers req) w
        = (.error .ErrTeamExists, w1) →
      h.handleTeamAdd { Method := MethodPost, Body := some req } w
        = (.ok { status := 400, allow := none,
                 body := .errorBody "TEAM_EXISTS" "team_name already exists" }, w1)) := by
  constructor
  · intro req hid hname hauthor hrun
    rw [h.handlePRCreate_run_error fmt now req w w1 _ hid hname hauthor (by decide) hrun]
    rfl
  · intro req hname hrun
    rw [h.handleTeamAdd_run_error req w w1 _ hname (by decide) hrun]
    rfl

theorem Already_exists_status_codes_witness :
    ((("pr2" : String) ≠ "" ∧ ("PR 2 again" : String) ≠ "" ∧ ("u2" : String) ≠ "" ∧
        postgresHandler.prService.Create "pr2" "PR 2 again" "u2" 8 exPgWorld1
          = (.error .ErrPullRequestExists,
              (postgresHandler.prService.Create "pr2" "PR 2 again" "u2" 8 exPgWorld1).2)) ∧
      postgresHandler.handlePRCreate (fun t => toString t) 8
          { Method := MethodPost, Body := some ⟨"pr2", "PR 2 again", "u2"⟩ } exPgWorld1
        = (.ok { status := 409, allow := none,
                 body := .errorBody "PR_EXISTS" "PR id already exists" },
            (postgresHandler.prService.Create "pr2" "PR 2 again" "u2" 8 exPgWorld1).2)) ∧
    ((("backend" : String) ≠ "" ∧
        postgresHandler.teamService.AddTeam "backend"
            (teamAddMembers ⟨"backend", [⟨"u5", "Eve", true⟩]⟩) exPgWorld0
          = (.error .ErrTeamExists,
              (postgresHandler.teamService.AddTeam "backend"
                (teamAddMembers ⟨"backend", [⟨"u5", "Eve", true⟩]⟩) exPgWorld0).2)) ∧
      postgresHandler.handleTeamAdd
          { Method := MethodPost, Body := some ⟨"backend", [⟨"u5", "Eve", true⟩]⟩ } exPgWorld0
        = (.ok { status := 400, allow := none,
                 body := .errorBody "TEAM_EXISTS" "team_name already exists" },
            (postgresHandler.teamService.AddTeam "backend"
              (teamAddMembers ⟨"backend", [⟨"u5", "Eve", true⟩]⟩) exPgWorld0).2)) :=
  ⟨⟨⟨by decide, by decide, by decide, by rfl⟩,
      (Already_exists_status_codes postgresHandler (fun t => toString t) 8 exPgWorld1
        (postgresHandler.prService.Create "pr2" "PR 2 again" "u2" 8 exPgWorld1).2).1
        ⟨"pr2", "PR 2 again", "u2"⟩ (by decide) (by decide) (by decide) (by rfl)⟩,
    ⟨⟨by decide, by rfl⟩,
      (Already_exists_status_codes postgresHandler (fun t => toString t) 8 exPgWorld0
        (postgresHandler.teamService.AddTeam "backend"
          (teamAddMembers ⟨"backend", [⟨"u5", "Eve", true⟩]⟩) exPgWorld0).2).2
        ⟨"backend", [⟨"u5", "Eve", true⟩]⟩ (by decide) (by rfl)⟩⟩

/-- C24, as stated, fails on `/team/add`: team "backend" is registered,
`AddTeam` reports the collision with `ErrTeamExists`, and the handler answers
with status 400, not 409. -/
theorem handleTeamAdd_collision_is_not_409 :
    (postgresHandler.teamService.AddTeam "backend" [] exPgWorld0).1 = .error .ErrTeamExists ∧
    (postgresHandler.handleTeamAdd
        { Method := MethodPost, Body := some { TeamName := "backend", Members := [] } }
        exPgWorld0).1
      = .ok { status := 400, allow := none,
              body := .errorBody "TEAM_EXISTS" "team_name already exists" } ∧
    ¬ ∃ resp, (postgresHandler.handleTeamAdd
        { Method := MethodPost, Body := some { TeamName := "backend", Members := [] } }
        exPgWorld0).1 = .ok resp ∧ resp.status = 409 := by
  have hrun : (postgresHandler.handleTeamAdd
        { Method := MethodPost, Body := some { TeamName := "backend", Members := [] } }
        exPgWorld0).1
      = .ok { status := 400, allow := none,
              body := .errorBody "TEAM_EXISTS" "team_name already exists" } := by rfl
  refine ⟨by rfl, hrun, ?_⟩
  rintro ⟨resp, hresp, hstatus⟩
  rw [hrun] at hresp
  simp only [Except.ok.injEq] at hresp
  rw [← hresp] at hstatus
  exact absurd hstatus (by decide)

/-- C25: on `/pullRequest/reassign` an error value `err` of `Reassign` is
answered with `prReassignError err`, which is 404 `NOT_FOUND` for
`ErrNotFound`, 409 `PR_MERGED` for `ErrPullRequestMerged`, 409 `NOT_ASSIGNED`
for `ErrNotAssigned`, 409 `NO_CANDIDATE` for `ErrNoCandidate` and 500
`INTERNAL` for any other error; the five codes are pairwise different; and a
request for a pull request that `Get` returns as MERGED is answered with 409
`PR_MERGED`. -/
theorem Reassign_errors_have_distinct_codes :
    (∀ (σ ρ : Type) (h : Handler σ ρ) (fmt : Time → String) (req : prReassignRequest)
        (w w1 : World σ ρ) (err : Err),
      req.PullRequestID ≠ "" → req.OldUserID ≠ "" → err ≠ .indexOutOfRange →
      h.prService.Reassign req.PullRequestID req.OldUserID w = (.error err, w1) →
      h.handlePRReassign fmt { Method := MethodPost, Body := some req } w
        = (.ok (prReassignError err), w1)) ∧
    (prReassignError .ErrNotFound
        = { status := 404, allow := none,
            body := .errorBody "NOT_FOUND" "resource not found" } ∧
      prReassignError .ErrPullRequestMerged
        = { status := 409, allow := none,
            body := .errorBody "PR_MERGED" "cannot reassign on merged PR" } ∧
      prReassignError .ErrNotAssigned
        = { status := 409, allow := none,
            body := .errorBody "NOT_ASSIGNED" "reviewer is not assigned to this PR" } ∧
      prReassignError .ErrNoCandidate
        = { status := 409, allow := none,
            body := .errorBody "NO_CANDIDATE" "no active replacement candidate in team" } ∧
      ∀ err : Err, err ≠ .ErrNotFound → err ≠ .ErrPullRequestMerged →
        err ≠ .ErrNotAssigned → err ≠ .ErrNoCandidate →
        prReassignError err
          = { status := 500, allow := none,
              body := .errorBody "INTERNAL" "internal error" }) ∧
    ["NOT_FOUND", "PR_MERGED", "NOT_ASSIGNED", "NO_CANDIDATE", "INTERNAL"].Nodup ∧
    (∀ (σ ρ : Type) (h : Handler σ ρ) (fmt : Time → String) (req : prReassignRequest)
        (w : World σ ρ) (pr0 : PullRequest) (st1 : σ),
      req.PullRequestID ≠ "" → req.OldUserID ≠ "" →
      h.prService.Prs.Get req.PullRequestID w.store = (.ok pr0, st1) →
      pr0.Status = PRStatusMerged →
      h.handlePRReassign fmt { Method := MethodPost, Body := some req } w
        = (.ok { status := 409, allow := none,
                 body := .errorBody "PR_MERGED" "cannot reassign on merged PR" },
            { store := st1, rand := w.rand,
              log := w.log ++ [Event.Get req.PullRequestID (.ok pr0)] })) := by
  refine ⟨?_, ⟨rfl, rfl, rfl, rfl, ?_⟩, by decide, ?_⟩
  · intro σ ρ h fmt req w w1 err hid hold herr hrun
    exact h.handlePRReassign_run_error fmt req w w1 err hid hold herr hrun
  · intro err h1 h2 h3 h4
    unfold prReassignError
    simp only [h1, h2, h3, h4, if_false]
    rfl
  · intro σ ρ h fmt req w pr0 st1 hid hold hGet hst
    rw [h.handlePRReassign_run_error fmt req w _ .ErrPullRequestMerged hid hold (by decide)
      (h.prService.Reassign_run_merged req.PullRequestID req.OldUserID w pr0 st1 hGet hst)]
    rfl

theorem Reassign_errors_have_distinct_codes_witness :
    (("pr2" : String) ≠ "" ∧ ("u4" : String) ≠ "" ∧
      postgresHandler.prService.Prs.Get "pr2" exPgWorld2.store
        = (.ok { ID := "pr2", Name := "PR 2", AuthorID := "u1", Status := PRStatusMerged,
                 AssignedReviewers := ["u3", "u4"], CreatedAt := 7, MergedAt := some 9 },
            exPgWorld2.store) ∧
      PRStatusMerged = PRStatusMerged) ∧
    postgresHandler.handlePRReassign (fun t => toString t)
        { Method := MethodPost, Body := some ⟨"pr2", "u4"⟩ } exPgWorld2
      = (.ok { status := 409, allow := none,
               body := .errorBody "PR_MERGED" "cannot reassign on merged PR" },
          { store := exPgWorld2.store, rand := exPgWorld2.rand,
            log := exPgWorld2.log ++ [Event.Get "pr2"
              (.ok { ID := "pr2", Name := "PR 2", AuthorID := "u1", Status := PRStatusMerged,
                     AssignedReviewers := ["u3", "u4"], CreatedAt := 7,
                     MergedAt := some 9 })] }) :=
  ⟨⟨by decide, by decide, by rfl, rfl⟩,
    Reassign_errors_have_distinct_codes.2.2.2 PgStore Nat postgresHandler
      (fun t => toString t) ⟨"pr2", "u4"⟩ exPgWorld2 _ _ (by decide) (by decide) (by rfl) rfl⟩

/-- Run of `handleTeamBulkDeactivate` on a request with a team name and at
least one user ID: the team name is used for the echo only. -/
theorem Handler.handleTeamBulkDeactivate_run {σ ρ : Type} (h : Handler σ ρ)
    (req : teamBulkDeactivateRequest) (w : World σ ρ) (hname : req.TeamName ≠ "")
    (hids : req.UserIDs ≠ []) :
    h.handleTeamBulkDeactivate { Method := MethodPost, Body := some req } w =
      (match (h.prService.BulkDeactivateAndReassign req.UserIDs w).1 with
        | .ok _ =>
          .ok { status := 200, allow := none,
                body := .teamBulkDeactivateResponse req.TeamName req.UserIDs }
        | .error err =>
          if err = .indexOutOfRange then .error .indexOutOfRange
          else .ok { status := 500, allow := none,
                     body := .errorBody "INTERNAL" "internal error" },
       (h.prService.BulkDeactivateAndReassign req.UserIDs w).2) := by
  have hb1 : (req.TeamName == "") = false := by simpa using hname
  have hb2 : (req.UserIDs.length == 0) = false := by
    simpa using hids
  unfold Handler.handleTeamBulkDeactivate
  simp only [bne_self_eq_false, Bool.false_eq_true, if_false, hb1, hb2, Bool.or_self,
    List.map_id']
  rcases hB : h.prService.BulkDeactivateAndReassign req.UserIDs w with ⟨res, w1⟩
  rcases res with err | u
  · simp only [answerError]
    split <;> rfl
  · rfl

/-- C30: `handleTeamBulkDeactivate` uses `team_name` for the echo only. Two
requests with the same method, the same non-empty `user_ids` and non-empty
team names leave the same world behind, so they make the same repository
calls and the same users end up deactivated; for POST this is the world
`BulkDeactivateAndReassign` leaves for exactly the request's user IDs; and the
two responses are equal, or both are the 200 response that repeats the
request's `team_name` and `user_ids`. So a user who is not a member of the
named team is deactivated just the same: Eve of team "other" by a request that
names team "backend". -/
theorem Bulk_handler_ignores_team_name :
    (∀ (σ ρ : Type) (h : Handler σ ρ) (method : String) (ids : List String) (t1 t2 : String)
        (w : World σ ρ),
      ids ≠ [] → t1 ≠ "" → t2 ≠ "" →
      (h.handleTeamBulkDeactivate { Method := method, Body := some ⟨t1, ids⟩ } w).2
        = (h.handleTeamBulkDeactivate { Method := method, Body := some ⟨t2, ids⟩ } w).2 ∧
      (method = MethodPost →
        (h.handleTeamBulkDeactivate { Method := method, Body := some ⟨t1, ids⟩ } w).2
          = (h.prService.BulkDeactivateAndReassign ids w).2) ∧
      ((h.handleTeamBulkDeactivate { Method := method, Body := some ⟨t1, ids⟩ } w).1
          = (h.handleTeamBulkDeactivate { Method := method, Body := some ⟨t2, ids⟩ } w).1 ∨
        ((h.handleTeamBulkDeactivate { Method := method, Body := some ⟨t1, ids⟩ } w).1
            = .ok { status := 200, allow := none,
                    body := .teamBulkDeactivateResponse t1 ids } ∧
          (h.handleTeamBulkDeactivate { Method := method, Body := some ⟨t2, ids⟩ } w).1
            = .ok { status := 200, allow := none,
                    body := .teamBulkDeactivateResponse t2 ids }))) ∧
    ((Postgres.GetByID "u5" exPgWorld1.store).1 = .ok ⟨"u5", "Eve", "other", true⟩ ∧
      (postgresHandler.handleTeamBulkDeactivate
          { Method := MethodPost, Body := some ⟨"backend", ["u5", "ghost"]⟩ } exPgWorld1).1
        = .ok { status := 200, allow := none,
                body := .teamBulkDeactivateResponse "backend" ["u5", "ghost"] } ∧
      (Postgres.GetByID "u5"
          (postgresHandler.handleTeamBulkDeactivate
            { Method := MethodPost, Body := some ⟨"backend", ["u5", "ghost"]⟩ }
            exPgWorld1).2.store).1
        = .ok ⟨"u5", "Eve", "other", false⟩) := by
  refine ⟨?_, by rfl, by rfl, by rfl⟩
  intro σ ρ h method ids t1 t2 w hids h1 h2
  by_cases hm : method = MethodPost
  · subst hm
    rw [h.handleTeamBulkDeactivate_run ⟨t1, ids⟩ w h1 hids,
      h.handleTeamBulkDeactivate_run ⟨t2, ids⟩ w h2 hids]
    refine ⟨rfl, fun _ => rfl, ?_⟩
    rcases (h.prService.BulkDeactivateAndReassign ids w).1 with err | u
    · exact Or.inl rfl
    · exact Or.inr ⟨rfl, rfl⟩
  · have hb : (method != MethodPost) = true := by simpa using hm
    have e1 : ∀ t, h.handleTeamBulkDeactivate { Method := method, Body := some ⟨t, ids⟩ } w
        = (.ok methodNotAllowed, w) := by
      intro t
      unfold Handler.handleTeamBulkDeactivate
      simp only [hb, if_true]
    rw [e1 t1, e1 t2]
    exact ⟨rfl, fun hp => absurd hp hm, Or.inl rfl⟩

theorem Bulk_handler_ignores_team_name_witness :
    ((["u5"] : List String) ≠ [] ∧ ("backend" : String) ≠ "" ∧ ("other" : String) ≠ "") ∧
    ((postgresHandler.handleTeamBulkDeactivate
          { Method := MethodPost, Body := some ⟨"backend", ["u5"]⟩ } exPgWorld1).2
        = (postgresHandler.handleTeamBulkDeactivate
          { Method := MethodPost, Body := some ⟨"other", ["u5"]⟩ } exPgWorld1).2 ∧
      (MethodPost = MethodPost →
        (postgresHandler.handleTeamBulkDeactivate
            { Method := MethodPost, Body := some ⟨"backend", ["u5"]⟩ } exPgWorld1).2
          = (postgresHandler.prService.BulkDeactivateAndReassign ["u5"] exPgWorld1).2) ∧
      ((postgresHandler.handleTeamBulkDeactivate
            { Method := MethodPost, Body := some ⟨"backend", ["u5"]⟩ } exPgWorld1).1
          = (postgresHandler.handleTeamBulkDeactivate
            { Method := MethodPost, Body := some ⟨"other", ["u5"]⟩ } exPgWorld1).1 ∨
        ((postgresHandler.handleTeamBulkDeactivate
              { Method := MethodPost, Body := some ⟨"backend", ["u5"]⟩ } exPgWorld1).1
            = .ok { status := 200, allow := none,
                    body := .teamBulkDeactivateResponse "backend" ["u5"] } ∧
          (postgresHandler.handleTeamBulkDeactivate
              { Method := MethodPost, Body := some ⟨"other", ["u5"]⟩ } exPgWorld1).1
            = .ok { status := 200, allow := none,
                    body := .teamBulkDeactivateResponse "other" ["u5"] }))) :=
  ⟨⟨by decide, by decide, by decide⟩,
    Bulk_handler_ignores_team_name.1 PgStore Nat postgresHandler MethodPost ["u5"] "backend"
      "other" exPgWorld1 (by decide) (by decide) (by decide)⟩

/-! ## Reviewer selection: the order of the result and the index bounds -/

/-- C27: `pickRandomReviewers(users, limit, rnd)` returns the empty result when
`users` is empty or `limit <= 0`; otherwise, with `p` the permutation
`rnd.Perm(len(users))` and `n = min(limit, len(users))`, it returns `n` IDs, the
`i`-th being the ID of `users[p[i]]`. The result is the same for every
generator that returns the same permutation. -/
theorem pickRandomReviewers_reads_permutation_in_order {ρ : Type} (users : List User)
    (limit : Int) (rnd : Rand ρ) (r : ρ) :
    (users = [] ∨ limit ≤ 0 → (pickRandomReviewers users limit rnd r).1 = some []) ∧
    (users ≠ [] → 0 < limit →
      ∃ ids, (pickRandomReviewers users limit rnd r).1 = some ids ∧
        ids.length = min limit.toNat users.length ∧
        ∀ i, i < min limit.toNat users.length →
          ∃ (j : Nat) (u : User), (rnd.Perm users.length r).1[i]? = some j ∧
            users[j]? = some u ∧ ids[i]? = some u.ID) ∧
    (∀ (ρ2 : Type) (rnd2 : Rand ρ2) (r2 : ρ2),
      (rnd2.Perm users.length r2).1 = (rnd.Perm users.length r).1 →
      (pickRandomReviewers users limit rnd2 r2).1 = (pickRandomReviewers users limit rnd r).1) := by
  refine ⟨?_, ?_, ?_⟩
  · intro h
    have hc : users.length = 0 ∨ limit ≤ 0 := by
      rcases h with h | h
      · exact Or.inl (by simp [h])
      · exact Or.inr h
    unfold pickRandomReviewers
    simp only [hc, if_true]
  · intro hne hlim
    have hpos : 0 < users.length := List.length_pos.mpr hne
    have hc : ¬ (users.length = 0 ∨ limit ≤ 0) := by
      intro h
      rcases h with h | h <;> omega
    have hperm := rnd.Perm_perm users.length r
    have hlen : (rnd.Perm users.length r).1.length = users.length := by
      simpa using hperm.length_eq
    refine ⟨((rnd.Perm users.length r).1.take (min limit.toNat users.length)).map (idAt users),
      ?_, ?_, ?_⟩
    · unfold pickRandomReviewers
      simp only [hc, if_false]
      exact pickWithIndices_eq users limit _ hperm
    · simp [hlen]
    · intro i hi
      have hip : i < (rnd.Perm users.length r).1.length := by omega
      have hj : (rnd.Perm users.length r).1[i] < users.length :=
        perm_range_lt hperm _ (List.getElem_mem hip)
      refine ⟨(rnd.Perm users.length r).1[i], users[(rnd.Perm users.length r).1[i]],
        List.getElem?_eq_getElem hip, List.getElem?_eq_getElem hj, ?_⟩
      rw [List.getElem?_map, List.getElem?_take_of_lt hi, List.getElem?_eq_getElem hip]
      simp [idAt, List.getElem?_eq_getElem hj]
  · intro ρ2 rnd2 r2 hp
    unfold pickRandomReviewers
    split
    · rfl
    · simp only [hp]

theorem pickRandomReviewers_reads_permutation_in_order_witness :
    (exTrio ≠ [] ∧ (0 : Int) < 2) ∧
    ∃ ids, (pickRandomReviewers exTrio 2 descendingRand 0).1 = some ids ∧
      ids.length = min (2 : Int).toNat exTrio.length ∧
      ∀ i, i < min (2 : Int).toNat exTrio.length →
        ∃ (j : Nat) (u : User), (descendingRand.Perm exTrio.length 0).1[i]? = some j ∧
          exTrio[j]? = some u ∧ ids[i]? = some u.ID :=
  ⟨⟨by decide, by decide⟩,
    (pickRandomReviewers_reads_permutation_in_order exTrio 2 descendingRand 0).2.1
      (by decide) (by decide)⟩

/-- Run of `Reassign` when the old reviewer is assigned, `GetByID` found the
user and `ListActiveByTeam` returns an error. -/
theorem PRService.Reassign_run_list_error {σ ρ : Type} (s : PRService σ ρ)
    (prID : PullRequestID) (oldUserID : UserID) (w : World σ ρ) (pr0 : PullRequest)
    (oldUser : User) (e : Err) (st1 st2 st3 : σ)
    (hGet : s.Prs.Get prID w.store = (.ok pr0, st1)) (hst : pr0.Status ≠ PRStatusMerged)
    (hin : oldUserID ∈ pr0.AssignedReviewers)
    (hU : s.Users.GetByID oldUserID st1 = (.ok oldUser, st2))
    (hL : s.Users.ListActiveByTeam oldUser.TeamName st2 = (.error e, st3)) :
    s.Reassign prID oldUserID w =
      (.error e,
        { store := st3, rand := w.rand,
          log := w.log ++ [Event.Get prID (.ok pr0), Event.GetByID oldUserID (.ok oldUser),
            Event.ListActiveByTeam oldUser.TeamName (.error e)] }) := by
  have hb : (pr0.Status == PRStatusMerged) = false := by simpa using hst
  have hf : (pr0.AssignedReviewers.any (fun r => r == oldUserID)) = true := by
    rw [List.any_eq_true]
    exact ⟨oldUserID, hin, by simp⟩
  unfold PRService.Reassign
  simp only [Eff.bind_run, Eff.call_run, hGet, hb, hf, hU, hL, Bool.false_eq_true, if_false,
    Bool.not_true]
  simp

/-- The error of `Reassign` is one of its three business errors or the error
of one of its four repository calls. -/
theorem PRService.Reassign_error_cases {σ ρ : Type} (s : PRService σ ρ) (prID : PullRequestID)
    (oldUserID : UserID) (w : World σ ρ) (e : Err)
    (h : (s.Reassign prID oldUserID w).1 = .error e) :
    e = .ErrPullRequestMerged ∨ e = .ErrNotAssigned ∨ e = .ErrNoCandidate ∨
    (∃ st, (s.Prs.Get prID st).1 = .error e) ∨
    (∃ st, (s.Users.GetByID oldUserID st).1 = .error e) ∨
    (∃ t st, (s.Users.ListActiveByTeam t st).1 = .error e) ∨
    (∃ new st, (s.Prs.ReplaceReviewer prID oldUserID new st).1 = .error e) := by
  rcases hGet : s.Prs.Get prID w.store with ⟨rG, st1⟩
  rcases rG with e1 | pr0
  · rw [s.Reassign_run_get_error prID oldUserID w e1 st1 hGet] at h
    simp only [Except.error.injEq] at h
    subst h
    exact Or.inr (Or.inr (Or.inr (Or.inl ⟨w.store, by rw [hGet]⟩)))
  by_cases hst : pr0.Status = PRStatusMerged
  · rw [s.Reassign_run_merged prID oldUserID w pr0 st1 hGet hst] at h
    simp only [Except.error.injEq] at h
    exact Or.inl h.symm
  by_cases hin : oldUserID ∈ pr0.AssignedReviewers
  swap
  · rw [s.Reassign_run_not_assigned prID oldUserID w pr0 st1 hGet hst hin] at h
    simp only [Except.error.injEq] at h
    exact Or.inr (Or.inl h.symm)
  rcases hU : s.Users.GetByID oldUserID st1 with ⟨rU, st2⟩
  rcases rU with e1 | oldUser
  · rw [s.Reassign_run_user_error prID oldUserID w pr0 e1 st1 st2 hGet hst hin hU] at h
    simp only [Except.error.injEq] at h
    subst h
    exact Or.inr (Or.inr (Or.inr (Or.inr (Or.inl ⟨st1, by rw [hU]⟩))))
  rcases hL : s.Users.ListActiveByTeam oldUser.TeamName st2 with ⟨rL, st3⟩
  rcases rL with e1 | cands
  · rw [s.Reassign_run_list_error prID oldUserID w pr0 oldUser e1 st1 st2 st3 hGet hst hin hU hL]
      at h
    simp only [Except.error.injEq] at h
    subst h
    exact Or.inr (Or.inr (Or.inr (Or.inr (Or.inr (Or.inl ⟨_, st2, by rw [hL]⟩)))))
  obtain ⟨hempty, hpick⟩ :=
    s.Reassign_run_reads prID oldUserID w pr0 oldUser cands st1 st2 st3 hGet hst hin hU hL
  by_cases hpool : PRService.reassignFiltered pr0 oldUserID cands = []
  · rw [hempty hpool] at h
    simp only [Except.error.injEq] at h
    exact Or.inr (Or.inr (Or.inl h.symm))
  obtain ⟨new, r, -, hrun⟩ := hpick hpool
  rw [hrun] at h
  rcases hR : (s.Prs.ReplaceReviewer prID oldUserID new st3).1 with e1 | u
  · rw [hR] at h
    simp only [Except.error.injEq] at h
    subst h
    exact Or.inr (Or.inr (Or.inr (Or.inr (Or.inr (Or.inr ⟨new, st3, hR⟩)))))
  · rw [hR] at h
    simp at h

/-- C29: no indexing in the reviewer selection goes out of range. For every
candidate list, limit and permutation of the list's indices the loop of
`pickRandomReviewers` returns a result, which it does exactly when every access
`indices[i]` and `users[indices[i]]` is within bounds; so does
`pickRandomReviewers` with any generator; on a non-empty list and limit 1 it
returns exactly one ID, so the access `[0]` in `Reassign` succeeds; and
`Reassign` ends with an index out of range only when one of its repository
calls does. -/
theorem Reviewer_selection_never_indexes_out_of_range :
    (∀ (users : List User) (limit : Int) (indices : List Nat),
      List.Perm indices (List.range users.length) →
      ∃ ids, pickWithIndices users limit indices = some ids) ∧
    (∀ (ρ : Type) (users : List User) (limit : Int) (rnd : Rand ρ) (r : ρ),
      ∃ ids, (pickRandomReviewers users limit rnd r).1 = some ids) ∧
    (∀ (σ ρ : Type) (s : PRService σ ρ) (filtered : List User) (w : World σ ρ),
      filtered ≠ [] →
      ∃ (x : UserID) (r : ρ), s.pick filtered 1 w = (.ok [x], { w with rand := r }) ∧
        [x][0]? = some x) ∧
    (∀ (σ ρ : Type) (s : PRService σ ρ) (prID : PullRequestID) (oldUserID : UserID)
        (w : World σ ρ),
      (∀ st, (s.Prs.Get prID st).1 ≠ .error .indexOutOfRange) →
      (∀ st, (s.Users.GetByID oldUserID st).1 ≠ .error .indexOutOfRange) →
      (∀ t st, (s.Users.ListActiveByTeam t st).1 ≠ .error .indexOutOfRange) →
      (∀ new st, (s.Prs.ReplaceReviewer prID oldUserID new st).1 ≠ .error .indexOutOfRange) →
      (s.Reassign prID oldUserID w).1 ≠ .error .indexOutOfRange) := by
  refine ⟨?_, ?_, ?_, ?_⟩
  · intro users limit indices hperm
    exact ⟨_, pickWithIndices_eq users limit indices hperm⟩
  · intro ρ users limit rnd r
    obtain ⟨ids, h, -⟩ := pickRandomReviewers_spec users limit rnd r
    exact ⟨ids, h⟩
  · intro σ ρ s filtered w hne
    obtain ⟨ids, r, hp, hlen, -, -⟩ := s.pick_spec filtered 1 w
    have hpos : 0 < filtered.length := List.length_pos.mpr hne
    have hlen1 : ids.length = 1 := by
      rw [hlen]
      have : (1 : Int).toNat = 1 := rfl
      omega
    obtain ⟨x, rfl⟩ : ∃ x, ids = [x] := List.length_eq_one.mp hlen1
    exact ⟨x, r, hp, rfl⟩
  · intro σ ρ s prID oldUserID w hG hU hL hR hpanic
    rcases s.Reassign_error_cases prID oldUserID w _ hpanic with
      h | h | h | ⟨st, h⟩ | ⟨st, h⟩ | ⟨t, st, h⟩ | ⟨new, st, h⟩
    · cases h
    · cases h
    · cases h
    · exact hG st h
    · exact hU st h
    · exact hL t st h
    · exact hR new st h

theorem Reviewer_selection_never_indexes_out_of_range_witness :
    (List.Perm [2, 0, 1] (List.range exTrio.length) ∧
      ∃ ids, pickWithIndices exTrio 2 [2, 0, 1] = some ids) ∧
    (exTrio ≠ [] ∧
      ∃ (x : UserID) (r : Nat), fakeService.pick exTrio 1 exWorld0
        = (.ok [x], { exWorld0 with rand := r }) ∧ [x][0]? = some x) ∧
    (fakeService.Reassign "pr2" "u4" exWorld1).1 ≠ .error .indexOutOfRange :=
  ⟨⟨by decide,
      Reviewer_selection_never_indexes_out_of_range.1 exTrio 2 [2, 0, 1] (by decide)⟩,
    ⟨by decide,
      Reviewer_selection_never_indexes_out_of_range.2.2.1 FakeStore Nat fakeService exTrio
        exWorld0 (by decide)⟩,
    Reviewer_selection_never_indexes_out_of_range.2.2.2 FakeStore Nat fakeService "pr2" "u4"
      exWorld1
      (fun st => by
        show (FakeStore.Get "pr2" st).1 ≠ .error .indexOutOfRange
        unfold FakeStore.Get
        split <;> simp)
      (fun st => by
        show (FakeStore.GetByID "u4" st).1 ≠ .error .indexOutOfRange
        unfold FakeStore.GetByID
        split <;> simp)
      (fun t st => by
        show (FakeStore.ListActiveByTeam t st).1 ≠ .error .indexOutOfRange
        simp [FakeStore.ListActiveByTeam])
      (fun new st => by
        show (FakeStore.ReplaceReviewer "pr2" "u4" new st).1 ≠ .error .indexOutOfRange
        unfold FakeStore.ReplaceReviewer
        split <;> simp)⟩

/-! ## Bulk deactivation: a reviewer picked and then deactivated -/

theorem exChainWorld_run_ra :
    fakeService.BulkDeactivateAndReassign ["ra"] exChainWorld = (.ok (), exChainWorldMid) :=
  rfl

theorem exChainWorld_run_rb :
    fakeService.BulkDeactivateAndReassign ["rb"] exChainWorldMid = (.ok (), exChainWorld1) :=
  rfl

/-- The bulk deactivation of `ra`, `rb` in `exChainWorld`, evaluated. -/
theorem exChainWorld_run :
    fakeService.BulkDeactivateAndReassign ["ra", "rb"] exChainWorld = (.ok (), exChainWorld1) := by
  have h := fakeService.Bulk_append ["rb"] ["ra"] exChainWorld
  rw [exChainWorld_run_ra] at h
  simp only at h
  rw [exChainWorld_run_rb] at h
  exact h

/-- C28: there is a store state and a list of user IDs for which
`BulkDeactivateAndReassign` returns no error and leaves a user of the list,
now inactive, as reviewer of an OPEN pull request that this user was not
reviewing before. In team "core" of `a`, `ra`, `rb`, `rc` with `a` the author
and `ra`, `rc` the reviewers of `p`, the list `ra`, `rb`: when `p` is
reassigned for `ra`, `rb` is still active and is the replacement; when `rb` is
deactivated next, no candidate is left for `p`. -/
theorem Bulk_can_leave_a_new_inactive_reviewer :
    ∃ (w : World FakeStore Nat) (ids : List UserID) (earlier uid : UserID)
        (prID : PullRequestID) (pr0 pr1 : PullRequest) (u0 u1 : User),
      earlier ∈ ids ∧ uid ∈ ids ∧
      (FakeStore.Get prID w.store).1 = .ok pr0 ∧ uid ∉ pr0.AssignedReviewers ∧
      (FakeStore.GetByID uid w.store).1 = .ok u0 ∧ u0.IsActive = true ∧
      (fakeService.BulkDeactivateAndReassign ids w).1 = .ok () ∧
      (FakeStore.Get prID (fakeService.BulkDeactivateAndReassign ids w).2.store).1 = .ok pr1 ∧
      pr1.Status = PRStatusOpen ∧ uid ∈ pr1.AssignedReviewers ∧
      (FakeStore.GetByID uid (fakeService.BulkDeactivateAndReassign ids w).2.store).1
        = .ok u1 ∧
      u1.IsActive = false ∧
      (∃ l1 l2, (fakeService.BulkDeactivateAndReassign ids w).2.log
        = l1 ++ Event.ReplaceReviewer prID earlier uid (.ok ()) :: l2) ∧
      (fakeService.Reassign prID uid (fakeService.BulkDeactivateAndReassign ids w).2).1
        = .error .ErrNoCandidate := by
  refine ⟨exChainWorld, ["ra", "rb"], "ra", "rb", "p", exChainPR,
    { exChainPR with AssignedReviewers := ["rb", "rc"] },
    ⟨"rb", "Rob", "core", true⟩, ⟨"rb", "Rob", "core", false⟩, ?_⟩
  rw [exChainWorld_run]
  exact ⟨by decide, by decide, rfl, by decide, rfl, rfl, rfl, rfl, rfl, by decide, rfl, rfl,
    ⟨exChainLog1, exChainLog2, rfl⟩, rfl⟩

/-! ## The generator held by the service -/

theorem Rand.advance_nil {ρ : Type} (rnd : Rand ρ) (r : ρ) : rnd.advance [] r = r := rfl

theorem Rand.advance_append {ρ : Type} (rnd : Rand ρ) (ns ms : List Nat) (r : ρ) :
    rnd.advance (ns ++ ms) r = rnd.advance ms (rnd.advance ns r) := by
  simp [Rand.advance, List.foldl_append]

theorem Eff.Advances.mono {σ ρ α : Type} {rnd : Rand ρ} {k k2 : Nat} {m : Eff σ ρ α}
    (hk : k ≤ k2) (h : Eff.Advances rnd k m) : Eff.Advances rnd k2 m := by
  intro w
  obtain ⟨ns, hlen, hr⟩ := h w
  exact ⟨ns, by omega, hr⟩

theorem Eff.Advances.pure {σ ρ α : Type} (rnd : Rand ρ) (a : α) :
    Eff.Advances rnd 0 (Pure.pure a : Eff σ ρ α) :=
  fun _ => ⟨[], by simp, rfl⟩

theorem Eff.Advances.fail {σ ρ α : Type} (rnd : Rand ρ) (e : Err) :
    Eff.Advances rnd 0 (Eff.fail e : Eff σ ρ α) :=
  fun _ => ⟨[], by simp, rfl⟩

theorem Eff.Advances.call {σ ρ α : Type} (rnd : Rand ρ) (op : σ → Except Err α × σ)
    (ev : Except Err α → Event) :
    Eff.Advances rnd 0 (Eff.call op ev : Eff σ ρ α) :=
  fun _ => ⟨[], by simp, rfl⟩

theorem Eff.Advances.bind {σ ρ α β : Type} {rnd : Rand ρ} (k1 k2 : Nat) {m : Eff σ ρ α}
    {f : α → Eff σ ρ β} (hm : Eff.Advances rnd k1 m) (hf : ∀ a, Eff.Advances rnd k2 (f a)) :
    Eff.Advances rnd (k1 + k2) (m >>= f) := by
  intro w
  obtain ⟨ns, hlen, hr⟩ := hm w
  rw [Eff.bind_run]
  rcases hmw : m w with ⟨res, w1⟩
  rw [hmw] at hr
  rcases res with e | a
  · exact ⟨ns, by omega, hr⟩
  · obtain ⟨ms, hlen2, hr2⟩ := hf a w1
    refine ⟨ns ++ ms, by simp; omega, ?_⟩
    simp only at hr
    rw [Rand.advance_append, ← hr]
    exact hr2

theorem PRService.pick_rand {σ ρ : Type} (s : PRService σ ρ) (users : List User)
    (limit : Int) (w : World σ ρ) :
    (s.pick users limit w).2.rand = (pickRandomReviewers users limit s.Rand w.rand).2 := by
  unfold PRService.pick
  rcases pickRandomReviewers users limit s.Rand w.rand with ⟨res, r⟩
  rcases res with _ | ids <;> rfl

theorem PRService.pick_advances {σ ρ : Type} (s : PRService σ ρ) (users : List User)
    (limit : Int) : Eff.Advances s.Rand 1 (s.pick users limit) := by
  intro w
  rw [s.pick_rand users limit w]
  unfold pickRandomReviewers
  by_cases hc : users.length = 0 ∨ limit ≤ 0
  · simp only [hc, if_true]
    exact ⟨[], by simp, rfl⟩
  · simp only [hc, if_false]
    exact ⟨[users.length], by simp, rfl⟩

theorem PRService.Create_advances {σ ρ : Type} (s : PRService σ ρ) (id : PullRequestID)
    (name : String) (authorID : UserID) (now : Time) :
    Eff.Advances s.Rand 1 (s.Create id name authorID now) := by
  unfold PRService.Create
  refine Eff.Advances.mono (by omega) (Eff.Advances.bind 0 1 (Eff.Advances.call _ _ _) ?_)
  intro b
  cases b
  · simp only [Bool.false_eq_true, if_false]
    refine Eff.Advances.mono (by omega) (Eff.Advances.bind 0 1 (Eff.Advances.call _ _ _) ?_)
    intro author
    refine Eff.Advances.mono (by omega) (Eff.Advances.bind 0 1 (Eff.Advances.call _ _ _) ?_)
    intro candidates
    refine Eff.Advances.mono (by omega) (Eff.Advances.bind 1 0 (s.pick_advances _ _) ?_)
    intro assigned
    refine Eff.Advances.mono (by omega) (Eff.Advances.bind 0 0 (Eff.Advances.call _ _ _) ?_)
    intro _
    exact Eff.Advances.pure _ _
  · simp only [if_true]
    exact Eff.Advances.mono (by omega) (Eff.Advances.fail _ _)

theorem PRService.Merge_advances {σ ρ : Type} (s : PRService σ ρ) (id : PullRequestID)
    (now : Time) : Eff.Advances s.Rand 0 (s.Merge id now) := by
  unfold PRService.Merge
  refine Eff.Advances.mono (by omega) (Eff.Advances.bind 0 0 (Eff.Advances.call _ _ _) ?_)
  intro pr
  split
  · exact Eff.Advances.pure _ _
  · refine Eff.Advances.mono (by omega) (Eff.Advances.bind 0 0 (Eff.Advances.call _ _ _) ?_)
    intro _
    exact Eff.Advances.pure _ _

theorem PRService.Reassign_advances {σ ρ : Type} (s : PRService σ ρ) (prID : PullRequestID)
    (oldUserID : UserID) : Eff.Advances s.Rand 1 (s.Reassign prID oldUserID) := by
  unfold PRService.Reassign
  refine Eff.Advances.mono (by omega) (Eff.Advances.bind 0 1 (Eff.Advances.call _ _ _) ?_)
  intro pr
  split
  · exact Eff.Advances.mono (by omega) (Eff.Advances.fail _ _)
  · try dsimp only
    split
    · exact Eff.Advances.mono (by omega) (Eff.Advances.fail _ _)
    · refine Eff.Advances.mono (by omega) (Eff.Advances.bind 0 1 (Eff.Advances.call _ _ _) ?_)
      intro oldUser
      refine Eff.Advances.mono (by omega) (Eff.Advances.bind 0 1 (Eff.Advances.call _ _ _) ?_)
      intro candidates
      try dsimp only
      split
      · exact Eff.Advances.mono (by omega) (Eff.Advances.fail _ _)
      · refine Eff.Advances.mono (by omega) (Eff.Advances.bind 1 0 (s.pick_advances _ _) ?_)
        intro picked
        split
        · exact Eff.Advances.fail _ _
        · refine Eff.Advances.mono (by omega)
            (Eff.Advances.bind 0 0 (Eff.Advances.call _ _ _) ?_)
          intro _
          exact Eff.Advances.pure _ _

/-- The inner loop of the bulk operation changes the generator state by calls
of `Perm` only. -/
theorem PRService.reassignOpen_advances {σ ρ : Type} (s : PRService σ ρ) (uid : UserID)
    (prs : List PullRequestShort) :
    ∀ w : World σ ρ, ∃ ns : List Nat,
      (s.reassignOpen uid prs w).2.rand = s.Rand.advance ns w.rand := by
  induction prs with
  | nil => intro w; exact ⟨[], rfl⟩
  | cons p rest ih =>
    intro w
    rw [PRService.reassignOpen_cons]
    by_cases hb : (p.Status != PRStatusOpen) = true
    · simp only [hb, if_true]
      exact ih w
    · simp only [hb, Bool.false_eq_true, if_false]
      obtain ⟨ns, -, hr⟩ := s.Reassign_advances p.ID uid w
      rcases hR : s.Reassign p.ID uid w with ⟨res, w1⟩
      rw [hR] at hr
      simp only at hr
      have hnext : ∃ ms, (s.reassignOpen uid rest w1).2.rand = s.Rand.advance ms w.rand := by
        obtain ⟨ms, hm⟩ := ih w1
        exact ⟨ns ++ ms, by rw [Rand.advance_append, ← hr]; exact hm⟩
      rcases res with e | x
      · simp only
        split
        · exact hnext
        · exact ⟨ns, hr⟩
      · exact hnext

/-- The bulk operation changes the generator state by calls of `Perm` only. -/
theorem PRService.Bulk_advances {σ ρ : Type} (s : PRService σ ρ) (ids : List UserID) :
    ∀ w : World σ ρ, ∃ ns : List Nat,
      (s.BulkDeactivateAndReassign ids w).2.rand = s.Rand.advance ns w.rand := by
  induction ids with
  | nil => intro w; exact ⟨[], rfl⟩
  | cons uid rest ih =>
    intro w
    rw [PRService.Bulk_cons]
    simp only [Eff.call_run]
    rcases (s.Users.GetByID uid w.store) with ⟨r1, st1⟩
    rcases r1 with e | u
    · simp only
      split
      · exact ih _
      · exact ⟨[], rfl⟩
    · simp only
      rcases (s.Users.SetIsActive uid false st1) with ⟨r2, st2⟩
      rcases r2 with e | u2
      · exact ⟨[], rfl⟩
      · simp only
        rcases (s.Prs.ListByReviewer uid st2) with ⟨r3, st3⟩
        rcases r3 with e | prs
        · exact ⟨[], rfl⟩
        · simp only
          obtain ⟨ns, hr⟩ := s.reassignOpen_advances uid prs
            { store := st3, rand := w.rand,
              log := w.log ++ [Event.GetByID uid (.ok u)] ++
                [Event.SetIsActive uid false (.ok u2)] ++ [Event.ListByReviewer uid (.ok prs)] }
          rcases hO : s.reassignOpen uid prs
            { store := st3, rand := w.rand,
              log := w.log ++ [Event.GetByID uid (.ok u)] ++
                [Event.SetIsActive uid false (.ok u2)] ++ [Event.ListByReviewer uid (.ok prs)] }
            with ⟨r4, w4⟩
          rw [hO] at hr
          simp only at hr
          rcases r4 with e | x
          · exact ⟨ns, hr⟩
          · simp only
            obtain ⟨ms, hm⟩ := ih w4
            exact ⟨ns ++ ms, by rw [Rand.advance_append, ← hr]; exact hm⟩

theorem TeamService.AddTeam_rand {σ ρ : Type} (s : TeamService σ) (name : TeamName)
    (members : List User) (w : World σ ρ) : (s.AddTeam name members w).2.rand = w.rand := by
  unfold TeamService.AddTeam
  simp only [Eff.bind_run, Eff.call_run]
  rcases s.teams.TeamExists name w.store with ⟨r1, st1⟩
  rcases r1 with e | b
  · rfl
  cases b
  swap
  · rfl
  simp only [Bool.false_eq_true, if_false, Eff.bind_run, Eff.call_run]
  rcases s.teams.CreateTeam name st1 with ⟨r2, st2⟩
  rcases r2 with e | u
  · rfl
  simp only
  rcases s.users.UpsertUsers (TeamService.stamp name members) st2 with ⟨r3, st3⟩
  rcases r3 with e | u
  · rfl
  simp only
  rcases s.teams.GetTeam name st3 with ⟨r4, st4⟩
  rcases r4 with e | t <;> rfl

/-- C26, as stated, fails for `PRService`: the service holds the generator,
`Create` changes its state (0 before the call, 1 after it), and the next
`Create` reads it: in the world the first call left, it assigns `u4` and `u3`;
in the same world with the generator state put back, `u2` and `u3`. -/
theorem Create_reads_and_advances_the_generator :
    (memService alternatingRand).Create "pr2" "PR 2" "u1" 7 exWorld0
      = (.ok { ID := "pr2", Name := "PR 2", AuthorID := "u1", Status := PRStatusOpen,
               AssignedReviewers := ["u2", "u3"], CreatedAt := 7, MergedAt := none },
          exAltWorld1) ∧
    exAltWorld1.store ≠ exWorld0.store ∧
    exAltWorld1.rand ≠ exWorld0.rand ∧
    ((memService alternatingRand).Create "pr3" "PR 3" "u1" 8 exAltWorld1).1
      = .ok { ID := "pr3", Name := "PR 3", AuthorID := "u1", Status := PRStatusOpen,
              AssignedReviewers := ["u4", "u3"], CreatedAt := 8, MergedAt := none } ∧
    ((memService alternatingRand).Create "pr3" "PR 3" "u1" 8
        { exAltWorld1 with rand := exWorld0.rand }).1
      = .ok { ID := "pr3", Name := "PR 3", AuthorID := "u1", Status := PRStatusOpen,
              AssignedReviewers := ["u2", "u3"], CreatedAt := 8, MergedAt := none } ∧
    ¬ (∀ r : Nat,
      ((memService alternatingRand).Create "pr3" "PR 3" "u1" 8 { exAltWorld1 with rand := r }).1
        = ((memService alternatingRand).Create "pr3" "PR 3" "u1" 8 exAltWorld1).1) := by
  have h1 : ((memService alternatingRand).Create "pr3" "PR 3" "u1" 8 exAltWorld1).1
      = .ok { ID := "pr3", Name := "PR 3", AuthorID := "u1", Status := PRStatusOpen,
              AssignedReviewers := ["u4", "u3"], CreatedAt := 8, MergedAt := none } := rfl
  have h2 : ((memService alternatingRand).Create "pr3" "PR 3" "u1" 8
        { exAltWorld1 with rand := exWorld0.rand }).1
      = .ok { ID := "pr3", Name := "PR 3", AuthorID := "u1", Status := PRStatusOpen,
              AssignedReviewers := ["u2", "u3"], CreatedAt := 8, MergedAt := none } := rfl
  refine ⟨rfl, by decide, by decide, h1, h2, ?_⟩
  intro hall
  have h3 := hall exWorld0.rand
  rw [h1, h2] at h3
  simp only [Except.ok.injEq] at h3
  exact absurd h3 (by decide)

/-- C26, as amended: `TeamService` and `UserService` hold no mutable state,
and `PRService` holds one, the generator `Rand`. No operation of
`TeamService` or `UserService`, and neither `Merge`, `ListByReviewer` nor
`StatsAssignmentsByUser`, changes the generator state; `Create` and `Reassign`
leave it as it was or as one call of `Perm` leaves it; and
`BulkDeactivateAndReassign` changes it through calls of `Perm` only. -/
theorem Services_change_only_the_generator {σ ρ : Type} (s : PRService σ ρ)
    (t : TeamService σ) (u : UserService σ) (w : World σ ρ) :
    (∀ name members, (t.AddTeam name members w).2.rand = w.rand) ∧
    (∀ name, (t.GetTeam name w).2.rand = w.rand) ∧
    (∀ id isActive, (u.SetIsActive id isActive w).2.rand = w.rand) ∧
    (∀ id now, (s.Merge id now w).2.rand = w.rand) ∧
    (∀ id, (s.ListByReviewer id w).2.rand = w.rand) ∧
    (s.StatsAssignmentsByUser w).2.rand = w.rand ∧
    (∀ id name authorID now,
      (s.Create id name authorID now w).2.rand = w.rand ∨
      ∃ n, (s.Create id name authorID now w).2.rand = (s.Rand.Perm n w.rand).2) ∧
    (∀ prID oldUserID,
      (s.Reassign prID oldUserID w).2.rand = w.rand ∨
      ∃ n, (s.Reassign prID oldUserID w).2.rand = (s.Rand.Perm n w.rand).2) ∧
    (∀ ids, ∃ ns : List Nat,
      (s.BulkDeactivateAndReassign ids w).2.rand = s.Rand.advance ns w.rand) := by
  have one : ∀ {α : Type} (m : Eff σ ρ α), Eff.Advances s.Rand 1 m →
      (m w).2.rand = w.rand ∨ ∃ n, (m w).2.rand = (s.Rand.Perm n w.rand).2 := by
    intro α m hm
    obtain ⟨ns, hlen, hr⟩ := hm w
    rcases ns with _ | ⟨n, rest⟩
    · exact Or.inl hr
    · have hrest : rest = [] := by
        rcases rest with _ | ⟨n2, r2⟩
        · rfl
        · simp at hlen
      subst hrest
      exact Or.inr ⟨n, hr⟩
  refine ⟨fun name members => t.AddTeam_rand name members w, ?_, ?_, ?_, fun _ => rfl, rfl,
    fun id name authorID now => one _ (s.Create_advances id name authorID now),
    fun prID oldUserID => one _ (s.Reassign_advances prID oldUserID),
    fun ids => s.Bulk_advances ids w⟩
  · intro name
    unfold TeamService.GetTeam
    simp only [Eff.bind_run, Eff.call_run]
    rcases s2 : t.teams.GetTeam name w.store with ⟨r, st⟩
    rcases r with e | x <;> rfl
  · intro id isActive
    unfold UserService.SetIsActive
    simp only [Eff.bind_run, Eff.call_run]
    rcases s2 : u.users.SetIsActive id isActive w.store with ⟨r, st⟩
    rcases r with e | x <;> rfl
  · intro id now
    obtain ⟨ns, hlen, hr⟩ := s.Merge_advances id now w
    have : ns = [] := List.length_eq_zero.mp (by omega)
    subst this
    exact hr

end PRReviewer
